import Mathlib

/-! go-atlassian, Jira v2 client: request construction and response transformation.

A shallow embedding of `jira/v2/api_client_impl.go` (`NewRequest`, `NewFormRequest`,
`Call`, `TransformStructToReader`) together with the parts of the Go standard library
these functions run through (`net/url`, `net/http` request construction, header maps,
base64, the encoder and the decoder of `encoding/json`), and of the validation and query
building of the
resource services, whose sources are outside `src/` and which are modelled from the
specification.

Conventions of the embedding:

* a Go `string` or `[]byte` is a list of bytes (`List UInt8`); `str` turns a Lean
  string literal into its UTF-8 bytes;
* a Go pointer or interface that may be nil is an `Option`;
* a Go function returning `(value, error)` returns a pair or an `Except`;
* a nil dereference is the outcome `panicked`;
* calls made on injected collaborators are recorded in a trace of events.
-/

namespace GoAtlassian

/-! ## Go strings as byte lists -/

/-- Go `string` / `[]byte`. -/
abbrev Bytes := List UInt8

/-- UTF-8 bytes of a Lean string literal. -/
def str (s : String) : Bytes := s.data.flatMap String.utf8EncodeChar

/-- Byte of an ASCII character literal. -/
def ch (c : Char) : UInt8 := c.toNat.toUInt8

namespace strings

/-- Go `strings.HasPrefix`. -/
def HasPrefix (s pre : Bytes) : Bool := pre.isPrefixOf s

/-- Go `strings.HasSuffix`. -/
def HasSuffix (s suf : Bytes) : Bool := suf.isSuffixOf s

/-- Go `strings.IndexByte`: position of the first occurrence of `c`. -/
def IndexByte : Bytes → UInt8 → Option Nat
  | [], _ => none
  | b :: rest, c => if b == c then some 0 else (IndexByte rest c).map (· + 1)

/-- Go `strings.LastIndexByte`: position of the last occurrence of `c`. -/
def LastIndexByte : Bytes → UInt8 → Option Nat
  | [], _ => none
  | b :: rest, c =>
    match LastIndexByte rest c with
    | some i => some (i + 1)
    | none => if b == c then some 0 else none

/-- Go `strings.Index` for an arbitrary separator. -/
def Index : Bytes → Bytes → Option Nat
  | [], sub => if sub.isEmpty then some 0 else none
  | b :: rest, sub =>
    if sub.isPrefixOf (b :: rest) then some 0 else (Index rest sub).map (· + 1)

/-- Go `strings.Contains` for a single byte separator. -/
def ContainsByte (s : Bytes) (c : UInt8) : Bool := s.contains c

/-- Go `strings.Count` for a single byte separator. -/
def CountByte (s : Bytes) (c : UInt8) : Nat := s.count c

/-- Go `strings.Cut` for a single byte separator: `(before, after, found)`. -/
def Cut (s : Bytes) (c : UInt8) : Bytes × Bytes × Bool :=
  match IndexByte s c with
  | some i => (s.take i, s.drop (i + 1), true)
  | none => (s, [], false)

/-- ASCII lower-casing of one byte. -/
def lowerByte (c : UInt8) : UInt8 :=
  if ch 'A' ≤ c ∧ c ≤ ch 'Z' then c + 32 else c

/-- Go `strings.ToLower` on ASCII input. -/
def ToLower (s : Bytes) : Bytes := s.map lowerByte

/-- Go `strings.TrimSuffix` for a single byte suffix. -/
def TrimSuffixByte (s : Bytes) (c : UInt8) : Bytes :=
  if s.getLast? == some c then s.dropLast else s

end strings

/-! ## Error values -/

/-- Go `error` values that the client can return: the sentinels of the `models`
package that the sources name, `*url.Error` (operation, URL, wrapped error), and plain
`errors.New` or `fmt.Errorf` values. -/
inductive GoError where
  | ErrInvalidStatusCodeError
  | ErrNilPayloadError
  | ErrNonPayloadPointerError
  | ErrCreateHttpReq
  | ErrNoWorkspaceID
  | ErrNoObjectID
  | ErrNoFieldIDError
  | ErrNoEditOperatorError
  | ErrNoEditValueError
  | ErrNoOperatorError
  | ErrNoCustomFieldError
  | urlError (op : String) (url : Bytes) (err : GoError)
  | errorString (msg : String)
  deriving DecidableEq, Repr

deriving instance DecidableEq for Except

/-- The failure is a `*url.Error` (what `errors.As(err, &urlErr)` tests). -/
def GoError.isURLError : GoError → Bool
  | .urlError _ _ _ => true
  | _ => false

/-! ## `net/url` -/

namespace url

/-- Go `url.Userinfo`. -/
structure Userinfo where
  username : Bytes
  password : Bytes
  passwordSet : Bool
  deriving DecidableEq, Repr

/-- Go `url.URL`. -/
structure URL where
  Scheme : Bytes := []
  Opaque : Bytes := []
  User : Option Userinfo := none
  Host : Bytes := []
  Path : Bytes := []
  RawPath : Bytes := []
  OmitHost : Bool := false
  ForceQuery : Bool := false
  RawQuery : Bytes := []
  Fragment : Bytes := []
  RawFragment : Bytes := []
  deriving DecidableEq, Repr

/-- Go `url.encoding`: which part of a URL is being escaped. -/
inductive encoding where
  | encodePath
  | encodePathSegment
  | encodeHost
  | encodeZone
  | encodeUserPassword
  | encodeQueryComponent
  | encodeFragment
  deriving DecidableEq, Repr

/-- Go `url.ishex`. -/
def ishex (c : UInt8) : Bool :=
  (ch '0' ≤ c && c ≤ ch '9') || (ch 'a' ≤ c && c ≤ ch 'f') || (ch 'A' ≤ c && c ≤ ch 'F')

/-- Go `url.unhex`. -/
def unhex (c : UInt8) : UInt8 :=
  if ch '0' ≤ c ∧ c ≤ ch '9' then c - ch '0'
  else if ch 'a' ≤ c ∧ c ≤ ch 'f' then c - ch 'a' + 10
  else if ch 'A' ≤ c ∧ c ≤ ch 'F' then c - ch 'A' + 10
  else 0

/-- Go `upperhex[i]` for `i < 16`. -/
def upperhex (i : UInt8) : UInt8 :=
  if i < 10 then ch '0' + i else ch 'A' + (i - 10)

/-- ASCII letter or digit. -/
def isAlnum (c : UInt8) : Bool :=
  (ch 'a' ≤ c && c ≤ ch 'z') || (ch 'A' ≤ c && c ≤ ch 'Z') || (ch '0' ≤ c && c ≤ ch '9')

/-- Go `url.shouldEscape`. The byte 39 is the apostrophe. -/
def shouldEscape (c : UInt8) (mode : encoding) : Bool :=
  if isAlnum c then false
  else if (mode == .encodeHost || mode == .encodeZone) &&
      [ch '!', ch '$', ch '&', 39, ch '(', ch ')', ch '*', ch '+', ch ',', ch ';', ch '=',
        ch ':', ch '[', ch ']', ch '<', ch '>', ch '"'].contains c then false
  else if [ch '-', ch '_', ch '.', ch '~'].contains c then false
  else if [ch '$', ch '&', ch '+', ch ',', ch '/', ch ':', ch ';', ch '=', ch '?', ch '@'].contains c then
    match mode with
    | .encodePath => c == ch '?'
    | .encodePathSegment => c == ch '/' || c == ch ';' || c == ch ',' || c == ch '?'
    | .encodeUserPassword => c == ch '@' || c == ch '/' || c == ch '?' || c == ch ':'
    | .encodeQueryComponent => true
    | .encodeFragment => false
    | .encodeHost => true
    | .encodeZone => true
  else if mode == .encodeFragment && [ch '!', ch '(', ch ')', ch '*'].contains c then false
  else true

/-- The checking pass of Go `url.unescape`: `none` when every `%` starts a
well-formed escape that the mode admits, otherwise the error. -/
def unescapeCheck (mode : encoding) : Bytes → Option GoError
  | [] => none
  | c :: rest =>
    if c == ch '%' then
      match rest with
      | h1 :: h2 :: rest2 =>
        if !ishex h1 || !ishex h2 then
          some (.errorString "invalid URL escape")
        else if mode == .encodeHost && unhex h1 < 8 && !(h1 == ch '2' && h2 == ch '5') then
          some (.errorString "invalid URL escape")
        else if mode == .encodeZone &&
            !(h1 == ch '2' && h2 == ch '5') &&
            (unhex h1 <<< 4 ||| unhex h2) != ch ' ' &&
            shouldEscape (unhex h1 <<< 4 ||| unhex h2) .encodeHost then
          some (.errorString "invalid URL escape")
        else unescapeCheck mode rest2
      | _ => some (.errorString "invalid URL escape")
    else if (mode == .encodeHost || mode == .encodeZone) && c < 0x80 && c != ch '+' &&
        shouldEscape c .encodeHost then
      some (.errorString "invalid character in host name")
    else unescapeCheck mode rest

/-- The rewriting pass of Go `url.unescape`, run on checked input. -/
def unescapeWrite (mode : encoding) : Bytes → Bytes
  | [] => []
  | c :: rest =>
    if c == ch '%' then
      match rest with
      | h1 :: h2 :: rest2 => (unhex h1 <<< 4 ||| unhex h2) :: unescapeWrite mode rest2
      | _ => c :: rest
    else if c == ch '+' && mode == .encodeQueryComponent then ch ' ' :: unescapeWrite mode rest
    else c :: unescapeWrite mode rest

/-- Go `url.unescape`. -/
def unescape (s : Bytes) (mode : encoding) : Except GoError Bytes :=
  match unescapeCheck mode s with
  | some e => .error e
  | none => .ok (unescapeWrite mode s)

/-- Go `url.escape`. -/
def escape (s : Bytes) (mode : encoding) : Bytes :=
  s.flatMap fun c =>
    if shouldEscape c mode then
      if c == ch ' ' && mode == .encodeQueryComponent then [ch '+']
      else [ch '%', upperhex (c >>> 4), upperhex (c &&& 15)]
    else [c]

/-- Go `url.validEncoded`. The byte 39 is the apostrophe. -/
def validEncoded (s : Bytes) (mode : encoding) : Bool :=
  s.all fun c =>
    if [ch '!', ch '$', ch '&', 39, ch '(', ch ')', ch '*', ch '+', ch ',', ch ';', ch '=',
        ch ':', ch '@', ch '[', ch ']', ch '%'].contains c then true
    else !shouldEscape c mode

/-- Go `url.stringContainsCTLByte`. -/
def stringContainsCTLByte (s : Bytes) : Bool := s.any fun b => b < ch ' ' || b == 0x7f

/-- The loop of Go `url.getScheme`, at index `i` with `rest` still to scan. -/
def getSchemeLoop (rawURL : Bytes) : Nat → Bytes → Except GoError (Bytes × Bytes)
  | _, [] => .ok ([], rawURL)
  | i, c :: rest =>
    if (ch 'a' ≤ c && c ≤ ch 'z') || (ch 'A' ≤ c && c ≤ ch 'Z') then
      getSchemeLoop rawURL (i + 1) rest
    else if (ch '0' ≤ c && c ≤ ch '9') || c == ch '+' || c == ch '-' || c == ch '.' then
      if i == 0 then .ok ([], rawURL) else getSchemeLoop rawURL (i + 1) rest
    else if c == ch ':' then
      if i == 0 then .error (.errorString "missing protocol scheme")
      else .ok (rawURL.take i, rest)
    else .ok ([], rawURL)

/-- Go `url.getScheme`: `(scheme, path)`. -/
def getScheme (rawURL : Bytes) : Except GoError (Bytes × Bytes) :=
  getSchemeLoop rawURL 0 rawURL

/-- Go `url.validOptionalPort`. -/
def validOptionalPort (port : Bytes) : Bool :=
  match port with
  | [] => true
  | c :: digits => c == ch ':' && digits.all fun b => ch '0' ≤ b && b ≤ ch '9'

/-- Go `url.validUserinfo`. The byte 39 is the apostrophe. -/
def validUserinfo (s : Bytes) : Bool :=
  s.all fun r =>
    isAlnum r ||
    [ch '-', ch '.', ch '_', ch ':', ch '~', ch '!', ch '$', ch '&', 39, ch '(', ch ')', ch '*',
      ch '+', ch ',', ch ';', ch '=', ch '%', ch '@'].contains r

/-- Go `url.parseHost`. -/
def parseHost (host : Bytes) : Except GoError Bytes :=
  if strings.HasPrefix host [ch '['] then
    match strings.LastIndexByte host (ch ']') with
    | none => .error (.errorString "missing ']' in host")
    | some i =>
      if !validOptionalPort (host.drop (i + 1)) then
        .error (.errorString "invalid port after host")
      else
        match strings.Index (host.take i) (str "%25") with
        | some zone =>
          match unescape (host.take zone) .encodeHost with
          | .error e => .error e
          | .ok host1 =>
            match unescape ((host.take i).drop zone) .encodeZone with
            | .error e => .error e
            | .ok host2 =>
              match unescape (host.drop i) .encodeHost with
              | .error e => .error e
              | .ok host3 => .ok (host1 ++ host2 ++ host3)
        | none => unescape host .encodeHost
  else
    match strings.LastIndexByte host (ch ':') with
    | some i =>
      if !validOptionalPort (host.drop i) then .error (.errorString "invalid port after host")
      else unescape host .encodeHost
    | none => unescape host .encodeHost

/-- Go `url.parseAuthority`: `(user, host)`. -/
def parseAuthority (authority : Bytes) : Except GoError (Option Userinfo × Bytes) :=
  match strings.LastIndexByte authority (ch '@') with
  | none =>
    match parseHost authority with
    | .error e => .error e
    | .ok host => .ok (none, host)
  | some i =>
    match parseHost (authority.drop (i + 1)) with
    | .error e => .error e
    | .ok host =>
      let userinfo := authority.take i
      if !validUserinfo userinfo then .error (.errorString "net/url: invalid userinfo")
      else if !strings.ContainsByte userinfo (ch ':') then
        match unescape userinfo .encodeUserPassword with
        | .error e => .error e
        | .ok u => .ok (some ⟨u, [], false⟩, host)
      else
        let (username, password, _) := strings.Cut userinfo (ch ':')
        match unescape username .encodeUserPassword with
        | .error e => .error e
        | .ok u =>
          match unescape password .encodeUserPassword with
          | .error e => .error e
          | .ok pw => .ok (some ⟨u, pw, true⟩, host)

/-- Go `(*URL).setPath`. -/
def URL.setPath (u : URL) (p : Bytes) : Except GoError URL :=
  match unescape p .encodePath with
  | .error e => .error e
  | .ok path =>
    if p == escape path .encodePath then .ok { u with Path := path, RawPath := [] }
    else .ok { u with Path := path, RawPath := p }

/-- The test `err == nil && p == want` on the result of `unescape(raw, mode)`. -/
def unescapesTo (raw : Bytes) (mode : encoding) (want : Bytes) : Bool :=
  match unescape raw mode with
  | .ok p => p == want
  | .error _ => false

/-- Go `(*URL).EscapedPath`. -/
def URL.EscapedPath (u : URL) : Bytes :=
  if u.RawPath != [] && validEncoded u.RawPath .encodePath &&
      unescapesTo u.RawPath .encodePath u.Path then u.RawPath
  else if u.Path == [ch '*'] then [ch '*']
  else escape u.Path .encodePath

/-- Go `(*URL).setFragment`. -/
def URL.setFragment (u : URL) (f : Bytes) : Except GoError URL :=
  match unescape f .encodeFragment with
  | .error e => .error e
  | .ok frag =>
    if f == escape frag .encodeFragment then .ok { u with Fragment := frag, RawFragment := [] }
    else .ok { u with Fragment := frag, RawFragment := f }

/-- Go `(*URL).EscapedFragment`. -/
def URL.EscapedFragment (u : URL) : Bytes :=
  if u.RawFragment != [] && validEncoded u.RawFragment .encodeFragment &&
      unescapesTo u.RawFragment .encodeFragment u.Fragment then u.RawFragment
  else escape u.Fragment .encodeFragment

/-- The part of Go `url.parse` that follows the splitting of scheme and query: `url`
holds the scheme and the query, `rest` is what remains of the input. -/
def parseRest (url : URL) (rest : Bytes) (viaRequest : Bool) : Except GoError URL :=
  if !strings.HasPrefix rest [ch '/'] && url.Scheme != [] then
    .ok { url with Opaque := rest }
  else if !strings.HasPrefix rest [ch '/'] && viaRequest then
    .error (.errorString "invalid URI for request")
  else if !strings.HasPrefix rest [ch '/'] &&
      strings.ContainsByte (strings.Cut rest (ch '/')).1 (ch ':') then
    .error (.errorString "first path segment in URL cannot contain colon")
  else if (url.Scheme != [] || (!viaRequest && !strings.HasPrefix rest (str "///"))) &&
      strings.HasPrefix rest (str "//") then
    let authority0 := rest.drop 2
    let authority :=
      match strings.IndexByte authority0 (ch '/') with
      | some i => authority0.take i
      | none => authority0
    let rest2 :=
      match strings.IndexByte authority0 (ch '/') with
      | some i => authority0.drop i
      | none => []
    match parseAuthority authority with
    | .error e => .error e
    | .ok (user, host) => URL.setPath { url with User := user, Host := host } rest2
  else if url.Scheme != [] && strings.HasPrefix rest [ch '/'] then
    URL.setPath { url with OmitHost := true } rest
  else URL.setPath url rest

/-- Go `url.parse` (the unexported worker of `Parse` and `ParseRequestURI`). -/
def parse (rawURL : Bytes) (viaRequest : Bool) : Except GoError URL :=
  if stringContainsCTLByte rawURL then
    .error (.errorString "net/url: invalid control character in URL")
  else if rawURL == [] && viaRequest then .error (.errorString "empty url")
  else if rawURL == [ch '*'] then .ok { Path := [ch '*'] }
  else
    match getScheme rawURL with
    | .error e => .error e
    | .ok (scheme0, rest0) =>
      let scheme := strings.ToLower scheme0
      if strings.HasSuffix rest0 [ch '?'] && strings.CountByte rest0 (ch '?') == 1 then
        parseRest { Scheme := scheme, ForceQuery := true } rest0.dropLast viaRequest
      else
        parseRest { Scheme := scheme, RawQuery := (strings.Cut rest0 (ch '?')).2.1 }
          (strings.Cut rest0 (ch '?')).1 viaRequest

/-- Go `url.Parse`. -/
def Parse (rawURL : Bytes) : Except GoError URL :=
  let (u, frag, _) := strings.Cut rawURL (ch '#')
  match parse u false with
  | .error e => .error (.urlError "parse" u e)
  | .ok url =>
    if frag == [] then .ok url
    else
      match URL.setFragment url frag with
      | .error e => .error (.urlError "parse" rawURL e)
      | .ok url2 => .ok url2

/-- Pieces of `s` between occurrences of `c`, as repeated `strings.Cut(s, "/")` yields them. -/
def splitByte (c : UInt8) : Bytes → List Bytes
  | [] => [[]]
  | b :: rest =>
    match splitByte c rest with
    | [] => [[b]]
    | seg :: segs => if b == c then [] :: seg :: segs else (b :: seg) :: segs

/-- One round of the loop of Go `url.resolvePath` on the element `elem`; the state is
the text written to `dst` so far and the flag `first`. -/
def resolveStep (st : Bytes × Bool) (elem : Bytes) : Bytes × Bool :=
  if elem == [ch '.'] then (st.1, false)
  else if elem == [ch '.', ch '.'] then
    match strings.LastIndexByte (st.1.drop 1) (ch '/') with
    | none => ([ch '/'], true)
    | some index => (ch '/' :: (st.1.drop 1).take index, st.2)
  else ((if !st.2 then st.1 ++ [ch '/'] else st.1) ++ elem, false)

/-- Go `url.resolvePath`: the reference path resolved against the base path, with the
`.` and `..` elements removed (RFC 3986, 5.2). -/
def resolvePath (base ref : Bytes) : Bytes :=
  let full :=
    match ref with
    | [] => base
    | c :: _ =>
      if c != ch '/' then
        match strings.LastIndexByte base (ch '/') with
        | some i => base.take (i + 1) ++ ref
        | none => ref
      else ref
  if full == [] then []
  else
    let elems := splitByte (ch '/') full
    let dst := (elems.foldl resolveStep ([ch '/'], true)).1
    let last := elems.getLast?.getD []
    let dst2 := if last == [ch '.'] || last == [ch '.', ch '.'] then dst ++ [ch '/'] else dst
    match dst2 with
    | _ :: c :: tail => if c == ch '/' then c :: tail else dst2
    | _ => dst2

/-- The receiver with the path `p` installed by `setPath`, the error dropped as in
`url.setPath(resolvePath(...))` of `ResolveReference`. -/
def URL.withPath (u : URL) (p : Bytes) : URL :=
  match URL.setPath u p with
  | .ok v => v
  | .error _ => u

/-- Go `(*URL).ResolveReference`. -/
def URL.ResolveReference (u ref : URL) : URL :=
  let url : URL := if ref.Scheme == [] then { ref with Scheme := u.Scheme } else ref
  if ref.Scheme != [] || ref.Host != [] || ref.User.isSome then
    URL.withPath url (resolvePath ref.EscapedPath [])
  else if ref.Opaque != [] then
    { url with User := none, Host := [], Path := [] }
  else
    let url2 : URL :=
      if ref.Path == [] && !ref.ForceQuery && ref.RawQuery == [] then
        if ref.Fragment == [] then
          { url with RawQuery := u.RawQuery, Fragment := u.Fragment, RawFragment := u.RawFragment }
        else { url with RawQuery := u.RawQuery }
      else url
    if ref.Path == [] && u.Opaque != [] then
      { url2 with Opaque := u.Opaque, User := none, Host := [], Path := [] }
    else
      URL.withPath { url2 with Host := u.Host, User := u.User }
        (resolvePath u.EscapedPath ref.EscapedPath)

/-- Go `(*Userinfo).String` on a non-nil receiver. -/
def Userinfo.String (u : Userinfo) : Bytes :=
  escape u.username .encodeUserPassword ++
    (if u.passwordSet then ch ':' :: escape u.password .encodeUserPassword else [])

/-- Go `(*URL).String`. -/
def URL.String (u : URL) : Bytes :=
  let buf0 : Bytes := if u.Scheme != [] then u.Scheme ++ [ch ':'] else []
  let buf1 : Bytes :=
    if u.Opaque != [] then buf0 ++ u.Opaque
    else
      let bufA : Bytes :=
        if u.Scheme != [] || u.Host != [] || u.User.isSome then
          if u.OmitHost && u.Host == [] && u.User.isNone then buf0
          else
            buf0
              ++ (if u.Host != [] || u.Path != [] || u.User.isSome then str "//" else [])
              ++ (match u.User with
                  | some ui => ui.String ++ [ch '@']
                  | none => [])
              ++ (if u.Host != [] then escape u.Host .encodeHost else [])
        else buf0
      let path := u.EscapedPath
      let bufB : Bytes :=
        if path != [] && path.head? != some (ch '/') && u.Host != [] then bufA ++ [ch '/'] else bufA
      let bufC : Bytes :=
        if bufB == [] && strings.ContainsByte (strings.Cut path (ch '/')).1 (ch ':') then
          bufB ++ str "./"
        else bufB
      bufC ++ path
  let buf2 : Bytes :=
    if u.ForceQuery || u.RawQuery != [] then buf1 ++ [ch '?'] ++ u.RawQuery else buf1
  if u.Fragment != [] then buf2 ++ [ch '#'] ++ u.EscapedFragment else buf2

end url

/-! ## `encoding/base64`, `io`, `context` -/

namespace base64

/-- The alphabet of Go `base64.StdEncoding` at index `i < 64`. -/
def encodeStd (i : UInt8) : UInt8 :=
  if i < 26 then ch 'A' + i
  else if i < 52 then ch 'a' + (i - 26)
  else if i < 62 then ch '0' + (i - 52)
  else if i == 62 then ch '+'
  else ch '/'

/-- Go `base64.StdEncoding.EncodeToString`. -/
def EncodeToString : Bytes → Bytes
  | [] => []
  | [a] => [encodeStd (a >>> 2), encodeStd ((a &&& 3) <<< 4), ch '=', ch '=']
  | [a, b] =>
    [encodeStd (a >>> 2), encodeStd (((a &&& 3) <<< 4) ||| (b >>> 4)),
      encodeStd ((b &&& 15) <<< 2), ch '=']
  | a :: b :: c :: rest =>
    encodeStd (a >>> 2) :: encodeStd (((a &&& 3) <<< 4) ||| (b >>> 4)) ::
      encodeStd (((b &&& 15) <<< 2) ||| (c >>> 6)) :: encodeStd (c &&& 63) ::
      EncodeToString rest

end base64

/-- Go `io.Reader`, seen through `io.ReadAll`: the bytes it yields before it ends, and
the error it ends with when that is not `io.EOF`. -/
structure Reader where
  data : Bytes
  err : Option GoError := none
  deriving DecidableEq, Repr

/-- Go `ioutil.ReadAll`: `(data, err)`. -/
def ReadAll (r : Reader) : Bytes × Option GoError := (r.data, r.err)

/-- Go `context.Context`, which the client only passes on. -/
structure Context where
  name : String
  deriving DecidableEq, Repr

/-- Go `context.Background()`. -/
def Context.Background : Context := ⟨"context.Background"⟩

/-! ## `net/http`: headers and request construction -/

namespace http

/-- Go `httpguts.IsTokenRune` on a byte (the bytes 39 and 96 are the apostrophe and the
grave accent); it is also `textproto.validHeaderFieldByte`. -/
def isToken (c : UInt8) : Bool :=
  url.isAlnum c ||
  [ch '!', ch '#', ch '$', ch '%', ch '&', 39, ch '*', ch '+', ch '-', ch '.', ch '^', ch '_',
    96, ch '|', ch '~'].contains c

/-- Go `http.validMethod`. -/
def validMethod (method : Bytes) : Bool := !method.isEmpty && method.all isToken

/-- The letter-casing loop of Go `textproto.canonicalMIMEHeaderKey`; `upper` tells
whether the next letter starts a word. -/
def canonicalLoop : Bool → Bytes → Bytes
  | _, [] => []
  | upper, c :: rest =>
    let c2 :=
      if upper && ch 'a' ≤ c && c ≤ ch 'z' then c - 32
      else if !upper && ch 'A' ≤ c && c ≤ ch 'Z' then c + 32
      else c
    c2 :: canonicalLoop (c2 == ch '-') rest

/-- Go `textproto.CanonicalMIMEHeaderKey`: a key holding a byte that is not a token
byte is returned unchanged. -/
def CanonicalMIMEHeaderKey (s : Bytes) : Bytes :=
  if s.all isToken then canonicalLoop true s else s

/-- Go `http.Header`, a map from canonical keys to value lists. -/
abbrev Header := List (Bytes × List Bytes)

/-- Go `Header.Values`. -/
def Header.Values (h : Header) (key : Bytes) : List Bytes :=
  (h.lookup (CanonicalMIMEHeaderKey key)).getD []

/-- Go `Header.Get`: the first value of the key, or the empty string. -/
def Header.Get (h : Header) (key : Bytes) : Bytes := ((Header.Values h key).head?).getD []

/-- Go `Header.Set`. -/
def Header.Set (h : Header) (key value : Bytes) : Header :=
  (CanonicalMIMEHeaderKey key, [value]) ::
    h.filter fun kv => kv.1 != CanonicalMIMEHeaderKey key

/-- Go `Header.Add`. -/
def Header.Add (h : Header) (key value : Bytes) : Header :=
  (CanonicalMIMEHeaderKey key, Header.Values h key ++ [value]) ::
    h.filter fun kv => kv.1 != CanonicalMIMEHeaderKey key

/-- Go `http.Request`, with the fields the client sets or reads (`Proto`,
`ContentLength`, `GetBody` and the rest are read by no function of the client). -/
structure Request where
  ctx : Context
  Method : Bytes
  URL : Option url.URL
  Header : Header := []
  Body : Option Reader := none
  Host : Bytes := []
  deriving DecidableEq, Repr

/-- Go `http.hasPort`. -/
def hasPort (s : Bytes) : Bool :=
  match strings.LastIndexByte s (ch ':'), strings.LastIndexByte s (ch ']') with
  | some i, some j => decide (i > j)
  | some _, none => true
  | none, _ => false

/-- Go `http.removeEmptyPort`. -/
def removeEmptyPort (host : Bytes) : Bytes :=
  if hasPort host then strings.TrimSuffixByte host (ch ':') else host

/-- Go `http.NewRequestWithContext`. -/
def NewRequestWithContext (ctx : Option Context) (method urlStr : Bytes)
    (body : Option Reader) : Except GoError Request :=
  let method := if method == [] then str "GET" else method
  if !validMethod method then .error (.errorString "net/http: invalid method")
  else
    match ctx with
    | none => .error (.errorString "net/http: nil Context")
    | some ctx =>
      match url.Parse urlStr with
      | .error e => .error e
      | .ok u =>
        .ok { ctx := ctx, Method := method,
              URL := some { u with Host := removeEmptyPort u.Host },
              Header := [], Body := body, Host := removeEmptyPort u.Host }

/-- Go `(*Request).SetBasicAuth`. -/
def Request.SetBasicAuth (r : Request) (username password : Bytes) : Request :=
  let value := str "Basic " ++ base64.EncodeToString (username ++ [ch ':'] ++ password)
  { r with Header := r.Header.Set (str "Authorization") value }

/-- Go `http.Response`, with the fields `Call` reads. -/
structure Response where
  StatusCode : Int
  Request : Option Request
  Body : Option Reader
  deriving DecidableEq, Repr

end http

/-! ## Go values, `reflect.Kind` and `encoding/json` encoding -/

namespace reflect

/-- Go `reflect.Kind`, for the kinds of the values modelled here. -/
inductive Kind where
  | Bool
  | Int
  | String
  | Slice
  | Map
  | Struct
  | Ptr
  | Chan
  deriving DecidableEq, Repr

/-- A Go value as an `interface{}` can hold it: booleans, integers, strings, slices
(nil or not), maps with string keys (nil or not; the entries have distinct keys), structs
(the exported fields with their JSON name, their `omitempty` option and their value),
pointers (nil or not) and, as a value that `encoding/json` does not support, channels. -/
inductive Value where
  | bool (b : Bool)
  | int (n : Int)
  | string (s : Bytes)
  | slice (elems : Option (List Value))
  | map (entries : Option (List (Bytes × Value)))
  | struct (fields : List (Bytes × Bool × Value))
  | ptr (elem : Option Value)
  | chan

/-- Go `reflect.ValueOf(v).Type().Kind()`. -/
def Value.Kind : Value → Kind
  | .bool _ => .Bool
  | .int _ => .Int
  | .string _ => .String
  | .slice _ => .Slice
  | .map _ => .Map
  | .struct _ => .Struct
  | .ptr _ => .Ptr
  | .chan => .Chan

end reflect

namespace strings

/-- Bytewise lexicographic order of Go strings (`a <= b`), the order of `sort.Strings`. -/
def lessEq : Bytes → Bytes → Bool
  | [], _ => true
  | _ :: _, [] => false
  | a :: as, b :: bs => a < b || (a == b && lessEq as bs)

/-- Inserts an entry into a list of entries sorted by key, before the first entry with a
greater key. -/
def insertByKey {β : Type} (kv : Bytes × β) : List (Bytes × β) → List (Bytes × β)
  | [] => [kv]
  | e :: rest => if lessEq kv.1 e.1 then kv :: e :: rest else e :: insertByKey kv rest

/-- Sorts entries by key, in the order of `sort.Strings` on the keys. -/
def sortByKey {β : Type} : List (Bytes × β) → List (Bytes × β)
  | [] => []
  | kv :: rest => insertByKey kv (sortByKey rest)

/-- Go `strings.Join`. -/
def Join : List Bytes → Bytes → Bytes
  | [], _ => []
  | [a], _ => a
  | a :: b :: rest, sep => a ++ sep ++ Join (b :: rest) sep

end strings

namespace strconv

/-- Go `strconv.Itoa`. -/
def Itoa (n : Int) : Bytes :=
  match n with
  | .ofNat m => (Nat.toDigits 10 m).map ch
  | .negSucc m => ch '-' :: (Nat.toDigits 10 (m + 1)).map ch

end strconv

namespace json

/-- Lower-case hexadecimal digit of `i < 16`. -/
def hex (i : UInt8) : UInt8 := if i < 10 then ch '0' + i else ch 'a' + (i - 10)

/-- Go `json.htmlSafeSet`: the ASCII bytes written as they are inside a JSON string. -/
def htmlSafe (b : UInt8) : Bool :=
  0x20 ≤ b && b < 0x80 && b != ch '"' && b != ch '&' && b != ch '<' && b != ch '>' && b != 92

/-- The escape that Go's JSON encoder writes for an ASCII byte outside `htmlSafeSet`
(the byte 92 is the backslash). -/
def escapeASCII (b : UInt8) : Bytes :=
  if b == 92 || b == ch '"' then [92, b]
  else if b == 10 then [92, ch 'n']
  else if b == 13 then [92, ch 'r']
  else if b == 9 then [92, ch 't']
  else [92, ch 'u', ch '0', ch '0', hex (b >>> 4), hex (b &&& 15)]

/-- A UTF-8 continuation byte. -/
def isCont (b : UInt8) : Bool := 0x80 ≤ b && b ≤ 0xBF

/-- The text (backslash, `ufffd`) that replaces a byte which is not part of valid UTF-8. -/
def replacement : Bytes := [92, ch 'u', ch 'f', ch 'f', ch 'f', ch 'd']

/-- The length of the valid UTF-8 sequence of two to four bytes at the head of the input
(Go `utf8.DecodeRuneInString`), or `0` when the head byte starts none. -/
def sequenceLength : Bytes → Nat
  | b :: c1 :: rest =>
    if 0xC2 ≤ b && b ≤ 0xDF then (if isCont c1 then 2 else 0)
    else
      match rest with
      | c2 :: rest2 =>
        if (b == 0xE0 && 0xA0 ≤ c1 && c1 ≤ 0xBF) ||
            (((0xE1 ≤ b && b ≤ 0xEC) || b == 0xEE || b == 0xEF) && isCont c1) ||
            (b == 0xED && 0x80 ≤ c1 && c1 ≤ 0x9F) then
          (if isCont c2 then 3 else 0)
        else
          match rest2 with
          | c3 :: _ =>
            if ((b == 0xF0 && 0x90 ≤ c1 && c1 ≤ 0xBF) ||
                (0xF1 ≤ b && b ≤ 0xF3 && isCont c1) ||
                (b == 0xF4 && 0x80 ≤ c1 && c1 ≤ 0x8F)) && isCont c2 && isCont c3 then 4
            else 0
          | [] => 0
      | [] => 0
  | _ => 0

/-- The input starts with the UTF-8 bytes of U+2028 or U+2029. -/
def isLineSeparator : Bytes → Bool
  | b :: c1 :: c2 :: _ => b == 0xE2 && c1 == 0x80 && (c2 == 0xA8 || c2 == 0xA9)
  | _ => false

/-- The loop of Go's `appendString` with HTML escaping. `pending` counts the bytes that
still belong to the sequence whose head was handled, and `copy` tells whether they are
written: safe ASCII is copied, other ASCII is escaped, valid UTF-8 sequences are copied
except U+2028 and U+2029, which are escaped, and every byte that is not part of valid
UTF-8 becomes the replacement text. -/
def escapeLoop : Nat → Bool → Bytes → Bytes
  | _, _, [] => []
  | pending + 1, copy, b :: rest =>
    (if copy then [b] else []) ++ escapeLoop pending copy rest
  | 0, _, b :: rest =>
    if b < 0x80 then (if htmlSafe b then [b] else escapeASCII b) ++ escapeLoop 0 true rest
    else if sequenceLength (b :: rest) == 0 then replacement ++ escapeLoop 0 true rest
    else if isLineSeparator (b :: rest) then
      (match rest with
        | _ :: c2 :: _ => [92, ch 'u', ch '2', ch '0', ch '2', hex (c2 &&& 15)]
        | _ => []) ++ escapeLoop 2 false rest
    else b :: escapeLoop (sequenceLength (b :: rest) - 1) true rest

/-- The body of a JSON string as Go's encoder writes it. -/
def escapeString (s : Bytes) : Bytes := escapeLoop 0 true s

/-- A JSON string: the escaped body between quotes. -/
def quote (s : Bytes) : Bytes := ch '"' :: escapeString s ++ [ch '"']

/-- Go `json.isEmptyValue`, the test of the `omitempty` option. -/
def isEmptyValue : reflect.Value → Bool
  | .bool b => !b
  | .int n => n == 0
  | .string s => s.isEmpty
  | .slice none => true
  | .slice (some elems) => elems.isEmpty
  | .map none => true
  | .map (some entries) => entries.isEmpty
  | .ptr none => true
  | _ => false

mutual

/-- The JSON text of a value as Go's encoder writes it, `none` for a value of an
unsupported type. -/
def encode : reflect.Value → Option Bytes
  | .bool b => some (if b then str "true" else str "false")
  | .int n => some (strconv.Itoa n)
  | .string s => some (quote s)
  | .slice none => some (str "null")
  | .slice (some elems) => (encodeElems elems).map fun parts => [91] ++ strings.Join parts [ch ','] ++ [93]
  | .map none => some (str "null")
  | .map (some entries) =>
    (encodeEntries entries).map fun parts =>
      [123] ++ strings.Join ((strings.sortByKey parts).map fun kv => quote kv.1 ++ [ch ':'] ++ kv.2)
        [ch ','] ++ [125]
  | .struct fields =>
    (encodeFields fields).map fun parts => [123] ++ strings.Join parts [ch ','] ++ [125]
  | .ptr none => some (str "null")
  | .ptr (some v) => encode v
  | .chan => none

/-- The JSON texts of the elements of a slice. -/
def encodeElems : List reflect.Value → Option (List Bytes)
  | [] => some []
  | v :: rest =>
    match encode v, encodeElems rest with
    | some b, some bs => some (b :: bs)
    | _, _ => none

/-- The keys of a map with the JSON texts of their values. -/
def encodeEntries : List (Bytes × reflect.Value) → Option (List (Bytes × Bytes))
  | [] => some []
  | (k, v) :: rest =>
    match encode v, encodeEntries rest with
    | some b, some bs => some ((k, b) :: bs)
    | _, _ => none

/-- The members `"name":value` of a struct, the empty `omitempty` fields left out. -/
def encodeFields : List (Bytes × Bool × reflect.Value) → Option (List Bytes)
  | [] => some []
  | (name, omitEmpty, v) :: rest =>
    if omitEmpty && isEmptyValue v then encodeFields rest
    else
      match encode v, encodeFields rest with
      | some b, some bs => some ((quote name ++ [ch ':'] ++ b) :: bs)
      | _, _ => none

end

/-- Go `json.Marshal`, on the values modelled here. -/
def Marshal (v : reflect.Value) : Except GoError Bytes :=
  match encode v with
  | some b => .ok b
  | none => .error (.errorString "json: unsupported type")

end json

/-! ## `unicode/utf8`, `reflect.Type` and the decoder of `encoding/json` -/

namespace utf8

/-- Go `utf8.AppendRune`: the UTF-8 bytes of a code point; a surrogate half or a value
beyond U+10FFFF gives the bytes of U+FFFD. -/
def EncodeRune (r : Nat) : Bytes :=
  if r < 0x80 then [r.toUInt8]
  else if r < 0x800 then [(0xC0 + r / 64).toUInt8, (0x80 + r % 64).toUInt8]
  else if (0xD800 ≤ r && r ≤ 0xDFFF) || 0x10FFFF < r then [0xEF, 0xBF, 0xBD]
  else if r < 0x10000 then
    [(0xE0 + r / 4096).toUInt8, (0x80 + r / 64 % 64).toUInt8, (0x80 + r % 64).toUInt8]
  else
    [(0xF0 + r / 262144).toUInt8, (0x80 + r / 4096 % 64).toUInt8,
      (0x80 + r / 64 % 64).toUInt8, (0x80 + r % 64).toUInt8]

/-- The loop of Go `utf8.ValidString`: `pending` counts the bytes that still belong to
the sequence whose head was checked. -/
def validLoop : Nat → Bytes → Bool
  | 0, [] => true
  | _ + 1, [] => false
  | pending + 1, _ :: rest => validLoop pending rest
  | 0, b :: rest =>
    if b < 0x80 then validLoop 0 rest
    else if json.sequenceLength (b :: rest) == 0 then false
    else validLoop (json.sequenceLength (b :: rest) - 1) rest

/-- Go `utf8.ValidString`. -/
def ValidString (s : Bytes) : Bool := validLoop 0 s

end utf8

namespace reflect

/-- Go `reflect.Type`, for the types of the values modelled here: `bool`, `int`,
`string`, slices, maps with string keys, structs (the exported fields with their JSON
name and their `omitempty` option) and pointers. -/
inductive GoType where
  | bool
  | int
  | string
  | slice (elem : GoType)
  | map (elem : GoType)
  | struct (fields : List (Bytes × Bool × GoType))
  | ptr (elem : GoType)

mutual

/-- Go `reflect.Zero`: the zero value of a type, which is what a fresh variable holds. -/
def GoType.zero : GoType → Value
  | .bool => .bool false
  | .int => .int 0
  | .string => .string []
  | .slice _ => .slice none
  | .map _ => .map none
  | .struct fields => .struct (GoType.zeroFields fields)
  | .ptr _ => .ptr none

/-- The zero values of the fields of a struct type. -/
def GoType.zeroFields : List (Bytes × Bool × GoType) → List (Bytes × Bool × Value)
  | [] => []
  | (name, omitEmpty, t) :: rest => (name, omitEmpty, GoType.zero t) :: GoType.zeroFields rest

end

/-- The type reached from a type through all its pointer layers. -/
def GoType.base : GoType → GoType
  | .ptr elem => elem.base
  | t => t

end reflect

namespace strconv

/-- The value of a sequence of decimal digits read after the value `acc`, `none` when a
byte is not a digit. -/
def parseDigits (acc : Nat) : Bytes → Option Nat
  | [] => some acc
  | b :: rest =>
    if ch '0' ≤ b && b ≤ ch '9' then parseDigits (acc * 10 + (b - ch '0').toNat) rest
    else none

/-- Go `strconv.ParseInt(s, 10, 64)` on a JSON number literal: an optional minus sign and
decimal digits, within the range of `int64`; `none` stands for its error. -/
def ParseInt (s : Bytes) : Option Int :=
  match s with
  | [] => none
  | b :: rest =>
    if b == ch '-' then
      match rest with
      | [] => none
      | _ :: _ =>
        match parseDigits 0 rest with
        | some n => if n ≤ 9223372036854775808 then some (-(n : Int)) else none
        | none => none
    else
      match parseDigits 0 (b :: rest) with
      | some n => if n < 9223372036854775808 then some (n : Int) else none
      | none => none

end strconv

namespace json

/-- A JSON text as the scanner of `encoding/json` delimits it: the literals, a number
with its literal text, a string with its unquoted content, an array with its elements
and an object with its members in the order of the text. -/
inductive Tree where
  | null
  | bool (b : Bool)
  | number (literal : Bytes)
  | string (s : Bytes)
  | array (elems : List Tree)
  | object (members : List (Bytes × Tree))

/-- Go `json.isSpace`. -/
def isSpace (c : UInt8) : Bool := c == ch ' ' || c == 9 || c == 13 || c == 10

/-- The input after its leading white space. -/
def skipSpace (s : Bytes) : Bytes := s.dropWhile isSpace

/-- A decimal digit. -/
def isDigit (c : UInt8) : Bool := ch '0' ≤ c && c ≤ ch '9'

/-- The value of a hexadecimal digit, in either case, as Go `getu4` reads it. -/
def hexValue (c : UInt8) : Option Nat :=
  if ch '0' ≤ c && c ≤ ch '9' then some (c - ch '0').toNat
  else if ch 'a' ≤ c && c ≤ ch 'f' then some ((c - ch 'a').toNat + 10)
  else if ch 'A' ≤ c && c ≤ ch 'F' then some ((c - ch 'A').toNat + 10)
  else none

/-- Go `json.getu4`: the code unit of the escape (backslash, `u`, four hexadecimal
digits) at the head of the input, `none` when the input does not start with one. -/
def getu4 : Bytes → Option Nat
  | b0 :: b1 :: h1 :: h2 :: h3 :: h4 :: _ =>
    if b0 == 92 && b1 == ch 'u' then
      match hexValue h1, hexValue h2, hexValue h3, hexValue h4 with
      | some x, some y, some z, some w => some (x * 4096 + y * 256 + z * 16 + w)
      | _, _, _, _ => none
    else none
  | _ => none

/-- The byte that a one-letter escape stands for. -/
def simpleEscape (e : UInt8) : Option UInt8 :=
  if e == ch '"' || e == 92 || e == ch '/' then some e
  else if e == ch 'b' then some 8
  else if e == ch 'f' then some 12
  else if e == ch 'n' then some 10
  else if e == ch 'r' then some 13
  else if e == ch 't' then some 9
  else none

/-- What the escape with the code unit `rr` at the head of the input stands for, and the
number of bytes of the input it takes after the backslash: a surrogate half followed by
the escape of the matching half is the code point of the pair (Go `utf16.DecodeRune`),
a surrogate half alone is U+FFFD. -/
def escapedRune (rr : Nat) (input : Bytes) : Bytes × Nat :=
  if 0xD800 ≤ rr && rr < 0xE000 then
    match getu4 (input.drop 6) with
    | some rr1 =>
      if rr < 0xDC00 && 0xDC00 ≤ rr1 && rr1 < 0xE000 then
        (utf8.EncodeRune ((rr - 0xD800) * 1024 + (rr1 - 0xDC00) + 0x10000), 11)
      else ([0xEF, 0xBF, 0xBD], 5)
    | none => ([0xEF, 0xBF, 0xBD], 5)
  else (utf8.EncodeRune rr, 5)

/-- The scan of a string literal after its opening quote, together with Go
`json.unquote`: the content of the string and the input after the closing quote, `none`
when the literal is not valid. `pending` counts the bytes that still belong to the escape
or UTF-8 sequence whose head was handled, and `copy` tells whether they are part of the
content. An escape is replaced by what it stands for, a valid UTF-8 sequence is kept, and
a byte that is not part of valid UTF-8 becomes U+FFFD. -/
def unquoteLoop : Nat → Bool → Bytes → Option (Bytes × Bytes)
  | _, _, [] => none
  | pending + 1, copy, b :: rest =>
    (unquoteLoop pending copy rest).map fun r => (if copy then b :: r.1 else r.1, r.2)
  | 0, _, b :: rest =>
    if b == ch '"' then some ([], rest)
    else if b == 92 then
      match rest with
      | [] => none
      | e :: _ =>
        if e == ch 'u' then
          match getu4 (b :: rest) with
          | none => none
          | some rr =>
            (unquoteLoop (escapedRune rr (b :: rest)).2 false rest).map fun r =>
              ((escapedRune rr (b :: rest)).1 ++ r.1, r.2)
        else
          match simpleEscape e with
          | none => none
          | some c => (unquoteLoop 1 false rest).map fun r => (c :: r.1, r.2)
    else if b < 0x20 then none
    else if b < 0x80 then (unquoteLoop 0 true rest).map fun r => (b :: r.1, r.2)
    else if sequenceLength (b :: rest) == 0 then
      (unquoteLoop 0 true rest).map fun r => ([0xEF, 0xBF, 0xBD] ++ r.1, r.2)
    else
      (unquoteLoop (sequenceLength (b :: rest) - 1) true rest).map fun r => (b :: r.1, r.2)

/-- The input is where a value ends inside a JSON text without white space: it is empty
or starts with a comma, a closing bracket or a closing brace. -/
def delimited : Bytes → Bool
  | [] => true
  | c :: _ => c == ch ',' || c == 93 || c == 125

/-- The number literal at the head of the input, by the grammar of the scanner (an
optional minus sign, `0` or digits without leading zero, an optional fraction, an
optional exponent), and the input after it. -/
def scanNumber (s : Bytes) : Option (Bytes × Bytes) :=
  let signed : Bytes × Bytes :=
    match s with
    | b :: rest => if b == ch '-' then ([b], rest) else ([], s)
    | [] => ([], [])
  match signed.2 with
  | [] => none
  | d :: r1 =>
    if !isDigit d then none
    else
      let intPart : Bytes × Bytes :=
        if d == ch '0' then ([d], r1) else (d :: r1.takeWhile isDigit, r1.dropWhile isDigit)
      let frac : Option (Bytes × Bytes) :=
        match intPart.2 with
        | p :: r2 =>
          if p == ch '.' then
            (if (r2.takeWhile isDigit).isEmpty then none
             else some (p :: r2.takeWhile isDigit, r2.dropWhile isDigit))
          else some ([], intPart.2)
        | [] => some ([], [])
      match frac with
      | none => none
      | some (fracPart, r3) =>
        let exponent : Option (Bytes × Bytes) :=
          match r3 with
          | e :: r4 =>
            if e == ch 'e' || e == ch 'E' then
              let sign : Bytes × Bytes :=
                match r4 with
                | g :: r5 => if g == ch '+' || g == ch '-' then ([g], r5) else ([], r4)
                | [] => ([], [])
              (if (sign.2.takeWhile isDigit).isEmpty then none
               else some (e :: sign.1 ++ sign.2.takeWhile isDigit, sign.2.dropWhile isDigit))
            else some ([], r3)
          | [] => some ([], [])
        match exponent with
        | none => none
        | some (expPart, r6) => some (signed.1 ++ intPart.1 ++ fracPart ++ expPart, r6)

mutual

/-- The JSON value at the head of the input, after white space, and the input after it;
`none` when the input does not start with a valid value. The first argument bounds the
depth of the calls. -/
def parseValue : Nat → Bytes → Option (Tree × Bytes)
  | 0, _ => none
  | fuel + 1, s =>
    match skipSpace s with
    | [] => none
    | b :: rest =>
      if b == 123 then
        match skipSpace rest with
        | [] => none
        | c :: rest2 =>
          if c == 125 then some (.object [], rest2)
          else (parseMembers fuel (c :: rest2)).map fun r => (.object r.1, r.2)
      else if b == 91 then
        match skipSpace rest with
        | [] => none
        | c :: rest2 =>
          if c == 93 then some (.array [], rest2)
          else (parseElems fuel (c :: rest2)).map fun r => (.array r.1, r.2)
      else if b == ch '"' then (unquoteLoop 0 true rest).map fun r => (.string r.1, r.2)
      else if b == ch '-' || isDigit b then
        (scanNumber (b :: rest)).map fun r => (.number r.1, r.2)
      else if (str "true").isPrefixOf (b :: rest) then some (.bool true, rest.drop 3)
      else if (str "false").isPrefixOf (b :: rest) then some (.bool false, rest.drop 4)
      else if (str "null").isPrefixOf (b :: rest) then some (.null, rest.drop 3)
      else none

/-- The elements of an array, from its first element to its closing bracket. -/
def parseElems : Nat → Bytes → Option (List Tree × Bytes)
  | 0, _ => none
  | fuel + 1, s =>
    match parseValue fuel s with
    | none => none
    | some (v, r) =>
      match skipSpace r with
      | [] => none
      | c :: r2 =>
        if c == ch ',' then (parseElems fuel r2).map fun q => (v :: q.1, q.2)
        else if c == 93 then some ([v], r2)
        else none

/-- The members of an object, from its first member to its closing brace. -/
def parseMembers : Nat → Bytes → Option (List (Bytes × Tree) × Bytes)
  | 0, _ => none
  | fuel + 1, s =>
    match skipSpace s with
    | [] => none
    | q :: afterQuote =>
      if q != ch '"' then none
      else
        match unquoteLoop 0 true afterQuote with
        | none => none
        | some (key, afterKey) =>
          match skipSpace afterKey with
          | [] => none
          | colon :: afterColon =>
            if colon != ch ':' then none
            else
              match parseValue fuel afterColon with
              | none => none
              | some (v, r) =>
                match skipSpace r with
                | [] => none
                | c :: r2 =>
                  if c == ch ',' then
                    (parseMembers fuel r2).map fun m => ((key, v) :: m.1, m.2)
                  else if c == 125 then some ([(key, v)], r2)
                  else none

end

/-- Go `json.checkValid` together with the scan of the decoder: the tree of an input
that is one JSON value between optional white space, `none` for any other input. Every
call of the parser takes at least one byte of the input every second level, so the bound
on the depth does not cut a valid input short. -/
def parse (data : Bytes) : Option Tree :=
  match parseValue (2 * data.length + 2) data with
  | some (tree, rest) => if (skipSpace rest).isEmpty then some tree else none
  | none => none

end json

namespace reflect

/-- The value that a pointer chain of the type leads to: the value behind the pointers
of the current value, or the zero value behind a pointer that is nil, which Go
`json.indirect` allocates. -/
def GoType.indirect : GoType → Value → Value
  | .ptr elem, .ptr (some v) => elem.indirect v
  | .ptr elem, _ => elem.base.zero
  | _, v => v

/-- The value of the type whose pointer chain leads to `v`. -/
def GoType.wrap : GoType → Value → Value
  | .ptr elem, v => .ptr (some (elem.wrap v))
  | _, v => v

end reflect

namespace json

/-- Go `*json.UnmarshalTypeError` for a JSON value of the given kind (the text names no
Go type, as the types modelled have no name). -/
def typeError (value : String) : GoError :=
  .errorString ("json: cannot unmarshal " ++ value ++ " into Go value")

/-- The first of two saved errors, as Go `decodeState.saveError` keeps it. -/
def firstError (a b : Option GoError) : Option GoError :=
  match a with
  | some e => some e
  | none => b

/-- Equality of names up to the case of ASCII letters (Go `bytes.EqualFold` on names;
letters outside ASCII are compared as they are). -/
def equalFold (a b : Bytes) : Bool := strings.ToLower a == strings.ToLower b

/-- The field that a member name selects: the field of that very name or, when there is
none, the first field whose name is equal up to case. -/
def selectField (names : List Bytes) (key : Bytes) : Option Bytes :=
  if names.contains key then some key else names.find? fun n => equalFold n key

/-- The type of the field of the given name. -/
def fieldType : List (Bytes × Bool × reflect.GoType) → Bytes → Option reflect.GoType
  | [], _ => none
  | (n, _, t) :: rest, name => if n == name then some t else fieldType rest name

/-- The value of the field of the given name. -/
def fieldValue : List (Bytes × Bool × reflect.Value) → Bytes → Option reflect.Value
  | [], _ => none
  | (n, _, v) :: rest, name => if n == name then some v else fieldValue rest name

/-- The fields with the value of the first field of the given name replaced. -/
def setField : List (Bytes × Bool × reflect.Value) → Bytes → reflect.Value →
    List (Bytes × Bool × reflect.Value)
  | [], _, _ => []
  | (n, o, v) :: rest, name, w =>
    if n == name then (n, o, w) :: rest else (n, o, v) :: setField rest name w

/-- The entries of a map after `m[key] = v`. -/
def setEntry : List (Bytes × reflect.Value) → Bytes → reflect.Value →
    List (Bytes × reflect.Value)
  | [], key, w => [(key, w)]
  | (k, v) :: rest, key, w =>
    if k == key then (k, w) :: rest else (k, v) :: setEntry rest key w

/-- The elements of a slice value. -/
def sliceElems : reflect.Value → List reflect.Value
  | .slice (some elems) => elems
  | _ => []

/-- The entries of a map value. -/
def mapEntries : reflect.Value → List (Bytes × reflect.Value)
  | .map (some entries) => entries
  | _ => []

/-- The fields of a struct value of the given type. -/
def structFields (fts : List (Bytes × Bool × reflect.GoType)) :
    reflect.Value → List (Bytes × Bool × reflect.Value)
  | .struct fields => fields
  | _ => reflect.GoType.zeroFields fts

mutual

/-- Go `decodeState.value`: the value of type `t` that holds `cur` after the JSON tree
was decoded into it, and the first type error met. `null` makes a pointer, slice or map
nil and leaves any other value as it is; another JSON value is stored behind the pointers
of the type, which are allocated where nil: a boolean into a `bool`, a number that
`ParseInt` accepts into an `int`, a string into a `string`, an array into a slice element
by element, an object into a struct field by field or into a map entry by entry. A JSON
value of another kind than the type leaves the value as it is and is a type error. -/
def store (t : reflect.GoType) (cur : reflect.Value) : Tree → reflect.Value × Option GoError
  | .null =>
    match t with
    | .ptr _ => (.ptr none, none)
    | .slice _ => (.slice none, none)
    | .map _ => (.map none, none)
    | _ => (cur, none)
  | .bool b =>
    match t.base with
    | .bool => (t.wrap (.bool b), none)
    | _ => (t.wrap (t.indirect cur), some (typeError "bool"))
  | .number literal =>
    match t.base with
    | .int =>
      match strconv.ParseInt literal with
      | some n => (t.wrap (.int n), none)
      | none => (t.wrap (t.indirect cur), some (typeError "number"))
    | _ => (t.wrap (t.indirect cur), some (typeError "number"))
  | .string s =>
    match t.base with
    | .string => (t.wrap (.string s), none)
    | _ => (t.wrap (t.indirect cur), some (typeError "string"))
  | .array elems =>
    match t.base with
    | .slice elem =>
      (t.wrap (.slice (some (storeElems elem (sliceElems (t.indirect cur)) elems).1)),
        (storeElems elem (sliceElems (t.indirect cur)) elems).2)
    | _ => (t.wrap (t.indirect cur), some (typeError "array"))
  | .object members =>
    match t.base with
    | .struct fts =>
      (t.wrap (.struct (storeMembers fts (structFields fts (t.indirect cur)) members).1),
        (storeMembers fts (structFields fts (t.indirect cur)) members).2)
    | .map elem =>
      (t.wrap (.map (some (storeEntries elem (mapEntries (t.indirect cur)) members).1)),
        (storeEntries elem (mapEntries (t.indirect cur)) members).2)
    | _ => (t.wrap (t.indirect cur), some (typeError "object"))

/-- Go `decodeState.array` on a slice: the elements of the array are decoded in turn
into the elements the slice has, or into zero values beyond its length. -/
def storeElems (elem : reflect.GoType) (cur : List reflect.Value) :
    List Tree → List reflect.Value × Option GoError
  | [] => ([], none)
  | tree :: rest =>
    ((store elem (cur.head?.getD elem.zero) tree).1 :: (storeElems elem cur.tail rest).1,
      firstError (store elem (cur.head?.getD elem.zero) tree).2
        (storeElems elem cur.tail rest).2)

/-- Go `decodeState.object` on a struct: each member is decoded into the field its name
selects; a member that selects no field is skipped. -/
def storeMembers (fts : List (Bytes × Bool × reflect.GoType))
    (cur : List (Bytes × Bool × reflect.Value)) :
    List (Bytes × Tree) → List (Bytes × Bool × reflect.Value) × Option GoError
  | [] => (cur, none)
  | (key, tree) :: rest =>
    match selectField (fts.map fun f => f.1) key with
    | none => storeMembers fts cur rest
    | some name =>
      match fieldType fts name with
      | none => storeMembers fts cur rest
      | some ft =>
        ((storeMembers fts
            (setField cur name (store ft ((fieldValue cur name).getD ft.zero) tree).1) rest).1,
          firstError (store ft ((fieldValue cur name).getD ft.zero) tree).2
            (storeMembers fts
              (setField cur name (store ft ((fieldValue cur name).getD ft.zero) tree).1)
              rest).2)

/-- Go `decodeState.object` on a map: each member is decoded into a zero value of the
element type, which is then stored under the name of the member. -/
def storeEntries (elem : reflect.GoType) (cur : List (Bytes × reflect.Value)) :
    List (Bytes × Tree) → List (Bytes × reflect.Value) × Option GoError
  | [] => (cur, none)
  | (key, tree) :: rest =>
    ((storeEntries elem (setEntry cur key (store elem elem.zero tree).1) rest).1,
      firstError (store elem elem.zero tree).2
        (storeEntries elem (setEntry cur key (store elem elem.zero tree).1) rest).2)

end

/-- Go `json.Unmarshal(data, &v)` for a variable `v` of type `t`: an input that is not
one valid JSON value leaves `v` as it is and gives a syntax error; a valid one is decoded
into `v`, and the first type error met is returned. -/
def Unmarshal (t : reflect.GoType) (data : Bytes) (v : reflect.Value) :
    reflect.Value × Option GoError :=
  match parse data with
  | none => (v, some (.errorString "json: syntax error"))
  | some tree => store t v tree

mutual

/-- The JSON tree that the encoder writes for a value, `none` for a value of an
unsupported type. -/
def toTree : reflect.Value → Option Tree
  | .bool b => some (.bool b)
  | .int n => some (.number (strconv.Itoa n))
  | .string s => some (.string s)
  | .slice none => some .null
  | .slice (some elems) => (toTrees elems).map .array
  | .map none => some .null
  | .map (some entries) => (toEntries entries).map fun ms => .object (strings.sortByKey ms)
  | .struct fields => (toMembers fields).map .object
  | .ptr none => some .null
  | .ptr (some v) => toTree v
  | .chan => none

/-- The trees of the elements of a slice. -/
def toTrees : List reflect.Value → Option (List Tree)
  | [] => some []
  | v :: rest =>
    match toTree v, toTrees rest with
    | some t, some ts => some (t :: ts)
    | _, _ => none

/-- The keys of a map with the trees of their values. -/
def toEntries : List (Bytes × reflect.Value) → Option (List (Bytes × Tree))
  | [] => some []
  | (k, v) :: rest =>
    match toTree v, toEntries rest with
    | some t, some ts => some ((k, t) :: ts)
    | _, _ => none

/-- The members of a struct, the empty `omitempty` fields left out. -/
def toMembers : List (Bytes × Bool × reflect.Value) → Option (List (Bytes × Tree))
  | [] => some []
  | (name, omitEmpty, v) :: rest =>
    if omitEmpty && isEmptyValue v then toMembers rest
    else
      match toTree v, toMembers rest with
      | some t, some ts => some ((name, t) :: ts)
      | _, _ => none

end

/-- The value is encoded as `null`: a nil slice, map or pointer, or a pointer to such a
value. -/
def encodesNull : reflect.Value → Bool
  | .slice none => true
  | .map none => true
  | .ptr none => true
  | .ptr (some v) => encodesNull v
  | _ => false

/-- The value is a slice or map that is empty but not nil. -/
def nonNilEmpty : reflect.Value → Bool
  | .slice (some []) => true
  | .map (some []) => true
  | _ => false

/-- The names are in the order of `sort.Strings`. -/
def sortedNames : List Bytes → Bool
  | a :: b :: rest => strings.lessEq a b && sortedNames (b :: rest)
  | _ => true

/-- No name occurs twice. -/
def distinctNames : List Bytes → Bool
  | [] => true
  | a :: rest => !rest.contains a && distinctNames rest

mutual

/-- The values of type `t` that a decoding of their encoding restores: the integers are
in the range of `int64`; the strings, the keys of the maps and the names of the fields
are valid UTF-8; the names of the fields of a struct are distinct; no pointer points to a
value that is encoded as `null`; no `omitempty` field holds a slice or map that is empty
but not nil. The entries of a map are listed in the order of their keys, which is the
order the decoder stores them in. -/
def stable : reflect.GoType → reflect.Value → Bool
  | .bool, .bool _ => true
  | .int, .int n => decide (-9223372036854775808 ≤ n) && decide (n < 9223372036854775808)
  | .string, .string s => utf8.ValidString s
  | .slice _, .slice none => true
  | .slice elem, .slice (some elems) => stableElems elem elems
  | .map _, .map none => true
  | .map elem, .map (some entries) =>
    stableEntries elem entries && sortedNames (entries.map fun e => e.1) &&
      distinctNames (entries.map fun e => e.1)
  | .struct fts, .struct fields =>
    stableFields fts fields && distinctNames (fields.map fun f => f.1)
  | .ptr _, .ptr none => true
  | .ptr elem, .ptr (some v) => stable elem v && !encodesNull v
  | _, _ => false

/-- Every element of a slice is stable. -/
def stableElems (elem : reflect.GoType) : List reflect.Value → Bool
  | [] => true
  | v :: rest => stable elem v && stableElems elem rest

/-- Every entry of a map has a valid key and a stable value. -/
def stableEntries (elem : reflect.GoType) : List (Bytes × reflect.Value) → Bool
  | [] => true
  | (k, v) :: rest => utf8.ValidString k && stable elem v && stableEntries elem rest

/-- The fields are those of the struct type, with valid names and stable values, and
none is left out of the encoding unless it holds the zero value. -/
def stableFields : List (Bytes × Bool × reflect.GoType) →
    List (Bytes × Bool × reflect.Value) → Bool
  | [], [] => true
  | (n, o, t) :: fts, (name, omitEmpty, v) :: fields =>
    n == name && o == omitEmpty && utf8.ValidString name && stable t v &&
      !(omitEmpty && nonNilEmpty v) && stableFields fts fields
  | _, _ => false

end

end json

namespace json

mutual

/-- The number of calls the parser makes for a tree, which bounds the fuel it needs. -/
def Tree.size : Tree → Nat
  | .array elems => 1 + sizeElems elems
  | .object members => 1 + sizeMembers members
  | _ => 1

/-- The number of calls the parser makes for the elements of an array. -/
def sizeElems : List Tree → Nat
  | [] => 0
  | tree :: rest => 1 + tree.size + sizeElems rest

/-- The number of calls the parser makes for the members of an object. -/
def sizeMembers : List (Bytes × Tree) → Nat
  | [] => 0
  | (_, tree) :: rest => 1 + tree.size + sizeMembers rest

end

/-- A byte that starts a JSON value. -/
def valueStart (c : UInt8) : Bool :=
  c == ch 't' || c == ch 'f' || c == ch 'n' || c == ch '-' || isDigit c || c == ch '"' ||
    c == 91 || c == 123

/-- The text is read as the tree: it starts like a value, it is long enough for the fuel
the parser needs, and the parser, given that fuel, reads the tree from it and stops where
the value ends. -/
def ParsesTo (enc : Bytes) (tree : Tree) : Prop :=
  (∃ c cs, enc = c :: cs ∧ valueStart c = true) ∧ tree.size ≤ 2 * enc.length ∧
    ∀ fuel rest, tree.size ≤ fuel → delimited rest = true →
      parseValue fuel (enc ++ rest) = some (tree, rest)

/-- The text is a member whose name is valid UTF-8 and whose value is read as the tree. -/
def MemberParsesTo (part : Bytes) (member : Bytes × Tree) : Prop :=
  utf8.ValidString member.1 = true ∧
    ∃ enc, part = quote member.1 ++ [ch ':'] ++ enc ∧ ParsesTo enc member.2

/-- The members are those the encoder writes for the fields, and decoding each into the
zero value of the type of its field gives the value of the field; a field that is left
out holds the zero value. -/
inductive FieldsRestored : List (Bytes × Bool × reflect.GoType) →
    List (Bytes × Bool × reflect.Value) → List (Bytes × Tree) → Prop where
  | nil : FieldsRestored [] [] []
  | omitted (name : Bytes) (omitEmpty : Bool) (t : reflect.GoType)
      (fts : List (Bytes × Bool × reflect.GoType))
      (fields : List (Bytes × Bool × reflect.Value)) (members : List (Bytes × Tree)) :
      FieldsRestored fts fields members →
      FieldsRestored ((name, omitEmpty, t) :: fts) ((name, omitEmpty, t.zero) :: fields) members
  | kept (name : Bytes) (omitEmpty : Bool) (t : reflect.GoType) (v : reflect.Value)
      (tree : Tree) (fts : List (Bytes × Bool × reflect.GoType))
      (fields : List (Bytes × Bool × reflect.Value)) (members : List (Bytes × Tree)) :
      store t t.zero tree = (v, none) →
      FieldsRestored fts fields members →
      FieldsRestored ((name, omitEmpty, t) :: fts) ((name, omitEmpty, v) :: fields)
        ((name, tree) :: members)

end json

namespace json

/-- Decoding the encoding of the value into a fresh variable of the type gives the value
back: the encoder writes a text for the value, the parser reads it as the tree of the
value, and storing that tree into the zero value of the type gives the value and no
error. -/
def Restores (t : reflect.GoType) (v : reflect.Value) : Prop :=
  ∃ enc tree, encode v = some enc ∧ toTree v = some tree ∧ ParsesTo enc tree ∧
    store t t.zero tree = (v, none)

end json

/-! ## The client (`jira/v2/api_client_impl.go`) -/

/-- The envelope `models.ResponseScheme`, with the fields `Call` fills: the response
handle, the status code, the endpoint, the method and the raw bytes. -/
structure ResponseScheme where
  Response : Option http.Response := none
  Code : Int := 0
  Endpoint : Bytes := []
  Method : Bytes := []
  Bytes : Bytes := []
  deriving DecidableEq, Repr

/-- The interface `common.Authentication`, through the four methods the request
factory calls. -/
structure Authentication where
  HasBasicAuth : Bool
  GetBasicAuth : Bytes × Bytes
  HasUserAgent : Bool
  GetUserAgent : Bytes

/-- The interface `common.HttpClient`: `Do(request)` gives `(response, err)`. -/
structure HttpClient where
  Do : Option http.Request → Option http.Response × Option GoError

/-- The struct `ClientV2`, with the fields the request factory and `Call` read (the
service fields are wiring and are read by neither). -/
structure ClientV2 where
  HTTP : HttpClient
  Site : url.URL
  Auth : Authentication

/-- The `interface{}` target handed to `Call` by the services: nil, or a pointer to a
value of the scheme type `τ`. -/
inductive Target (τ : Type) where
  | nil
  | ptr (v : τ)
  deriving DecidableEq, Repr

/-- What `Call` uses from outside the repository sources, besides the transport:
`json.Unmarshal` into a `τ` (the value left in the target, and the error) and the
`Write` method of the envelope field `Bytes` (the content after the write, and the
error). -/
structure Runtime (τ : Type) where
  Unmarshal : Bytes → τ → τ × Option GoError
  Write : Bytes → Bytes → Bytes × Option GoError

/-- Go `(*bytes.Buffer).Write`: appends, and its error is always nil. -/
def bytesBufferWrite (buf p : Bytes) : Bytes × Option GoError := (buf ++ p, none)

/-- Calls that `Call` makes on its collaborators, in the order made. -/
inductive Event where
  | Do (request : Option http.Request)
  | ReadAll
  | Unmarshal (data : Bytes)
  | Write (data : Bytes)
  deriving DecidableEq, Repr

/-- The event is a call of the transport's `Do`. -/
def Event.isDo : Event → Bool
  | .Do _ => true
  | _ => false

/-- How a call ends: it returns `(envelope, err)`, or it panics on a nil dereference. -/
inductive Outcome where
  | returned (envelope : Option ResponseScheme) (err : Option GoError)
  | panicked
  deriving DecidableEq, Repr

/-- Result of running `Call`: how it ended, the target as the caller sees it afterwards,
and the calls made on the collaborators. -/
structure CallResult (τ : Type) where
  outcome : Outcome
  target : Target τ
  trace : List Event

/-- `(*ClientV2).NewFormRequest`. -/
def ClientV2.NewFormRequest (c : ClientV2) (ctx : Option Context)
    (method apiEndpoint contentType : Bytes) (payload : Option Reader) :
    Except GoError http.Request :=
  match url.Parse apiEndpoint with
  | .error err => .error err
  | .ok relativePath =>
    let endpoint := (c.Site.ResolveReference relativePath).String
    match http.NewRequestWithContext ctx method endpoint payload with
    | .error err => .error err
    | .ok request =>
      let r1 : http.Request := { request with Header := request.Header.Add (str "Content-Type") contentType }
      let r2 : http.Request := { r1 with Header := r1.Header.Add (str "Accept") (str "application/json") }
      let r3 : http.Request := { r2 with Header := r2.Header.Set (str "X-Atlassian-Token") (str "no-check") }
      let r4 := if c.Auth.HasBasicAuth then r3.SetBasicAuth c.Auth.GetBasicAuth.1 c.Auth.GetBasicAuth.2 else r3
      let r5 : http.Request :=
        if c.Auth.HasUserAgent then { r4 with Header := r4.Header.Set (str "User-Agent") c.Auth.GetUserAgent }
        else r4
      .ok r5

/-- `(*ClientV2).NewRequest`. -/
def ClientV2.NewRequest (c : ClientV2) (ctx : Option Context)
    (method apiEndpoint : Bytes) (payload : Option Reader) : Except GoError http.Request :=
  match url.Parse apiEndpoint with
  | .error err => .error err
  | .ok relativePath =>
    let endpoint := (c.Site.ResolveReference relativePath).String
    match http.NewRequestWithContext ctx method endpoint payload with
    | .error err => .error err
    | .ok request =>
      let r1 : http.Request := { request with Header := request.Header.Set (str "Accept") (str "application/json") }
      let r2 : http.Request :=
        if payload.isSome then { r1 with Header := r1.Header.Set (str "Content-Type") (str "application/json") }
        else r1
      let r3 := if c.Auth.HasBasicAuth then r2.SetBasicAuth c.Auth.GetBasicAuth.1 c.Auth.GetBasicAuth.2 else r2
      let r4 : http.Request :=
        if c.Auth.HasUserAgent then { r3 with Header := r3.Header.Set (str "User-Agent") c.Auth.GetUserAgent }
        else r3
      .ok r4

/-- The end of `Call`, from `responseTransformed.Bytes.Write(responseAsBytes)` on. -/
def ClientV2.callWrite {τ : Type} (rt : Runtime τ) (responseTransformed : ResponseScheme)
    (responseAsBytes : Bytes) (target : Target τ) (trace : List Event) : CallResult τ :=
  match rt.Write responseTransformed.Bytes responseAsBytes with
  | (_, some err) =>
    ⟨.returned none (some err), target, trace ++ [.Write responseAsBytes]⟩
  | (written, none) =>
    ⟨.returned (some { responseTransformed with Bytes := written }) none, target,
      trace ++ [.Write responseAsBytes]⟩

/-- `(*ClientV2).Call`. -/
def ClientV2.Call {τ : Type} (c : ClientV2) (rt : Runtime τ) (request : Option http.Request)
    (structure_ : Target τ) : CallResult τ :=
  match c.HTTP.Do request with
  | (_, some err) => ⟨.returned none (some err), structure_, [.Do request]⟩
  | (none, none) => ⟨.panicked, structure_, [.Do request]⟩
  | (some response, none) =>
    match response.Request with
    | none => ⟨.panicked, structure_, [.Do request]⟩
    | some responseRequest =>
      match responseRequest.URL with
      | none => ⟨.panicked, structure_, [.Do request]⟩
      | some responseURL =>
        let responseTransformed : ResponseScheme :=
          { Response := some response,
            Code := response.StatusCode,
            Endpoint := responseURL.String,
            Method := responseRequest.Method }
        if !(decide (response.StatusCode ≥ 200) && decide (response.StatusCode < 300)) then
          ⟨.returned (some responseTransformed) (some .ErrInvalidStatusCodeError), structure_,
            [.Do request]⟩
        else
          match response.Body with
          | none => ⟨.panicked, structure_, [.Do request, .ReadAll]⟩
          | some body =>
            match ReadAll body with
            | (_, some err) =>
              ⟨.returned (some responseTransformed) (some err), structure_,
                [.Do request, .ReadAll]⟩
            | (responseAsBytes, none) =>
              match structure_ with
              | .nil =>
                ClientV2.callWrite rt responseTransformed responseAsBytes .nil
                  [.Do request, .ReadAll]
              | .ptr v =>
                match rt.Unmarshal responseAsBytes v with
                | (v2, some err) =>
                  ⟨.returned (some responseTransformed) (some err), .ptr v2,
                    [.Do request, .ReadAll, .Unmarshal responseAsBytes]⟩
                | (v2, none) =>
                  ClientV2.callWrite rt responseTransformed responseAsBytes (.ptr v2)
                    [.Do request, .ReadAll, .Unmarshal responseAsBytes]

/-- `(*ClientV2).TransformStructToReader`; `bytes.NewReader` gives the reader that yields
the encoded bytes. -/
def ClientV2.TransformStructToReader (_c : ClientV2) (structure_ : Option reflect.Value) :
    Except GoError Reader :=
  match structure_ with
  | none => .error .ErrNilPayloadError
  | some v =>
    if v.Kind == .Struct then .error .ErrNonPayloadPointerError
    else
      match json.Marshal v with
      | .error err => .error err
      | .ok structureAsBodyBytes => .ok ⟨structureAsBodyBytes, none⟩

/-- `(*ClientV2).TransformTheHTTPResponse`. The result of the write into the envelope
buffer is dropped, as in the source. -/
def ClientV2.TransformTheHTTPResponse {τ : Type} (_c : ClientV2) (rt : Runtime τ)
    (response : Option http.Response) (structure_ : Target τ) : CallResult τ :=
  match response with
  | none =>
    ⟨.returned none
        (some (.errorString "validation failed, please provide a http.Response pointer")),
      structure_, []⟩
  | some response =>
    match response.Request with
    | none => ⟨.panicked, structure_, []⟩
    | some responseRequest =>
      match responseRequest.URL with
      | none => ⟨.panicked, structure_, []⟩
      | some responseURL =>
        let responseTransformed : ResponseScheme :=
          { Code := response.StatusCode,
            Endpoint := responseURL.String,
            Method := responseRequest.Method }
        let wasSuccess := decide (response.StatusCode ≥ 200) && decide (response.StatusCode < 300)
        if !wasSuccess then
          ⟨.returned (some responseTransformed) (some (.errorString "TODO")), structure_, []⟩
        else
          match response.Body with
          | none => ⟨.panicked, structure_, [.ReadAll]⟩
          | some body =>
            match ReadAll body with
            | (_, some err) =>
              ⟨.returned (some responseTransformed) (some err), structure_, [.ReadAll]⟩
            | (responseAsBytes, none) =>
              match structure_ with
              | .nil =>
                ⟨.returned
                    (some { responseTransformed with
                      Bytes := (rt.Write responseTransformed.Bytes responseAsBytes).1 })
                    none,
                  .nil, [.ReadAll, .Write responseAsBytes]⟩
              | .ptr v =>
                match rt.Unmarshal responseAsBytes v with
                | (v2, some err) =>
                  ⟨.returned (some responseTransformed) (some err), .ptr v2,
                    [.ReadAll, .Unmarshal responseAsBytes]⟩
                | (v2, none) =>
                  ⟨.returned
                      (some { responseTransformed with
                        Bytes := (rt.Write responseTransformed.Bytes responseAsBytes).1 })
                      none,
                    .ptr v2, [.ReadAll, .Unmarshal responseAsBytes, .Write responseAsBytes]⟩

/-- The site string that `NewV2` parses (lines 26 to 28): the site, with a `/` appended
when it does not end in one. -/
def siteWithSlash (site : Bytes) : Bytes :=
  if !strings.HasSuffix site [ch '/'] then site ++ [ch '/'] else site

/-- What `NewV2` uses from outside `src/`: the global `http.DefaultClient`, the outcome
of the chain of service constructors of package `internal` on the new client (the first
error, if any), and the authentication service that `internal.NewAuthenticationService`
gives for it. -/
structure Wiring where
  DefaultClient : HttpClient
  services : HttpClient → url.URL → Option GoError
  auth : HttpClient → url.URL → Authentication

/-- `NewV2`. -/
def NewV2 (w : Wiring) (httpClient : Option HttpClient) (site : Bytes) :
    Except GoError ClientV2 :=
  let httpClient :=
    match httpClient with
    | none => w.DefaultClient
    | some given => given
  match url.Parse (siteWithSlash site) with
  | .error err => .error err
  | .ok siteAsURL =>
    match w.services httpClient siteAsURL with
    | some err => .error err
    | none => .ok ⟨httpClient, siteAsURL, w.auth httpClient siteAsURL⟩

/-! ## Query strings (`url.Values`) and the resource services -/

namespace url

/-- Go `url.QueryEscape`. -/
def QueryEscape (s : Bytes) : Bytes := escape s .encodeQueryComponent

/-- Go `url.Values` (a map from a key to the list of its values), kept as the list of
the `(key, value)` pairs in the order of the `Add` calls. -/
abbrev Values := List (Bytes × Bytes)

/-- Go `Values.Add`. -/
def Values.Add (v : Values) (key value : Bytes) : Values := v ++ [(key, value)]

/-- Go `Values.Encode`: the keys in the order of `sort.Strings`, the values of one key
in the order added, each pair written `key=value` with both sides query-escaped, the
pairs joined by `&`. -/
def Values.Encode (v : Values) : Bytes :=
  strings.Join
    ((strings.sortByKey v).map fun kv => QueryEscape kv.1 ++ [ch '='] ++ QueryEscape kv.2)
    [ch '&']

end url

namespace service

/-- Modelled from the spec: a typed optional parameter of an endpoint (section 3, "Typed
endpoint parameters": strings, ints, bools, string sets); the parameter structs of the
services are not among the sources. -/
inductive Parameter where
  | text (value : Bytes)
  | number (value : Int)
  | flag (value : Bool)
  | set (values : List Bytes)

/-- Modelled from the spec: the text of a parameter value before encoding (section 4.2:
booleans are the literal strings `true` and `false`, multi-valued parameters are joined
with a comma); the service sources are not under `src/`. -/
def Parameter.render : Parameter → Bytes
  | .text value => value
  | .number value => strconv.Itoa value
  | .flag value => if value then str "true" else str "false"
  | .set values => strings.Join values [ch ',']

/-- Modelled from the spec: the query of the supplied parameters, one `Add` for each. -/
def buildQuery (supplied : List (Bytes × Parameter)) : url.Values :=
  supplied.foldl (fun query kp => query.Add kp.1 kp.2.render) []

/-- Modelled from the spec: the Query/Path builder of section 4.2, which the service
methods (not among the sources) run before `NewRequest`: the relative path, followed,
when parameters are supplied, by `?` and the encoded query; absent parameters are not
in `supplied` and leave no key. -/
def buildEndpoint (path : Bytes) (supplied : List (Bytes × Parameter)) : Bytes :=
  if supplied.isEmpty then path else path ++ [ch '?'] ++ (buildQuery supplied).Encode

/-- The interface `service.Connector` as the service tests mock it:
`NewRequest(ctx, method, urlStr, type_, body)` gives `(request, err)` and
`Call(request, structure)` gives `(response, err)`. -/
structure Connector where
  NewRequest : Option Context → Bytes → Bytes → Bytes → Option reflect.Value →
    Option http.Request × Option GoError
  Call : Option http.Request → Option ResponseScheme × Option GoError

/-- Calls that a service method makes on its connector, in the order made. -/
inductive ConnectorEvent where
  | NewRequest (method urlStr type_ : Bytes)
  | Call (request : Option http.Request)
  deriving DecidableEq, Repr

/-- The event is a `Call` on the connector. -/
def ConnectorEvent.isCall : ConnectorEvent → Bool
  | .Call _ => true
  | _ => false

/-- What a service method returns (whether a typed result comes back, the envelope, the
error) and the calls it made on the connector. -/
structure ServiceResult where
  result : Bool
  response : Option ResponseScheme
  err : Option GoError
  trace : List ConnectorEvent
  deriving DecidableEq, Repr

/-- Modelled from the spec: the shared flow of a service method (section 2: request
factory, then transport invoker) once validation has passed; the service sources are
not under `src/`. A failing `NewRequest` ends the method before `Call`. -/
def dispatch (c : Connector) (ctx : Option Context) (method endpoint : Bytes)
    (body : Option reflect.Value) (typed : Bool) : ServiceResult :=
  match c.NewRequest ctx method endpoint [] body with
  | (_, some err) => ⟨false, none, some err, [.NewRequest method endpoint []]⟩
  | (request, none) =>
    match c.Call request with
    | (response, some err) =>
      ⟨false, response, some err, [.NewRequest method endpoint [], .Call request]⟩
    | (response, none) =>
      ⟨typed, response, none, [.NewRequest method endpoint [], .Call request]⟩

end service

namespace assets

/-- Modelled from the spec: the validation layer (section 4.1) in front of a method of
the assets object service, `assets/internal/object_impl.go`, which is not among the
sources: the workspace identifier is checked first, then the object identifier, and the
first missing one ends the method with its error before any request is built. The
endpoints and HTTP methods are the ones its tests expect. -/
def objectMethod (c : service.Connector) (ctx : Option Context) (method : Bytes)
    (workspaceID objectID endpoint : Bytes) (body : Option reflect.Value) (typed : Bool) :
    service.ServiceResult :=
  if workspaceID == [] then ⟨false, none, some .ErrNoWorkspaceID, []⟩
  else if objectID == [] then ⟨false, none, some .ErrNoObjectID, []⟩
  else service.dispatch c ctx method endpoint body typed

/-- The path `jsm/assets/workspace/{workspaceID}/v1/object/{objectID}`. -/
def objectPath (workspaceID objectID : Bytes) : Bytes :=
  str "jsm/assets/workspace/" ++ workspaceID ++ str "/v1/object/" ++ objectID

/-- Modelled from the spec: `internalObjectImpl.Get` (source not under `src/`). -/
def internalObjectImpl.Get (c : service.Connector) (ctx : Option Context)
    (workspaceID objectID : Bytes) : service.ServiceResult :=
  objectMethod c ctx (str "GET") workspaceID objectID (objectPath workspaceID objectID) none true

/-- Modelled from the spec: `internalObjectImpl.Delete` (source not under `src/`). -/
def internalObjectImpl.Delete (c : service.Connector) (ctx : Option Context)
    (workspaceID objectID : Bytes) : service.ServiceResult :=
  objectMethod c ctx (str "DELETE") workspaceID objectID (objectPath workspaceID objectID) none
    false

/-- Modelled from the spec: `internalObjectImpl.Attributes` (source not under `src/`). -/
def internalObjectImpl.Attributes (c : service.Connector) (ctx : Option Context)
    (workspaceID objectID : Bytes) : service.ServiceResult :=
  objectMethod c ctx (str "GET") workspaceID objectID
    (objectPath workspaceID objectID ++ str "/attributes") none true

/-- Modelled from the spec: `internalObjectImpl.History` (source not under `src/`); the
order flag is always supplied. -/
def internalObjectImpl.History (c : service.Connector) (ctx : Option Context)
    (workspaceID objectID : Bytes) (ascOrder : Bool) : service.ServiceResult :=
  objectMethod c ctx (str "GET") workspaceID objectID
    (service.buildEndpoint (objectPath workspaceID objectID ++ str "/history")
      [(str "asc", .flag ascOrder)]) none true

/-- Modelled from the spec: `internalObjectImpl.References` (source not under `src/`). -/
def internalObjectImpl.References (c : service.Connector) (ctx : Option Context)
    (workspaceID objectID : Bytes) : service.ServiceResult :=
  objectMethod c ctx (str "GET") workspaceID objectID
    (objectPath workspaceID objectID ++ str "/referenceinfo") none true

/-- Modelled from the spec: `internalObjectImpl.Relation` (source not under `src/`). -/
def internalObjectImpl.Relation (c : service.Connector) (ctx : Option Context)
    (workspaceID objectID : Bytes) : service.ServiceResult :=
  objectMethod c ctx (str "GET") workspaceID objectID
    (str "jsm/assets/workspace/" ++ workspaceID ++ str "/v1/objectconnectedtickets/" ++
      objectID ++ str "/tickets") none true

/-- Modelled from the spec: `internalObjectImpl.Update` (source not under `src/`). -/
def internalObjectImpl.Update (c : service.Connector) (ctx : Option Context)
    (workspaceID objectID : Bytes) (payload : Option reflect.Value) : service.ServiceResult :=
  objectMethod c ctx (str "PUT") workspaceID objectID (objectPath workspaceID objectID) payload
    true

end assets

namespace models

/-- The struct `UpdateOperations`: the list of the update nodes added so far (Go:
`Fields []map[string]interface{}`). -/
structure UpdateOperations where
  Fields : List reflect.Value := []

/-- The struct `CustomFields`: the list of the custom-field nodes added so far. -/
structure CustomFields where
  Fields : List reflect.Value := []

/-- Modelled from the spec: `UpdateOperations.AddArrayOperation`
(`pkg/infra/models/jira_issue_operations.go`, not among the sources): the validation of
section 4.1 on the field identifier, then one node appended for the mapping. The mapping
(from value to verb) is the list of its entries. The spec does not describe the node, so
the function `node` that builds it from the field identifier and the mapping is a
parameter. The result is the receiver afterwards and the error. -/
def UpdateOperations.AddArrayOperation (u : UpdateOperations)
    (node : Bytes → List (Bytes × Bytes) → reflect.Value) (customFieldID : Bytes)
    (mapping : List (Bytes × Bytes)) : UpdateOperations × Option GoError :=
  if customFieldID.length == 0 then (u, some .ErrNoFieldIDError)
  else (⟨u.Fields ++ [node customFieldID mapping]⟩, none)

/-- Modelled from the spec: `UpdateOperations.AddStringOperation`
(`pkg/infra/models/jira_issue_operations.go`, not among the sources): the validation of
section 4.1, the field identifier first, then the operation, then the value, as the
cases of its test name them; then one node appended, built by the parameter `node` as in
`AddArrayOperation`. -/
def UpdateOperations.AddStringOperation (u : UpdateOperations)
    (node : Bytes → List (Bytes × Bytes) → reflect.Value)
    (customFieldID operation value : Bytes) : UpdateOperations × Option GoError :=
  if customFieldID.length == 0 then (u, some .ErrNoFieldIDError)
  else if operation.length == 0 then (u, some .ErrNoEditOperatorError)
  else if value.length == 0 then (u, some .ErrNoEditValueError)
  else (⟨u.Fields ++ [node customFieldID [(value, operation)]]⟩, none)

/-- The struct `IssueSchemeV2`, with the fields its test lists; the nested ones are kept
in the form they have as JSON values. -/
structure IssueSchemeV2 where
  ID : Bytes := []
  Key : Bytes := []
  Self : Bytes := []
  Transitions : Option (List reflect.Value) := none
  Changelog : Option reflect.Value := none
  Fields : Option reflect.Value := none

/-- Modelled from the spec: `IssueSchemeV2.MergeOperations`
(`pkg/infra/models/jira_issue_v2.go`, not among the sources): the validation of section
4.1 on the operations (nil, or holding no node), then a map and no error. The spec does
not describe the map, so the function `merge` that gives it from the issue and the nodes
is a parameter. -/
def IssueSchemeV2.MergeOperations (i : IssueSchemeV2)
    (merge : IssueSchemeV2 → List reflect.Value → reflect.Value)
    (operations : Option UpdateOperations) : Option reflect.Value × Option GoError :=
  match operations with
  | none => (none, some .ErrNoOperatorError)
  | some u =>
    if u.Fields.length == 0 then (none, some .ErrNoOperatorError)
    else (some (merge i u.Fields), none)

/-- Modelled from the spec: `IssueSchemeV2.MergeCustomFields`
(`pkg/infra/models/jira_issue_v2.go`, not among the sources): the validation of section
4.1 on the custom fields (nil, or holding no node), then a map and no error, the map
given by the parameter `merge` as in `MergeOperations`. -/
def IssueSchemeV2.MergeCustomFields (i : IssueSchemeV2)
    (merge : IssueSchemeV2 → List reflect.Value → reflect.Value)
    (fields : Option CustomFields) : Option reflect.Value × Option GoError :=
  match fields with
  | none => (none, some .ErrNoCustomFieldError)
  | some f =>
    if f.Fields.length == 0 then (none, some .ErrNoCustomFieldError)
    else (some (merge i f.Fields), none)

end models

/-! ## Fixtures for concrete evaluations -/

namespace Fixture

/-- A scheme struct with the single member `id` (Go: `ID string` tagged `json:"id"`). -/
structure IDScheme where
  id : Bytes
  deriving DecidableEq, Repr

/-- JSON white space. -/
def isSpace (c : UInt8) : Bool := c == ch ' ' || c == 9 || c == 10 || c == 13

/-- Drops leading JSON white space. -/
def skipSpace (s : Bytes) : Bytes := s.dropWhile isSpace

/-- Reads a JSON string without escapes, the opening quote already consumed: the
content and the input after the closing quote. -/
def readString : Bytes → Option (Bytes × Bytes)
  | [] => none
  | c :: rest =>
    if c == ch '"' then some ([], rest)
    else if c == 92 || c < 0x20 then none
    else (readString rest).map fun r => (c :: r.1, r.2)

/-- Reads the members of a JSON object whose values are strings, the opening brace
already consumed, storing the member `id` into the struct. -/
def readMembers : Nat → Bytes → IDScheme → Option IDScheme
  | 0, _, _ => none
  | fuel + 1, s, acc =>
    match skipSpace s with
    | q :: afterQuote =>
      if q != ch '"' then none
      else
        match readString afterQuote with
        | none => none
        | some (key, afterKey) =>
          match skipSpace afterKey with
          | colon :: afterColon =>
            if colon != ch ':' then none
            else
              match skipSpace afterColon with
              | q2 :: afterQuote2 =>
                if q2 != ch '"' then none
                else
                  match readString afterQuote2 with
                  | none => none
                  | some (value, afterValue) =>
                    let acc2 : IDScheme := if key == str "id" then ⟨value⟩ else acc
                    match skipSpace afterValue with
                    | sep :: afterSep =>
                      if sep == ch ',' then readMembers fuel afterSep acc2
                      else if sep == 125 && skipSpace afterSep == [] then some acc2
                      else none
                    | [] => none
              | [] => none
          | [] => none
    | [] => none

/-- A decoder standing in for `json.Unmarshal` on `*IDScheme`: it accepts JSON objects
whose members are strings without escapes and rejects every other input with a syntax
error, leaving the target as it was. The bytes 123 and 125 are the braces. -/
def unmarshalID (data : Bytes) (v : IDScheme) : IDScheme × Option GoError :=
  match skipSpace data with
  | open_ :: rest =>
    if open_ != 123 then (v, some (.errorString "json: syntax error"))
    else
      match skipSpace rest with
      | close :: tail =>
        if close == 125 && skipSpace tail == [] then (v, none)
        else
          match readMembers data.length rest v with
          | some v2 => (v2, none)
          | none => (v, some (.errorString "json: syntax error"))
      | [] => (v, some (.errorString "json: syntax error"))
  | [] => (v, some (.errorString "json: syntax error"))

/-- The runtime of the fixtures: the stand-in decoder and Go's `bytes.Buffer`. -/
def runtime : Runtime IDScheme := ⟨unmarshalID, bytesBufferWrite⟩

/-- The base site URL `https://example.atlassian.net/`. -/
def site : url.URL :=
  { Scheme := str "https", Host := str "example.atlassian.net", Path := str "/" }

/-- An authentication provider with nothing configured. -/
def noAuth : Authentication := ⟨false, ([], []), false, []⟩

/-- The request `GET https://example.atlassian.net/rest/api/2/issue/1`. -/
def request : http.Request :=
  { ctx := Context.Background, Method := str "GET",
    URL := some { site with Path := str "/rest/api/2/issue/1" },
    Host := str "example.atlassian.net" }

/-- A transport stub answering every request with the given status and body. -/
def stubTransport (status : Int) (body : Bytes) : HttpClient :=
  ⟨fun _ => (some { StatusCode := status, Request := some request, Body := some ⟨body, none⟩ },
    none)⟩

/-- A transport stub failing every request with a network error. -/
def failingTransport : HttpClient :=
  ⟨fun _ => (none, some (.errorString "dial tcp: connection refused"))⟩

/-- A client on the stub transport. -/
def client (status : Int) (body : Bytes) : ClientV2 := ⟨stubTransport status body, site, noAuth⟩

/-- A client whose transport fails. -/
def offlineClient : ClientV2 := ⟨failingTransport, site, noAuth⟩

/-- The body `{"id":"1"}`. -/
def idBody : Bytes := str "\x7b\"id\":\"1\"\x7d"

/-- An authentication provider with basic-auth credentials and a user agent, as the
example programs configure it. -/
def basicAuth : Authentication :=
  ⟨true, (str "mail@example.com", str "token"), true, str "curl/7.54.0"⟩

/-- A client whose authentication provider is configured. -/
def authClient : ClientV2 := ⟨stubTransport 200 [], site, basicAuth⟩

/-- The request of a successful factory call (the fixture request otherwise). -/
def built (r : Except GoError http.Request) : http.Request :=
  match r with
  | .ok q => q
  | .error _ => request

/-- The reader of the JSON payload `{}`. -/
def emptyObject : Reader := ⟨str "\x7b\x7d", none⟩

/-- What `NewRequest` builds for `POST rest/api/2/issue` with a payload, no
authentication configured. -/
def jsonPost : http.Request :=
  built ((client 200 []).NewRequest (some Context.Background) (str "POST")
    (str "rest/api/2/issue") (some emptyObject))

/-- What `NewRequest` builds for `GET rest/api/2/issue/1` without payload, no
authentication configured. -/
def plainGet : http.Request :=
  built ((client 200 []).NewRequest (some Context.Background) (str "GET")
    (str "rest/api/2/issue/1") none)

/-- What `NewRequest` builds for `GET rest/api/2/issue/1` with authentication
configured. -/
def authGet : http.Request :=
  built (authClient.NewRequest (some Context.Background) (str "GET")
    (str "rest/api/2/issue/1") none)

/-- What `NewFormRequest` builds for an attachment upload with authentication
configured. -/
def formPost : http.Request :=
  built (authClient.NewFormRequest (some Context.Background) (str "POST")
    (str "rest/api/2/issue/1/attachments") (str "multipart/form-data; boundary=x")
    (some emptyObject))

/-- The parameters that the test of the Confluence `Search.Content` supplies. -/
def searchContentParameters : List (Bytes × service.Parameter) :=
  [(str "cql", .text (str "type=page")), (str "cqlcontext", .text (str "spaceKey")),
    (str "cursor", .text (str "raNDoMsTRiNg")), (str "next", .flag true),
    (str "prev", .flag true), (str "limit", .number 20), (str "start", .number 10),
    (str "includeArchivedSpaces", .flag true), (str "excludeCurrentSpaces", .flag true),
    (str "sitePermissionTypeFilter", .text (str "externalCollaborator")),
    (str "excerpt", .text (str "indexed")), (str "expand", .set [str "space"])]

/-- The parameters that the test of the Confluence `ChildrenByType` supplies. -/
def childrenByTypeParameters : List (Bytes × service.Parameter) :=
  [(str "start", .number 50), (str "limit", .number 25),
    (str "expand", .set [str "attachment", str "comments"]), (str "parentVersion", .number 12)]

/-- The parameter that the test of the Bitbucket workspace `Members` supplies. -/
def membersParameters : List (Bytes × service.Parameter) :=
  [(str "q", .text (str "permission=\"owner\""))]

/-- A connector whose two methods succeed. -/
def connector : service.Connector :=
  ⟨fun _ _ _ _ _ => (some request, none), fun _ => (some {}, none)⟩

/-- The parameters that the test of the Confluence `Children` supplies. -/
def childrenParameters : List (Bytes × service.Parameter) :=
  [(str "expand", .set [str "attachment", str "comments"]), (str "parentVersion", .number 12)]

/-- The parameters that the test of the Confluence `Search.Users` supplies. -/
def usersParameters : List (Bytes × service.Parameter) :=
  [(str "cql", .text (str "type=page")), (str "start", .number 20), (str "limit", .number 50),
    (str "expand", .set [str "operations", str "personalSpace"])]

/-- A connector whose `NewRequest` fails as the mocks of the service tests do: it gives
an empty request together with `ErrCreateHttpReq`. -/
def brokenConnector : service.Connector :=
  ⟨fun _ _ _ _ _ => (some request, some .ErrCreateHttpReq), fun _ => (some {}, none)⟩

/-- A wiring whose service constructors succeed; the default HTTP client is the
offline transport. -/
def wiring : Wiring := ⟨failingTransport, fun _ _ => none, fun _ _ => noAuth⟩

/-- The type of a small issue payload: strings, an `omitempty` integer, an `omitempty`
slice, an `omitempty` pointer to a struct, a boolean and a map. -/
def issueType : reflect.GoType :=
  .struct [(str "key", false, .string), (str "summary", false, .string),
    (str "votes", true, .int), (str "labels", true, .slice .string),
    (str "parent", true, .ptr (.struct [(str "key", false, .string)])),
    (str "done", false, .bool), (str "estimates", false, .map .int)]

/-- An issue payload of that type, with a summary that needs escapes and no votes. -/
def issue : reflect.Value :=
  .struct [(str "key", false, .string (str "KP-2")),
    (str "summary", false, .string (str "a<b \"é\"")),
    (str "votes", true, .int 0),
    (str "labels", true, .slice (some [.string (str "triaged"), .string (str "ops")])),
    (str "parent", true, .ptr (some (.struct [(str "key", false, .string (str "KP-1"))]))),
    (str "done", false, .bool true),
    (str "estimates", false, .map (some [(str "dev", .int 3), (str "qa", .int (-1))]))]

/-- The JSON text of the issue payload. -/
def issueBody : Bytes :=
  str ("\x7b\"key\":\"KP-2\",\"summary\":\"a\\u003cb \\\"é\\\"\"," ++
    "\"labels\":[\"triaged\",\"ops\"],\"parent\":\x7b\"key\":\"KP-1\"\x7d," ++
    "\"done\":true,\"estimates\":\x7b\"dev\":3,\"qa\":-1\x7d\x7d")

/-- A struct type with one `omitempty` slice of strings. -/
def labelsType : reflect.GoType := .struct [(str "labels", true, .slice .string)]

end Fixture

/-! ## Theorems -/

/-! ### `Call` -/

/-- Claim C1: when the transport returns a response (carrying its request and URL) whose
status is below 200 or at least 300, `Call` returns the envelope with that status, the
URL and method of the response's request and empty raw bytes, together with
`ErrInvalidStatusCodeError`; the only call made is the one `Do`, so the body is not read,
and the target is left as it was. For a status in `[200, 300)` the body is read, so this
branch is not taken. -/
theorem Call_status_outside_2xx {τ : Type} (c : ClientV2) (rt : Runtime τ)
    (request : Option http.Request) (structure_ : Target τ)
    (response : http.Response) (responseRequest : http.Request) (responseURL : url.URL)
    (hDo : c.HTTP.Do request = (some response, none))
    (hRequest : response.Request = some responseRequest)
    (hURL : responseRequest.URL = some responseURL) :
    ((response.StatusCode < 200 ∨ 300 ≤ response.StatusCode) →
      (c.Call rt request structure_).outcome =
          .returned
            (some { Response := some response, Code := response.StatusCode,
                    Endpoint := responseURL.String, Method := responseRequest.Method,
                    Bytes := [] })
            (some .ErrInvalidStatusCodeError) ∧
        (c.Call rt request structure_).target = structure_ ∧
        (c.Call rt request structure_).trace = [.Do request]) ∧
    ((200 ≤ response.StatusCode ∧ response.StatusCode < 300) →
      Event.ReadAll ∈ (c.Call rt request structure_).trace) := by
  refine ⟨fun hs => ?_, fun hs => ?_⟩
  · have hcond : (decide (response.StatusCode ≥ 200) && decide (response.StatusCode < 300)) = false := by
      rcases hs with h | h
      · simp; intro h2; omega
      · simp; intro _; omega
    simp [ClientV2.Call, hDo, hRequest, hURL, hcond]
  · have hcond : (decide (response.StatusCode ≥ 200) && decide (response.StatusCode < 300)) = true := by
      simp [hs.1, hs.2]
    simp only [ClientV2.Call, hDo, hRequest, hURL, hcond]
    cases hB : response.Body with
    | none => simp
    | some body =>
      cases hE : body.err with
      | some err => simp [ReadAll, hE]
      | none =>
        cases structure_ with
        | nil =>
          simp only [ReadAll, hE, ClientV2.callWrite]
          cases hW : rt.Write [] body.data with
          | mk w e => cases e <;> simp
        | ptr v =>
          simp only [ReadAll, hE, ClientV2.callWrite]
          cases hU : rt.Unmarshal body.data v with
          | mk v2 e =>
            cases e with
            | some err => simp
            | none =>
              cases hW : rt.Write [] body.data with
              | mk w e => cases e <;> simp

/-- Witness of C1: a 404 answer gives the envelope with code 404 and the sentinel, and
the target stays undecoded. -/
theorem Call_status_outside_2xx_witness :
    ∃ env : ResponseScheme,
      ((Fixture.client 404 Fixture.idBody).Call Fixture.runtime (some Fixture.request)
          (.ptr (⟨[]⟩ : Fixture.IDScheme))).outcome =
        .returned (some env) (some .ErrInvalidStatusCodeError) ∧
      env.Code = 404 ∧ env.Bytes = [] ∧
      ((Fixture.client 404 Fixture.idBody).Call Fixture.runtime (some Fixture.request)
          (.ptr (⟨[]⟩ : Fixture.IDScheme))).target = .ptr ⟨[]⟩ :=
  have h := (Call_status_outside_2xx (Fixture.client 404 Fixture.idBody) Fixture.runtime
    (some Fixture.request) (.ptr (⟨[]⟩ : Fixture.IDScheme))
    { StatusCode := 404, Request := some Fixture.request, Body := some ⟨Fixture.idBody, none⟩ }
    Fixture.request { Fixture.site with Path := str "/rest/api/2/issue/1" }
    rfl rfl rfl).1 (by decide)
  ⟨_, h.1, rfl, rfl, h.2.1⟩

/-- The status test of `Call` succeeds exactly on `[200, 300)`. -/
theorem status_test_true (code : Int) (hs : 200 ≤ code ∧ code < 300) :
    (decide (code ≥ 200) && decide (code < 300)) = true := by
  simp [hs.1, hs.2]

/-- `Call` on a readable 2xx response with a nil target runs straight to the write. -/
theorem Call_nil_target_eq {τ : Type} (c : ClientV2) (rt : Runtime τ)
    (request : Option http.Request)
    (response : http.Response) (responseRequest : http.Request) (responseURL : url.URL)
    (body : Reader)
    (hDo : c.HTTP.Do request = (some response, none))
    (hRequest : response.Request = some responseRequest)
    (hURL : responseRequest.URL = some responseURL)
    (hs : 200 ≤ response.StatusCode ∧ response.StatusCode < 300)
    (hBody : response.Body = some body) (hRead : body.err = none) :
    c.Call rt request (Target.nil : Target τ) =
      ClientV2.callWrite rt
        { Response := some response, Code := response.StatusCode,
          Endpoint := responseURL.String, Method := responseRequest.Method }
        body.data .nil [.Do request, .ReadAll] := by
  simp [ClientV2.Call, hDo, hRequest, hURL, status_test_true _ hs, hBody, ReadAll, hRead]

/-- `Call` on a readable 2xx response with a pointer target whose decoding succeeds
runs to the write with the decoded value in the target. -/
theorem Call_ptr_decoded_eq {τ : Type} (c : ClientV2) (rt : Runtime τ)
    (request : Option http.Request)
    (response : http.Response) (responseRequest : http.Request) (responseURL : url.URL)
    (body : Reader) (v v2 : τ)
    (hDo : c.HTTP.Do request = (some response, none))
    (hRequest : response.Request = some responseRequest)
    (hURL : responseRequest.URL = some responseURL)
    (hs : 200 ≤ response.StatusCode ∧ response.StatusCode < 300)
    (hBody : response.Body = some body) (hRead : body.err = none)
    (hJSON : rt.Unmarshal body.data v = (v2, none)) :
    c.Call rt request (.ptr v) =
      ClientV2.callWrite rt
        { Response := some response, Code := response.StatusCode,
          Endpoint := responseURL.String, Method := responseRequest.Method }
        body.data (.ptr v2) [.Do request, .ReadAll, .Unmarshal body.data] := by
  simp [ClientV2.Call, hDo, hRequest, hURL, status_test_true _ hs, hBody, ReadAll, hRead, hJSON]

/-- The end of `Call` when the write reports no error. -/
theorem callWrite_ok {τ : Type} (rt : Runtime τ) (env : ResponseScheme) (data written : Bytes)
    (target : Target τ) (trace : List Event)
    (hWrite : rt.Write env.Bytes data = (written, none)) :
    ClientV2.callWrite rt env data target trace =
      ⟨.returned (some { env with Bytes := written }) none, target, trace ++ [.Write data]⟩ := by
  simp [ClientV2.callWrite, hWrite]

/-- Claim C2: for a response with a status in `[200, 300)` whose body is read without
error and decodes into the pointer target (and whose bytes the envelope buffer accepts,
as Go's `bytes.Buffer` always does), `Call` returns a nil error, an envelope whose code
is the status, and the target holds the decoded value. -/
theorem Call_decode_success {τ : Type} (c : ClientV2) (rt : Runtime τ)
    (request : Option http.Request)
    (response : http.Response) (responseRequest : http.Request) (responseURL : url.URL)
    (body : Reader) (v decoded : τ) (written : Bytes)
    (hDo : c.HTTP.Do request = (some response, none))
    (hRequest : response.Request = some responseRequest)
    (hURL : responseRequest.URL = some responseURL)
    (hs : 200 ≤ response.StatusCode ∧ response.StatusCode < 300)
    (hBody : response.Body = some body) (hRead : body.err = none)
    (hJSON : rt.Unmarshal body.data v = (decoded, none))
    (hWrite : rt.Write [] body.data = (written, none)) :
    (c.Call rt request (.ptr v)).outcome =
        .returned
          (some { Response := some response, Code := response.StatusCode,
                  Endpoint := responseURL.String, Method := responseRequest.Method,
                  Bytes := written })
          none ∧
      (c.Call rt request (.ptr v)).target = .ptr decoded := by
  rw [Call_ptr_decoded_eq c rt request response responseRequest responseURL body v decoded
    hDo hRequest hURL hs hBody hRead hJSON]
  rw [callWrite_ok rt _ body.data written _ _ hWrite]
  exact ⟨rfl, rfl⟩

/-- Witness of C2 (the example of the specification): status 201 and body `{"id":"1"}`
give code 201, no error, and the target member `id = "1"`. -/
theorem Call_decode_success_witness :
    ∃ env : ResponseScheme,
      ((Fixture.client 201 Fixture.idBody).Call Fixture.runtime (some Fixture.request)
          (.ptr (⟨[]⟩ : Fixture.IDScheme))).outcome = .returned (some env) none ∧
      env.Code = 201 ∧
      ((Fixture.client 201 Fixture.idBody).Call Fixture.runtime (some Fixture.request)
          (.ptr (⟨[]⟩ : Fixture.IDScheme))).target = .ptr ⟨str "1"⟩ :=
  have h := Call_decode_success (Fixture.client 201 Fixture.idBody) Fixture.runtime
    (some Fixture.request)
    { StatusCode := 201, Request := some Fixture.request, Body := some ⟨Fixture.idBody, none⟩ }
    Fixture.request { Fixture.site with Path := str "/rest/api/2/issue/1" }
    ⟨Fixture.idBody, none⟩ ⟨[]⟩ ⟨str "1"⟩ Fixture.idBody
    rfl rfl rfl (by decide) rfl rfl (by decide) rfl
  ⟨_, h.1, rfl, h.2⟩

/-- Claim C3: when the transport's `Do` returns an error `e` (whatever response comes
with it), `Call` returns no envelope and exactly `e`, makes no further call, and leaves
the target as it was. -/
theorem Call_transport_failure {τ : Type} (c : ClientV2) (rt : Runtime τ)
    (request : Option http.Request) (structure_ : Target τ)
    (response : Option http.Response) (e : GoError)
    (hDo : c.HTTP.Do request = (response, some e)) :
    (c.Call rt request structure_).outcome = .returned none (some e) ∧
      (c.Call rt request structure_).target = structure_ ∧
      (c.Call rt request structure_).trace = [.Do request] := by
  simp [ClientV2.Call, hDo]

/-- Witness of C3: a refused connection comes back as it is, with no envelope. -/
theorem Call_transport_failure_witness :
    (Fixture.offlineClient.Call Fixture.runtime (some Fixture.request)
        (.ptr (⟨[]⟩ : Fixture.IDScheme))).outcome =
      .returned none (some (.errorString "dial tcp: connection refused")) :=
  (Call_transport_failure Fixture.offlineClient Fixture.runtime (some Fixture.request)
    (.ptr (⟨[]⟩ : Fixture.IDScheme)) none (.errorString "dial tcp: connection refused") rfl).1

/-- Claim C4: once the transport has returned a response (carrying its request, the URL
and a body), every path of `Call` returns a non-nil envelope, with or without an error:
on a status outside `[200, 300)`, on a failed read of the body, on a failed decoding and
on success. The envelope holds the response, its status code, and the endpoint and the
method of its request. The write into the envelope buffer reports no error, as the one
of Go's `bytes.Buffer` never does. -/
theorem Call_returns_envelope_after_response {τ : Type} (c : ClientV2) (rt : Runtime τ)
    (request : Option http.Request) (t : Target τ)
    (response : http.Response) (responseRequest : http.Request) (responseURL : url.URL)
    (body : Reader)
    (hDo : c.HTTP.Do request = (some response, none))
    (hRequest : response.Request = some responseRequest)
    (hURL : responseRequest.URL = some responseURL)
    (hBody : response.Body = some body)
    (hWrite : ∀ buf p, (rt.Write buf p).2 = none) :
    ∃ envelope err, (c.Call rt request t).outcome = .returned (some envelope) err ∧
      envelope.Response = some response ∧ envelope.Code = response.StatusCode ∧
      envelope.Endpoint = responseURL.String ∧ envelope.Method = responseRequest.Method := by
  have hw : ∀ data, rt.Write [] data = ((rt.Write [] data).1, none) :=
    fun data => Prod.ext rfl (hWrite [] data)
  by_cases hs : (decide (response.StatusCode ≥ 200) && decide (response.StatusCode < 300)) = true
  · rcases hr : ReadAll body with ⟨data, _ | rerr⟩
    · cases t with
      | nil =>
        refine ⟨⟨some response, response.StatusCode, responseURL.String,
          responseRequest.Method, (rt.Write [] data).1⟩, none, ?_, rfl, rfl, rfl, rfl⟩
        simp only [ClientV2.Call, hDo, hRequest, hURL, hBody, hs, hr, ClientV2.callWrite]
        rw [hw data]
        simp
      | ptr v =>
        rcases hu : rt.Unmarshal data v with ⟨v2, _ | uerr⟩
        · refine ⟨⟨some response, response.StatusCode, responseURL.String,
            responseRequest.Method, (rt.Write [] data).1⟩, none, ?_, rfl, rfl, rfl, rfl⟩
          simp only [ClientV2.Call, hDo, hRequest, hURL, hBody, hs, hr, hu, ClientV2.callWrite]
          rw [hw data]
          simp
        · refine ⟨⟨some response, response.StatusCode, responseURL.String,
            responseRequest.Method, []⟩, some uerr, ?_, rfl, rfl, rfl, rfl⟩
          simp [ClientV2.Call, hDo, hRequest, hURL, hBody, hs, hr, hu]
    · refine ⟨⟨some response, response.StatusCode, responseURL.String,
        responseRequest.Method, []⟩, some rerr, ?_, rfl, rfl, rfl, rfl⟩
      simp [ClientV2.Call, hDo, hRequest, hURL, hBody, hs, hr]
  · refine ⟨⟨some response, response.StatusCode, responseURL.String,
      responseRequest.Method, []⟩, some .ErrInvalidStatusCodeError, ?_, rfl, rfl, rfl, rfl⟩
    simp only [Bool.not_eq_true] at hs
    simp [ClientV2.Call, hDo, hRequest, hURL, hs]

set_option maxRecDepth 100000 in
/-- Witness of C4: the envelope is returned with the error on the status 404, on a body
whose read fails and on a body that is not JSON, and without error on success. -/
theorem Call_returns_envelope_after_response_witness :
    ((Fixture.client 404 []).Call Fixture.runtime (some Fixture.request)
        (.ptr (⟨[]⟩ : Fixture.IDScheme))).outcome
      = .returned (some
          { Response := some { StatusCode := 404, Request := some Fixture.request,
                               Body := some ⟨[], none⟩ },
            Code := 404,
            Endpoint := str "https://example.atlassian.net/rest/api/2/issue/1",
            Method := str "GET" }) (some .ErrInvalidStatusCodeError) ∧
    ((Fixture.client 200 (str "<html>")).Call Fixture.runtime (some Fixture.request)
        (.ptr (⟨[]⟩ : Fixture.IDScheme))).outcome
      = .returned (some
          { Response := some { StatusCode := 200, Request := some Fixture.request,
                               Body := some ⟨str "<html>", none⟩ },
            Code := 200,
            Endpoint := str "https://example.atlassian.net/rest/api/2/issue/1",
            Method := str "GET" }) (some (.errorString "json: syntax error")) ∧
    (∃ envelope err,
      ((Fixture.client 200 Fixture.idBody).Call Fixture.runtime (some Fixture.request)
          (.ptr (⟨[]⟩ : Fixture.IDScheme))).outcome = .returned (some envelope) err ∧
      envelope.Response = some { StatusCode := 200, Request := some Fixture.request,
                                 Body := some ⟨Fixture.idBody, none⟩ } ∧
      envelope.Code = 200 ∧
      envelope.Endpoint = ({ Fixture.site with Path := str "/rest/api/2/issue/1" } : url.URL).String ∧
      envelope.Method = Fixture.request.Method) :=
  ⟨by decide, by decide,
    Call_returns_envelope_after_response (Fixture.client 200 Fixture.idBody) Fixture.runtime
      (some Fixture.request) (.ptr ⟨[]⟩)
      { StatusCode := 200, Request := some Fixture.request,
        Body := some ⟨Fixture.idBody, none⟩ }
      Fixture.request { Fixture.site with Path := str "/rest/api/2/issue/1" }
      ⟨Fixture.idBody, none⟩ rfl rfl rfl rfl (fun _ _ => rfl)⟩

/-- Claim C5: for a response with a status in `[200, 300)`, a readable body and a
non-nil target whose decoding fails with `err`, `Call` returns `err` together with the
envelope holding code, endpoint and method, with empty raw bytes; no write is made. -/
theorem Call_malformed_json {τ : Type} (c : ClientV2) (rt : Runtime τ)
    (request : Option http.Request)
    (response : http.Response) (responseRequest : http.Request) (responseURL : url.URL)
    (body : Reader) (v v2 : τ) (err : GoError)
    (hDo : c.HTTP.Do request = (some response, none))
    (hRequest : response.Request = some responseRequest)
    (hURL : responseRequest.URL = some responseURL)
    (hs : 200 ≤ response.StatusCode ∧ response.StatusCode < 300)
    (hBody : response.Body = some body) (hRead : body.err = none)
    (hJSON : rt.Unmarshal body.data v = (v2, some err)) :
    (c.Call rt request (.ptr v)).outcome =
        .returned
          (some { Response := some response, Code := response.StatusCode,
                  Endpoint := responseURL.String, Method := responseRequest.Method,
                  Bytes := [] })
          (some err) ∧
      (c.Call rt request (.ptr v)).trace =
        [.Do request, .ReadAll, .Unmarshal body.data] := by
  simp [ClientV2.Call, hDo, hRequest, hURL, status_test_true _ hs, hBody, ReadAll, hRead, hJSON]

/-- Witness of C5: an HTML body under status 200 gives the syntax error and an envelope
with code 200 and no raw bytes. -/
theorem Call_malformed_json_witness :
    ∃ env : ResponseScheme,
      ((Fixture.client 200 (str "<html>")).Call Fixture.runtime (some Fixture.request)
          (.ptr (⟨[]⟩ : Fixture.IDScheme))).outcome =
        .returned (some env) (some (.errorString "json: syntax error")) ∧
      env.Code = 200 ∧ env.Method = str "GET" ∧ env.Bytes = [] :=
  have h := Call_malformed_json (Fixture.client 200 (str "<html>")) Fixture.runtime
    (some Fixture.request)
    { StatusCode := 200, Request := some Fixture.request, Body := some ⟨str "<html>", none⟩ }
    Fixture.request { Fixture.site with Path := str "/rest/api/2/issue/1" }
    ⟨str "<html>", none⟩ ⟨[]⟩ ⟨[]⟩ (.errorString "json: syntax error")
    rfl rfl rfl (by decide) rfl rfl (by decide)
  ⟨_, h.1, rfl, rfl, rfl⟩

/-- Claim C6: with Go's `bytes.Buffer` as the envelope buffer, whenever `Call` on a
response with a status in `[200, 300)` returns a nil error, it returns an envelope whose
raw bytes are exactly the bytes read from the response body, for a nil target and for a
pointer target alike. -/
theorem Call_success_raw_bytes {τ : Type} (c : ClientV2) (rt : Runtime τ)
    (request : Option http.Request) (structure_ : Target τ)
    (response : http.Response) (envelope : Option ResponseScheme)
    (hBuffer : rt.Write = bytesBufferWrite)
    (hDo : c.HTTP.Do request = (some response, none))
    (hs : 200 ≤ response.StatusCode ∧ response.StatusCode < 300)
    (hOut : (c.Call rt request structure_).outcome = .returned envelope none) :
    ∃ (env : ResponseScheme) (body : Reader),
      envelope = some env ∧ response.Body = some body ∧ env.Bytes = body.data := by
  simp only [ClientV2.Call, hDo, status_test_true _ hs] at hOut
  cases hR : response.Request with
  | none => simp [hR] at hOut
  | some rq =>
    cases hU : rq.URL with
    | none => simp [hR, hU] at hOut
    | some u =>
      cases hB : response.Body with
      | none => simp [hR, hU, hB] at hOut
      | some body =>
        cases hE : body.err with
        | some err => simp [hR, hU, hB, ReadAll, hE] at hOut
        | none =>
          cases structure_ with
          | nil =>
            simp [hR, hU, hB, ReadAll, hE, ClientV2.callWrite, hBuffer, bytesBufferWrite] at hOut
            exact ⟨_, body, hOut.symm, rfl, rfl⟩
          | ptr v =>
            cases hJ : rt.Unmarshal body.data v with
            | mk v2 e =>
              cases e with
              | some err => simp [hR, hU, hB, ReadAll, hE, hJ] at hOut
              | none =>
                simp [hR, hU, hB, ReadAll, hE, hJ, ClientV2.callWrite, hBuffer,
                  bytesBufferWrite] at hOut
                exact ⟨_, body, hOut.symm, rfl, rfl⟩

/-- Witness of C6: the envelope of the 201 answer holds the body bytes `{"id":"1"}`. -/
theorem Call_success_raw_bytes_witness :
    ∃ (env : ResponseScheme) (body : Reader),
      some { Response := some { StatusCode := 201, Request := some Fixture.request,
                                Body := some ⟨Fixture.idBody, none⟩ },
             Code := 201,
             Endpoint := str "https://example.atlassian.net/rest/api/2/issue/1",
             Method := str "GET", Bytes := Fixture.idBody } = some env ∧
      some (⟨Fixture.idBody, none⟩ : Reader) = some body ∧ env.Bytes = body.data :=
  Call_success_raw_bytes (Fixture.client 201 Fixture.idBody) Fixture.runtime
    (some Fixture.request) (.ptr (⟨[]⟩ : Fixture.IDScheme))
    { StatusCode := 201, Request := some Fixture.request, Body := some ⟨Fixture.idBody, none⟩ }
    _ rfl rfl (by decide) (by decide)

/-- Claim C7: for a response with a status in `[200, 300)` and a readable body, a nil
target makes `Call` read the body and write it into the envelope without any JSON
decoding, whatever the body holds: the calls made are `Do`, `ReadAll` and `Write`, the
error is nil and (with Go's `bytes.Buffer`) the envelope holds the raw bytes. -/
theorem Call_nil_target_skips_decoding {τ : Type} (c : ClientV2) (rt : Runtime τ)
    (request : Option http.Request)
    (response : http.Response) (responseRequest : http.Request) (responseURL : url.URL)
    (body : Reader)
    (hBuffer : rt.Write = bytesBufferWrite)
    (hDo : c.HTTP.Do request = (some response, none))
    (hRequest : response.Request = some responseRequest)
    (hURL : responseRequest.URL = some responseURL)
    (hs : 200 ≤ response.StatusCode ∧ response.StatusCode < 300)
    (hBody : response.Body = some body) (hRead : body.err = none) :
    (c.Call rt request (Target.nil : Target τ)).outcome =
        .returned
          (some { Response := some response, Code := response.StatusCode,
                  Endpoint := responseURL.String, Method := responseRequest.Method,
                  Bytes := body.data })
          none ∧
      (c.Call rt request (Target.nil : Target τ)).trace =
        [.Do request, .ReadAll, .Write body.data] ∧
      (c.Call rt request (Target.nil : Target τ)).target = .nil := by
  rw [Call_nil_target_eq c rt request response responseRequest responseURL body
    hDo hRequest hURL hs hBody hRead]
  rw [callWrite_ok rt _ body.data body.data _ _ (by simp [hBuffer, bytesBufferWrite])]
  exact ⟨rfl, rfl, rfl⟩

/-- Witness of C7: a body that is not JSON, under status 204 and a nil target, is
returned raw with a nil error. -/
theorem Call_nil_target_skips_decoding_witness :
    ∃ env : ResponseScheme,
      ((Fixture.client 204 (str "<html>")).Call Fixture.runtime (some Fixture.request)
          Target.nil).outcome = .returned (some env) none ∧
      env.Bytes = str "<html>" :=
  have h := Call_nil_target_skips_decoding (Fixture.client 204 (str "<html>")) Fixture.runtime
    (some Fixture.request)
    { StatusCode := 204, Request := some Fixture.request, Body := some ⟨str "<html>", none⟩ }
    Fixture.request { Fixture.site with Path := str "/rest/api/2/issue/1" }
    ⟨str "<html>", none⟩ rfl rfl rfl rfl (by decide) rfl rfl
  ⟨_, h.1, rfl⟩

/-- The end of `Call` adds one `Write` to the calls made, whatever the write reports. -/
theorem callWrite_trace {τ : Type} (rt : Runtime τ) (env : ResponseScheme) (data : Bytes)
    (target : Target τ) (trace : List Event) :
    (ClientV2.callWrite rt env data target trace).trace = trace ++ [.Write data] := by
  unfold ClientV2.callWrite
  split <;> rfl

/-- Claim C8: on every path of `Call` (transport error, nil response, status outside
`[200, 300)`, read error, decode error, write error, success, and the panicking ones)
the calls made on the collaborators contain exactly one `Do`, and it is the `Do` of the
request handed to `Call`: there is no second dispatch. -/
theorem Call_invokes_Do_exactly_once {τ : Type} (c : ClientV2) (rt : Runtime τ)
    (request : Option http.Request) (structure_ : Target τ) :
    (c.Call rt request structure_).trace.filter Event.isDo = [.Do request] ∧
      (c.Call rt request structure_).trace.countP Event.isDo = 1 := by
  have key : (c.Call rt request structure_).trace.filter Event.isDo = [.Do request] := by
    unfold ClientV2.Call
    split
    · rfl
    · rfl
    · split
      · rfl
      · split
        · rfl
        · split
          · rfl
          · split
            · rfl
            · split
              · rfl
              · split
                · rw [callWrite_trace]; rfl
                · split
                  · rfl
                  · rw [callWrite_trace]; rfl
  refine ⟨key, ?_⟩
  rw [List.countP_eq_length_filter, key]
  rfl

/-! ### The request factory -/

/-- Every failure of `url.Parse` is a `*url.Error`. -/
theorem Parse_error_isURLError (rawURL : Bytes) (e : GoError)
    (h : url.Parse rawURL = .error e) : e.isURLError = true := by
  unfold url.Parse at h
  simp only at h
  split at h
  · cases h; rfl
  · split at h
    · cases h
    · split at h
      · cases h; rfl
      · cases h

/-- When `http.NewRequestWithContext` is given an invalid method or a nil context it
fails with a plain `net/http` error. -/
theorem NewRequestWithContext_invalid (ctx : Option Context) (method urlStr : Bytes)
    (body : Option Reader)
    (h : (method ≠ [] ∧ http.validMethod method = false) ∨ ctx = none) :
    ∃ msg, http.NewRequestWithContext ctx method urlStr body = .error (.errorString msg) := by
  unfold http.NewRequestWithContext
  simp only
  cases hv : http.validMethod (if method == [] then str "GET" else method)
  · exact ⟨"net/http: invalid method", by simp⟩
  · rcases h with ⟨hne, hbad⟩ | hctx
    · have hm : (method == []) = false := by simpa using hne
      rw [hm] at hv
      simp [hbad] at hv
    · subst hctx
      exact ⟨"net/http: nil Context", by simp⟩

/-- Both factories hand back, unchanged, the error of whichever step fails. -/
theorem factories_pass_errors (c : ClientV2) (ctx : Option Context)
    (method apiEndpoint contentType : Bytes) (payload : Option Reader) :
    (∀ e, url.Parse apiEndpoint = .error e →
      c.NewRequest ctx method apiEndpoint payload = .error e ∧
      c.NewFormRequest ctx method apiEndpoint contentType payload = .error e) ∧
    (∀ ref e, url.Parse apiEndpoint = .ok ref →
      http.NewRequestWithContext ctx method (c.Site.ResolveReference ref).String payload
        = .error e →
      c.NewRequest ctx method apiEndpoint payload = .error e ∧
      c.NewFormRequest ctx method apiEndpoint contentType payload = .error e) := by
  refine ⟨fun e h => ?_, fun ref e h1 h2 => ?_⟩
  · simp [ClientV2.NewRequest, ClientV2.NewFormRequest, h]
  · simp [ClientV2.NewRequest, ClientV2.NewFormRequest, h1, h2]

/-- Claim C9, as the code has it: an endpoint that fails to parse makes `NewRequest` and
`NewFormRequest` return no request and the `*url.Error` of `url.Parse`; an endpoint that
parses with a request that cannot be constructed makes them return no request and the
error of `http.NewRequestWithContext` unchanged, which for an invalid method or a nil
context is a plain `net/http` error: not a `*url.Error`, and not the sentinel
`ErrCreateHttpReq`. -/
theorem factory_error_kinds (c : ClientV2) (ctx : Option Context)
    (method apiEndpoint contentType : Bytes) (payload : Option Reader) :
    (∀ e, url.Parse apiEndpoint = .error e →
      c.NewRequest ctx method apiEndpoint payload = .error e ∧
      c.NewFormRequest ctx method apiEndpoint contentType payload = .error e ∧
      e.isURLError = true) ∧
    (∀ ref e, url.Parse apiEndpoint = .ok ref →
      http.NewRequestWithContext ctx method (c.Site.ResolveReference ref).String payload
        = .error e →
      c.NewRequest ctx method apiEndpoint payload = .error e ∧
      c.NewFormRequest ctx method apiEndpoint contentType payload = .error e) ∧
    (∀ ref, url.Parse apiEndpoint = .ok ref →
      ((method ≠ [] ∧ http.validMethod method = false) ∨ ctx = none) →
      ∃ e, c.NewRequest ctx method apiEndpoint payload = .error e ∧
        c.NewFormRequest ctx method apiEndpoint contentType payload = .error e ∧
        e.isURLError = false ∧ e ≠ .ErrCreateHttpReq) := by
  have hp := factories_pass_errors c ctx method apiEndpoint contentType payload
  refine ⟨fun e h => ⟨(hp.1 e h).1, (hp.1 e h).2, Parse_error_isURLError _ _ h⟩,
    hp.2, fun ref h hbad => ?_⟩
  obtain ⟨msg, hmsg⟩ :=
    NewRequestWithContext_invalid ctx method (c.Site.ResolveReference ref).String payload hbad
  refine ⟨_, (hp.2 ref _ h hmsg).1, (hp.2 ref _ h hmsg).2, rfl, ?_⟩
  intro hne
  cases hne

/-- Witness of C9 as amended: the endpoint `:x` and the nil context on the fixture
client. -/
theorem factory_error_kinds_witness :
    (∃ e, (Fixture.client 200 []).NewRequest (some Context.Background) (str "GET") (str ":x") none
        = .error e ∧ e.isURLError = true) ∧
    (∃ e, (Fixture.client 200 []).NewFormRequest none (str "POST") (str "rest/api/2/issue")
        (str "multipart/form-data") none = .error e ∧ e.isURLError = false) :=
  ⟨⟨_, ((factory_error_kinds (Fixture.client 200 []) (some Context.Background) (str "GET")
      (str ":x") [] none).1 (.urlError "parse" (str ":x") (.errorString "missing protocol scheme"))
      (by decide)).1,
      rfl⟩,
    ((factory_error_kinds (Fixture.client 200 []) none (str "POST") (str "rest/api/2/issue")
      (str "multipart/form-data") none).2.2 { Path := str "rest/api/2/issue" } (by decide)
      (Or.inr rfl)).elim fun e he => ⟨e, he.2.1, he.2.2.1⟩⟩

/-- Claim C9, refuted as stated: the endpoint parses, the method `BAD METHOD` makes the
request construction fail, and both factories return the `net/http` error, which is not
the sentinel `ErrCreateHttpReq`. -/
theorem factory_invalid_method_is_not_sentinel :
    url.Parse (str "rest/api/2/issue") = .ok { Path := str "rest/api/2/issue" } ∧
    (Fixture.client 200 []).NewRequest (some Context.Background) (str "BAD METHOD")
        (str "rest/api/2/issue") none = .error (.errorString "net/http: invalid method") ∧
    (Fixture.client 200 []).NewFormRequest (some Context.Background) (str "BAD METHOD")
        (str "rest/api/2/issue") (str "multipart/form-data") none
      = .error (.errorString "net/http: invalid method") ∧
    (Fixture.client 200 []).NewRequest (some Context.Background) (str "BAD METHOD")
        (str "rest/api/2/issue") none ≠ .error .ErrCreateHttpReq ∧
    (Fixture.client 200 []).NewRequest none (str "GET") (str "rest/api/2/issue") none
      ≠ .error .ErrCreateHttpReq := by
  refine ⟨by decide, by decide, by decide, ?_, ?_⟩
  · intro h
    have h2 : (Fixture.client 200 []).NewRequest (some Context.Background) (str "BAD METHOD")
        (str "rest/api/2/issue") none = .error (.errorString "net/http: invalid method") := by
      decide
    rw [h2] at h
    cases h
  · intro h
    have h2 : (Fixture.client 200 []).NewRequest none (str "GET") (str "rest/api/2/issue") none
        = .error (.errorString "net/http: nil Context") := by
      decide
    rw [h2] at h
    cases h

/-- Installing a path changes only `Path` and `RawPath`. -/
theorem withPath_fields (u : url.URL) (p : Bytes) :
    (u.withPath p).Scheme = u.Scheme ∧ (u.withPath p).Opaque = u.Opaque ∧
      (u.withPath p).User = u.User ∧ (u.withPath p).Host = u.Host ∧
      (u.withPath p).RawQuery = u.RawQuery ∧ (u.withPath p).Fragment = u.Fragment := by
  unfold url.URL.withPath url.URL.setPath
  cases url.unescape p .encodePath with
  | error e => simp
  | ok path => by_cases h : p = url.escape path .encodePath <;> simp [h]


/-- A successful `setPath` keeps the scheme and the opaque part. -/
theorem setPath_keeps (u v : url.URL) (p : Bytes) (h : u.setPath p = .ok v) :
    v.Scheme = u.Scheme ∧ v.Opaque = u.Opaque := by
  unfold url.URL.setPath at h
  split at h
  · cases h
  · split at h <;> (cases h; exact ⟨rfl, rfl⟩)

/-- A successful `setFragment` keeps the scheme and the opaque part. -/
theorem setFragment_keeps (u v : url.URL) (f : Bytes) (h : u.setFragment f = .ok v) :
    v.Scheme = u.Scheme ∧ v.Opaque = u.Opaque := by
  unfold url.URL.setFragment at h
  split at h
  · cases h
  · split at h <;> (cases h; exact ⟨rfl, rfl⟩)

/-- The second half of `parse` gives an opaque part only to a URL with a scheme. -/
theorem parseRest_opaque_needs_scheme (url0 u : url.URL) (rest : Bytes) (viaRequest : Bool)
    (h0 : url0.Opaque = [])
    (h : url.parseRest url0 rest viaRequest = .ok u) (hs : u.Scheme = []) : u.Opaque = [] := by
  unfold url.parseRest at h
  split at h
  · rename_i hcond
    cases h
    simp at hcond hs
    exact absurd hs hcond.2
  · split at h
    · cases h
    · split at h
      · cases h
      · split at h
        · simp only at h
          split at h
          · cases h
          · rw [(setPath_keeps _ _ _ h).2]; exact h0
        · split at h
          · rw [(setPath_keeps _ _ _ h).2]; exact h0
          · rw [(setPath_keeps _ _ _ h).2]; exact h0

/-- A URL parsed without a scheme has no opaque part. -/
theorem parse_opaque_needs_scheme (rawURL : Bytes) (viaRequest : Bool) (u : url.URL)
    (h : url.parse rawURL viaRequest = .ok u) (hs : u.Scheme = []) : u.Opaque = [] := by
  unfold url.parse at h
  split at h
  · cases h
  · split at h
    · cases h
    · split at h
      · cases h; rfl
      · split at h
        · cases h
        · simp only at h
          split at h
          · exact parseRest_opaque_needs_scheme _ _ _ _ rfl h hs
          · exact parseRest_opaque_needs_scheme _ _ _ _ rfl h hs

/-- A URL that `Parse` gives without a scheme has no opaque part. -/
theorem Parse_opaque_needs_scheme (rawURL : Bytes) (u : url.URL)
    (h : url.Parse rawURL = .ok u) (hs : u.Scheme = []) : u.Opaque = [] := by
  unfold url.Parse at h
  simp only at h
  split at h
  · cases h
  · rename_i url1 hp
    split at h
    · cases h
      exact parse_opaque_needs_scheme _ _ _ hp hs
    · split at h
      · cases h
      · rename_i url2 hf
        cases h
        have hk := setFragment_keeps _ _ _ hf
        rw [hk.2]
        exact parse_opaque_needs_scheme _ _ _ hp (hk.1 ▸ hs)

/-- A request that `http.NewRequestWithContext` builds carries the parse of the URL
string it was given, with an empty port removed from the host. -/
theorem NewRequestWithContext_URL (ctx : Option Context) (method urlStr : Bytes)
    (body : Option Reader) (request : http.Request)
    (h : http.NewRequestWithContext ctx method urlStr body = .ok request) :
    ∃ u, url.Parse urlStr = .ok u ∧
      request.URL = some { u with Host := http.removeEmptyPort u.Host } := by
  unfold http.NewRequestWithContext at h
  simp only at h
  generalize (if method == [] then str "GET" else method) = m at h
  cases hv : http.validMethod m
  · simp [hv] at h
  · cases ctx with
    | none => simp [hv] at h
    | some ctx0 =>
      cases hp : url.Parse urlStr with
      | error e => simp [hv, hp] at h
      | ok u =>
        simp [hv, hp] at h
        exact ⟨u, rfl, by rw [← h]⟩

/-- The URL of a request built by `NewRequest` is the one `http.NewRequestWithContext`
parsed from the string of the resolved endpoint. -/
theorem NewRequest_URL (c : ClientV2) (ctx : Option Context) (method apiEndpoint : Bytes)
    (payload : Option Reader) (ref : url.URL) (req : http.Request)
    (hParse : url.Parse apiEndpoint = .ok ref)
    (h : c.NewRequest ctx method apiEndpoint payload = .ok req) :
    ∃ u, url.Parse (c.Site.ResolveReference ref).String = .ok u ∧
      req.URL = some { u with Host := http.removeEmptyPort u.Host } := by
  unfold ClientV2.NewRequest at h
  rw [hParse] at h
  simp only at h
  cases hn : http.NewRequestWithContext ctx method (c.Site.ResolveReference ref).String payload with
  | error e => simp [hn] at h
  | ok request =>
    obtain ⟨u, hu, hurl⟩ := NewRequestWithContext_URL _ _ _ _ _ hn
    refine ⟨u, hu, ?_⟩
    rw [hn] at h
    simp only [Except.ok.injEq] at h
    rw [← h, ← hurl]
    by_cases h1 : payload.isSome = true <;> by_cases h2 : c.Auth.HasBasicAuth = true <;>
      by_cases h3 : c.Auth.HasUserAgent = true <;>
      simp [h1, h2, h3, http.Request.SetBasicAuth]

/-- The URL of a request built by `NewFormRequest` is the one
`http.NewRequestWithContext` parsed from the string of the resolved endpoint. -/
theorem NewFormRequest_URL (c : ClientV2) (ctx : Option Context)
    (method apiEndpoint contentType : Bytes)
    (payload : Option Reader) (ref : url.URL) (req : http.Request)
    (hParse : url.Parse apiEndpoint = .ok ref)
    (h : c.NewFormRequest ctx method apiEndpoint contentType payload = .ok req) :
    ∃ u, url.Parse (c.Site.ResolveReference ref).String = .ok u ∧
      req.URL = some { u with Host := http.removeEmptyPort u.Host } := by
  unfold ClientV2.NewFormRequest at h
  rw [hParse] at h
  simp only at h
  cases hn : http.NewRequestWithContext ctx method (c.Site.ResolveReference ref).String payload with
  | error e => simp [hn] at h
  | ok request =>
    obtain ⟨u, hu, hurl⟩ := NewRequestWithContext_URL _ _ _ _ _ hn
    refine ⟨u, hu, ?_⟩
    rw [hn] at h
    simp only [Except.ok.injEq] at h
    rw [← h, ← hurl]
    by_cases h2 : c.Auth.HasBasicAuth = true <;>
      by_cases h3 : c.Auth.HasUserAgent = true <;>
      simp [h2, h3, http.Request.SetBasicAuth]

/-- A reference without a scheme resolves to a URL with the scheme of the base. -/
theorem ResolveReference_scheme (base ref : url.URL) (hs : ref.Scheme = []) :
    (base.ResolveReference ref).Scheme = base.Scheme := by
  unfold url.URL.ResolveReference
  simp only [hs]
  split_ifs <;> simp_all [(withPath_fields _ _).1]

/-- A reference without scheme, host, userinfo and opaque part resolves, against a base
that is not opaque, to a URL with the host and the userinfo of the base. -/
theorem ResolveReference_host (base ref : url.URL) (hs : ref.Scheme = []) (hh : ref.Host = [])
    (hu : ref.User = none) (ho : ref.Opaque = []) (hb : base.Opaque = []) :
    (base.ResolveReference ref).Host = base.Host ∧
      (base.ResolveReference ref).User = base.User := by
  unfold url.URL.ResolveReference
  simp only [hs, hh, hu, ho, hb]
  simp [(withPath_fields _ _).2.2.1, (withPath_fields _ _).2.2.2.1]

/-- A reference with a scheme resolves to itself with its path cleaned of dot
segments: the base contributes nothing. -/
theorem ResolveReference_absolute (base ref : url.URL) (hs : ref.Scheme ≠ []) :
    base.ResolveReference ref = ref.withPath (url.resolvePath ref.EscapedPath []) := by
  unfold url.URL.ResolveReference
  simp [hs]

/-- A reference without a scheme that has a host or userinfo (a network-path reference)
resolves to a URL with the host and the userinfo of the reference. -/
theorem ResolveReference_network_path (base ref : url.URL) (hs : ref.Scheme = [])
    (hn : ref.Host ≠ [] ∨ ref.User ≠ none) :
    (base.ResolveReference ref).Host = ref.Host ∧
      (base.ResolveReference ref).User = ref.User := by
  have hc : (ref.Scheme != [] || ref.Host != [] || ref.User.isSome) = true := by
    rcases hn with h | h
    · simp [h]
    · cases hu : ref.User with
      | none => exact absurd hu h
      | some w => simp
  unfold url.URL.ResolveReference
  simp only [hc, if_true]
  simp [hs, (withPath_fields _ _).2.2.1, (withPath_fields _ _).2.2.2.1]

/-- Claim C10, as the code has it: for an endpoint that parses to `ref`, the factories
hand the string form of `Site.ResolveReference(ref)` to `http.NewRequestWithContext`, and
the URL of the request built by `NewRequest` or `NewFormRequest` is the parse of that
string with an empty port removed from the host. The resolved URL
`Site.ResolveReference(ref)` is as follows: for a reference without a scheme it has the
scheme of the base; for one that also has no host and no userinfo (a path reference),
against a base that is not opaque, it has the host and the userinfo of the base; for one
without a scheme but with a host or userinfo (a network-path reference) it keeps the host
and the userinfo of the reference; for a reference with a scheme it is the reference
itself with the dot segments of its path removed, nothing being taken from the base. -/
theorem factory_endpoint_resolution (c : ClientV2) (ctx : Option Context)
    (method apiEndpoint contentType : Bytes) (payload : Option Reader) (ref : url.URL)
    (hParse : url.Parse apiEndpoint = .ok ref) :
    (∀ req, c.NewRequest ctx method apiEndpoint payload = .ok req →
      ∃ u, url.Parse (c.Site.ResolveReference ref).String = .ok u ∧
        req.URL = some { u with Host := http.removeEmptyPort u.Host }) ∧
    (∀ req, c.NewFormRequest ctx method apiEndpoint contentType payload = .ok req →
      ∃ u, url.Parse (c.Site.ResolveReference ref).String = .ok u ∧
        req.URL = some { u with Host := http.removeEmptyPort u.Host }) ∧
    (ref.Scheme = [] → (c.Site.ResolveReference ref).Scheme = c.Site.Scheme) ∧
    (ref.Scheme = [] → ref.Host = [] → ref.User = none → c.Site.Opaque = [] →
      (c.Site.ResolveReference ref).Host = c.Site.Host ∧
      (c.Site.ResolveReference ref).User = c.Site.User) ∧
    (ref.Scheme = [] → (ref.Host ≠ [] ∨ ref.User ≠ none) →
      (c.Site.ResolveReference ref).Host = ref.Host ∧
      (c.Site.ResolveReference ref).User = ref.User) ∧
    (ref.Scheme ≠ [] →
      c.Site.ResolveReference ref = ref.withPath (url.resolvePath ref.EscapedPath [])) :=
  ⟨fun req h => NewRequest_URL c ctx method apiEndpoint payload ref req hParse h,
    fun req h => NewFormRequest_URL c ctx method apiEndpoint contentType payload ref req hParse h,
    fun hs => ResolveReference_scheme c.Site ref hs,
    fun hs hh hu hb =>
      ResolveReference_host c.Site ref hs hh hu (Parse_opaque_needs_scheme _ _ hParse hs) hb,
    fun hs hn => ResolveReference_network_path c.Site ref hs hn,
    fun hs => ResolveReference_absolute c.Site ref hs⟩

set_option maxRecDepth 100000 in
/-- Witness of C10 as amended: the relative endpoint `rest/api/2/issue/1` on the site
`https://example.atlassian.net/` gives the request URL
`https://example.atlassian.net/rest/api/2/issue/1`, and the resolved URL has the host of
the base; the endpoint `http://h:/x`, whose host has an empty port, parses to the host
`h:` and gives a request URL with the host `h`. -/
theorem factory_endpoint_resolution_witness :
    (∃ u, url.Parse
          (Fixture.site.ResolveReference { Path := str "rest/api/2/issue/1" }).String = .ok u ∧
        some ({ Fixture.site with Path := str "/rest/api/2/issue/1" } : url.URL) =
          some { u with Host := http.removeEmptyPort u.Host }) ∧
    (Fixture.site.ResolveReference { Path := str "rest/api/2/issue/1" }).Host =
      str "example.atlassian.net" ∧
    url.Parse (str "http://h:/x")
      = .ok { Scheme := str "http", Host := str "h:", Path := str "/x" } ∧
    (∃ u, url.Parse
          (Fixture.site.ResolveReference
            { Scheme := str "http", Host := str "h:", Path := str "/x" }).String = .ok u ∧
        some ({ Scheme := str "http", Host := str "h", Path := str "/x" } : url.URL) =
          some { u with Host := http.removeEmptyPort u.Host }) :=
  have h := factory_endpoint_resolution (Fixture.client 200 []) (some Context.Background)
    (str "GET") (str "rest/api/2/issue/1") [] none { Path := str "rest/api/2/issue/1" }
    (by decide)
  have hPort := factory_endpoint_resolution (Fixture.client 200 []) (some Context.Background)
    (str "GET") (str "http://h:/x") [] none
    { Scheme := str "http", Host := str "h:", Path := str "/x" } (by decide)
  ⟨h.1 { ctx := Context.Background, Method := str "GET",
          URL := some { Fixture.site with Path := str "/rest/api/2/issue/1" },
          Header := [(str "Accept", [str "application/json"])],
          Host := str "example.atlassian.net" } (by decide),
    (h.2.2.2.1 rfl rfl rfl rfl).1,
    (by decide),
    hPort.1 { ctx := Context.Background, Method := str "GET",
              URL := some { Scheme := str "http", Host := str "h", Path := str "/x" },
              Header := [(str "Accept", [str "application/json"])],
              Host := str "h" } (by decide)⟩

/-- Claim C10, refuted as stated. The endpoint `//other.example/x` parses and has no
scheme, so it is not an absolute URL, yet the request goes to the host `other.example`
and not to the host of the base; the absolute endpoint `https://h/a/../b` gives the
request URL `https://h/b`, which is not that endpoint. -/
theorem factory_resolution_counterexample :
    url.Parse (str "//other.example/x")
        = .ok { Host := str "other.example", Path := str "/x" } ∧
    Except.map (fun r => r.URL)
        ((Fixture.client 200 []).NewRequest (some Context.Background) (str "GET")
          (str "//other.example/x") none)
        = .ok (some { Scheme := str "https", Host := str "other.example", Path := str "/x" }) ∧
    str "other.example" ≠ Fixture.site.Host ∧
    url.Parse (str "https://h/a/../b")
        = .ok { Scheme := str "https", Host := str "h", Path := str "/a/../b" } ∧
    Except.map (fun r => r.URL)
        ((Fixture.client 200 []).NewRequest (some Context.Background) (str "GET")
          (str "https://h/a/../b") none)
        = .ok (some { Scheme := str "https", Host := str "h", Path := str "/b" }) ∧
    (({ Scheme := str "https", Host := str "h", Path := str "/b" } : url.URL).String
        ≠ str "https://h/a/../b") := by
  refine ⟨by decide, by decide, by decide, by decide, by decide, by decide⟩

/-! ### Headers of the built request -/

/-- Filtering out one key leaves the lookup of every other key as it was. -/
theorem lookup_filter_ne (h : http.Header) (k k2 : Bytes) (hne : k2 ≠ k) :
    (h.filter fun kv => kv.1 != k).lookup k2 = h.lookup k2 := by
  induction h with
  | nil => rfl
  | cons kv rest ih =>
    obtain ⟨a, b⟩ := kv
    by_cases ha : a = k
    · subst ha
      have h1 : (k2 == a) = false := by simpa using hne
      simp [List.filter, List.lookup, h1, ih]
    · have h1 : (a != k) = true := by simpa using ha
      simp only [List.filter, h1, List.lookup]
      cases hk : k2 == a <;> simp [ih]

/-- The empty header map has no value for any key. -/
theorem Values_nil (k : Bytes) : http.Header.Values [] k = [] := rfl

/-- Values of a key after `Header.Set`. -/
theorem Values_Set (h : http.Header) (k v k2 : Bytes) :
    http.Header.Values (http.Header.Set h k v) k2 =
      if http.CanonicalMIMEHeaderKey k2 = http.CanonicalMIMEHeaderKey k then [v]
      else http.Header.Values h k2 := by
  unfold http.Header.Values http.Header.Set
  by_cases hk : http.CanonicalMIMEHeaderKey k2 = http.CanonicalMIMEHeaderKey k
  · simp [hk, List.lookup]
  · have h1 : (http.CanonicalMIMEHeaderKey k2 == http.CanonicalMIMEHeaderKey k) = false := by
      simpa using hk
    simp only [List.lookup, h1, hk, if_false]
    rw [lookup_filter_ne _ _ _ hk]

/-- Values of a key after `Header.Add`. -/
theorem Values_Add (h : http.Header) (k v k2 : Bytes) :
    http.Header.Values (http.Header.Add h k v) k2 =
      if http.CanonicalMIMEHeaderKey k2 = http.CanonicalMIMEHeaderKey k then
        http.Header.Values h k ++ [v]
      else http.Header.Values h k2 := by
  unfold http.Header.Add
  by_cases hk : http.CanonicalMIMEHeaderKey k2 = http.CanonicalMIMEHeaderKey k
  · simp [http.Header.Values, hk, List.lookup]
  · have h1 : (http.CanonicalMIMEHeaderKey k2 == http.CanonicalMIMEHeaderKey k) = false := by
      simpa using hk
    simp only [http.Header.Values, List.lookup, h1, hk, if_false]
    rw [lookup_filter_ne _ _ _ hk]

/-- A request fresh from `http.NewRequestWithContext` has an empty header map. -/
theorem NewRequestWithContext_Header (ctx : Option Context) (method urlStr : Bytes)
    (body : Option Reader) (request : http.Request)
    (h : http.NewRequestWithContext ctx method urlStr body = .ok request) :
    request.Header = [] := by
  unfold http.NewRequestWithContext at h
  simp only at h
  generalize (if method == [] then str "GET" else method) = m at h
  cases hv : http.validMethod m
  · simp [hv] at h
  · cases ctx with
    | none => simp [hv] at h
    | some ctx0 =>
      cases hp : url.Parse urlStr with
      | error e => simp [hv, hp] at h
      | ok u =>
        simp [hv, hp] at h
        rw [← h]

/-- The header map of a request built by `NewRequest`, as the sequence of `Set` calls
made on the empty map. -/
theorem NewRequest_Header (c : ClientV2) (ctx : Option Context) (method apiEndpoint : Bytes)
    (payload : Option Reader) (req : http.Request)
    (h : c.NewRequest ctx method apiEndpoint payload = .ok req) :
    req.Header =
      (fun h3 : http.Header =>
          if c.Auth.HasUserAgent then h3.Set (str "User-Agent") c.Auth.GetUserAgent else h3)
        ((fun h2 : http.Header =>
            if c.Auth.HasBasicAuth then
              h2.Set (str "Authorization")
                (str "Basic " ++ base64.EncodeToString
                  (c.Auth.GetBasicAuth.1 ++ [ch ':'] ++ c.Auth.GetBasicAuth.2))
            else h2)
          ((fun h1 : http.Header =>
              if payload.isSome then h1.Set (str "Content-Type") (str "application/json")
              else h1)
            (http.Header.Set [] (str "Accept") (str "application/json")))) := by
  unfold ClientV2.NewRequest at h
  cases hp : url.Parse apiEndpoint with
  | error e => simp [hp] at h
  | ok ref =>
    rw [hp] at h
    simp only at h
    cases hn : http.NewRequestWithContext ctx method (c.Site.ResolveReference ref).String payload with
    | error e => simp [hn] at h
    | ok request =>
      have h0 := NewRequestWithContext_Header _ _ _ _ _ hn
      rw [hn] at h
      simp only [Except.ok.injEq] at h
      rw [← h]
      by_cases h1 : payload.isSome = true <;> by_cases h2 : c.Auth.HasBasicAuth = true <;>
        by_cases h3 : c.Auth.HasUserAgent = true <;>
        simp [h0, h1, h2, h3, http.Request.SetBasicAuth]

/-- The header map of a request built by `NewFormRequest`, as the sequence of `Add` and
`Set` calls made on the empty map. -/
theorem NewFormRequest_Header (c : ClientV2) (ctx : Option Context)
    (method apiEndpoint contentType : Bytes) (payload : Option Reader) (req : http.Request)
    (h : c.NewFormRequest ctx method apiEndpoint contentType payload = .ok req) :
    req.Header =
      (fun h3 : http.Header =>
          if c.Auth.HasUserAgent then h3.Set (str "User-Agent") c.Auth.GetUserAgent else h3)
        ((fun h2 : http.Header =>
            if c.Auth.HasBasicAuth then
              h2.Set (str "Authorization")
                (str "Basic " ++ base64.EncodeToString
                  (c.Auth.GetBasicAuth.1 ++ [ch ':'] ++ c.Auth.GetBasicAuth.2))
            else h2)
          (http.Header.Set
            (http.Header.Add (http.Header.Add [] (str "Content-Type") contentType)
              (str "Accept") (str "application/json"))
            (str "X-Atlassian-Token") (str "no-check"))) := by
  unfold ClientV2.NewFormRequest at h
  cases hp : url.Parse apiEndpoint with
  | error e => simp [hp] at h
  | ok ref =>
    rw [hp] at h
    simp only at h
    cases hn : http.NewRequestWithContext ctx method (c.Site.ResolveReference ref).String payload with
    | error e => simp [hn] at h
    | ok request =>
      have h0 := NewRequestWithContext_Header _ _ _ _ _ hn
      rw [hn] at h
      simp only [Except.ok.injEq] at h
      rw [← h]
      by_cases h2 : c.Auth.HasBasicAuth = true <;>
        by_cases h3 : c.Auth.HasUserAgent = true <;>
        simp [h0, h2, h3, http.Request.SetBasicAuth]

/-- The canonical forms of the header keys the factories use are pairwise different. -/
theorem factory_keys_distinct :
    http.CanonicalMIMEHeaderKey (str "Content-Type") ≠ http.CanonicalMIMEHeaderKey (str "Accept") ∧
    http.CanonicalMIMEHeaderKey (str "Content-Type") ≠
      http.CanonicalMIMEHeaderKey (str "Authorization") ∧
    http.CanonicalMIMEHeaderKey (str "Content-Type") ≠
      http.CanonicalMIMEHeaderKey (str "User-Agent") ∧
    http.CanonicalMIMEHeaderKey (str "Content-Type") ≠
      http.CanonicalMIMEHeaderKey (str "X-Atlassian-Token") ∧
    http.CanonicalMIMEHeaderKey (str "Accept") ≠
      http.CanonicalMIMEHeaderKey (str "Authorization") ∧
    http.CanonicalMIMEHeaderKey (str "Accept") ≠ http.CanonicalMIMEHeaderKey (str "User-Agent") ∧
    http.CanonicalMIMEHeaderKey (str "Accept") ≠
      http.CanonicalMIMEHeaderKey (str "X-Atlassian-Token") ∧
    http.CanonicalMIMEHeaderKey (str "Authorization") ≠
      http.CanonicalMIMEHeaderKey (str "User-Agent") ∧
    http.CanonicalMIMEHeaderKey (str "Authorization") ≠
      http.CanonicalMIMEHeaderKey (str "X-Atlassian-Token") ∧
    http.CanonicalMIMEHeaderKey (str "User-Agent") ≠
      http.CanonicalMIMEHeaderKey (str "X-Atlassian-Token") := by
  decide

/-- Claim C11: a request built by `NewRequest` carries `Content-Type: application/json`
if and only if the payload reader is non-nil; with a nil payload the key `Content-Type`
has no value at all. -/
theorem NewRequest_content_type (c : ClientV2) (ctx : Option Context)
    (method apiEndpoint : Bytes) (payload : Option Reader) (req : http.Request)
    (h : c.NewRequest ctx method apiEndpoint payload = .ok req) :
    (req.Header.Values (str "Content-Type") = [str "application/json"] ↔
        payload.isSome = true) ∧
      (payload = none → req.Header.Values (str "Content-Type") = []) := by
  obtain ⟨k1, k2, k3, -, -, -, -, -, -, -⟩ := factory_keys_distinct
  rw [NewRequest_Header c ctx method apiEndpoint payload req h]
  cases payload with
  | none =>
    by_cases h2 : c.Auth.HasBasicAuth = true <;> by_cases h3 : c.Auth.HasUserAgent = true <;>
      simp [h2, h3, Values_Set, Values_nil, k1, k2, k3]
  | some r =>
    by_cases h2 : c.Auth.HasBasicAuth = true <;> by_cases h3 : c.Auth.HasUserAgent = true <;>
      simp [h2, h3, Values_Set, Values_nil, k1, k2, k3]

/-- Witness of C11: the JSON post carries the content type, the plain get does not. -/
theorem NewRequest_content_type_witness :
    Fixture.jsonPost.Header.Values (str "Content-Type") = [str "application/json"] ∧
      Fixture.plainGet.Header.Values (str "Content-Type") = [] :=
  ⟨(NewRequest_content_type (Fixture.client 200 []) (some Context.Background) (str "POST")
      (str "rest/api/2/issue") (some Fixture.emptyObject) Fixture.jsonPost (by decide)).1.2 rfl,
    (NewRequest_content_type (Fixture.client 200 []) (some Context.Background) (str "GET")
      (str "rest/api/2/issue/1") none Fixture.plainGet (by decide)).2 rfl⟩

/-- Claim C12: every request built by `NewRequest` or by `NewFormRequest` has exactly
the one `Accept` value `application/json`, whatever the method, endpoint, payload and
authentication settings. -/
theorem factories_accept_header (c : ClientV2) (ctx : Option Context)
    (method apiEndpoint contentType : Bytes) (payload : Option Reader) :
    (∀ req, c.NewRequest ctx method apiEndpoint payload = .ok req →
      req.Header.Values (str "Accept") = [str "application/json"]) ∧
    (∀ req, c.NewFormRequest ctx method apiEndpoint contentType payload = .ok req →
      req.Header.Values (str "Accept") = [str "application/json"]) := by
  obtain ⟨k1, -, -, -, k5, k6, k7, -, -, -⟩ := factory_keys_distinct
  refine ⟨fun req h => ?_, fun req h => ?_⟩
  · rw [NewRequest_Header c ctx method apiEndpoint payload req h]
    by_cases h1 : payload.isSome = true <;> by_cases h2 : c.Auth.HasBasicAuth = true <;>
      by_cases h3 : c.Auth.HasUserAgent = true <;>
      simp [h1, h2, h3, Values_Set, Values_nil, Ne.symm k1, k5, k6]
  · rw [NewFormRequest_Header c ctx method apiEndpoint contentType payload req h]
    by_cases h2 : c.Auth.HasBasicAuth = true <;> by_cases h3 : c.Auth.HasUserAgent = true <;>
      simp [h2, h3, Values_Set, Values_Add, Values_nil, Ne.symm k1, k5, k6, k7]

/-- Witness of C12: the JSON post and the form post both accept `application/json`. -/
theorem factories_accept_header_witness :
    Fixture.jsonPost.Header.Values (str "Accept") = [str "application/json"] ∧
      Fixture.formPost.Header.Values (str "Accept") = [str "application/json"] :=
  ⟨(factories_accept_header (Fixture.client 200 []) (some Context.Background) (str "POST")
      (str "rest/api/2/issue") [] (some Fixture.emptyObject)).1 Fixture.jsonPost (by decide),
    (factories_accept_header Fixture.authClient (some Context.Background) (str "POST")
      (str "rest/api/2/issue/1/attachments") (str "multipart/form-data; boundary=x")
      (some Fixture.emptyObject)).2 Fixture.formPost (by decide)⟩

/-- Claim C13: every request built by `NewFormRequest` has `X-Atlassian-Token: no-check`
and the caller's `contentType` as its only `Content-Type`; a request built by
`NewRequest` has no value for `X-Atlassian-Token`. -/
theorem form_request_headers (c : ClientV2) (ctx : Option Context)
    (method apiEndpoint contentType : Bytes) (payload : Option Reader) :
    (∀ req, c.NewFormRequest ctx method apiEndpoint contentType payload = .ok req →
      req.Header.Values (str "X-Atlassian-Token") = [str "no-check"] ∧
      req.Header.Values (str "Content-Type") = [contentType]) ∧
    (∀ req, c.NewRequest ctx method apiEndpoint payload = .ok req →
      req.Header.Values (str "X-Atlassian-Token") = []) := by
  obtain ⟨k1, k2, k3, k4, -, -, k7, -, k9, k10⟩ := factory_keys_distinct
  refine ⟨fun req h => ?_, fun req h => ?_⟩
  · rw [NewFormRequest_Header c ctx method apiEndpoint contentType payload req h]
    by_cases h2 : c.Auth.HasBasicAuth = true <;> by_cases h3 : c.Auth.HasUserAgent = true <;>
      simp [h2, h3, Values_Set, Values_Add, Values_nil, k1, k2, k3, k4, Ne.symm k9, Ne.symm k10]
  · rw [NewRequest_Header c ctx method apiEndpoint payload req h]
    by_cases h1 : payload.isSome = true <;> by_cases h2 : c.Auth.HasBasicAuth = true <;>
      by_cases h3 : c.Auth.HasUserAgent = true <;>
      simp [h1, h2, h3, Values_Set, Values_nil, Ne.symm k4, Ne.symm k7, Ne.symm k9, Ne.symm k10]

/-- Witness of C13: the form post carries the token and the multipart content type, the
JSON post carries no token. -/
theorem form_request_headers_witness :
    (Fixture.formPost.Header.Values (str "X-Atlassian-Token") = [str "no-check"] ∧
      Fixture.formPost.Header.Values (str "Content-Type")
        = [str "multipart/form-data; boundary=x"]) ∧
      Fixture.jsonPost.Header.Values (str "X-Atlassian-Token") = [] :=
  ⟨(form_request_headers Fixture.authClient (some Context.Background) (str "POST")
      (str "rest/api/2/issue/1/attachments") (str "multipart/form-data; boundary=x")
      (some Fixture.emptyObject)).1 Fixture.formPost (by decide),
    (form_request_headers (Fixture.client 200 []) (some Context.Background) (str "POST")
      (str "rest/api/2/issue") [] (some Fixture.emptyObject)).2 Fixture.jsonPost (by decide)⟩

/-- Claim C14: in every request built by `NewRequest` or `NewFormRequest`, the
`Authorization` header is the basic-auth value of the credentials `GetBasicAuth` returns
if the provider reports `HasBasicAuth`, and has no value otherwise; the `User-Agent`
header is `GetUserAgent` if the provider reports `HasUserAgent`, and has no value
otherwise. -/
theorem factories_auth_headers (c : ClientV2) (ctx : Option Context)
    (method apiEndpoint contentType : Bytes) (payload : Option Reader) (req : http.Request)
    (h : c.NewRequest ctx method apiEndpoint payload = .ok req ∨
      c.NewFormRequest ctx method apiEndpoint contentType payload = .ok req) :
    req.Header.Values (str "Authorization") =
        (if c.Auth.HasBasicAuth then
          [str "Basic " ++ base64.EncodeToString
            (c.Auth.GetBasicAuth.1 ++ [ch ':'] ++ c.Auth.GetBasicAuth.2)]
        else []) ∧
      req.Header.Values (str "User-Agent") =
        (if c.Auth.HasUserAgent then [c.Auth.GetUserAgent] else []) := by
  obtain ⟨-, k2, k3, -, k5, k6, -, k8, k9, k10⟩ := factory_keys_distinct
  rcases h with h | h
  · rw [NewRequest_Header c ctx method apiEndpoint payload req h]
    by_cases h1 : payload.isSome = true <;> by_cases h2 : c.Auth.HasBasicAuth = true <;>
      by_cases h3 : c.Auth.HasUserAgent = true <;>
      simp [h1, h2, h3, Values_Set, Values_nil, k8, Ne.symm k8, Ne.symm k2, Ne.symm k3,
        Ne.symm k5, Ne.symm k6]
  · rw [NewFormRequest_Header c ctx method apiEndpoint contentType payload req h]
    by_cases h2 : c.Auth.HasBasicAuth = true <;> by_cases h3 : c.Auth.HasUserAgent = true <;>
      simp [h2, h3, Values_Set, Values_Add, Values_nil, k8, Ne.symm k8, Ne.symm k2, Ne.symm k3,
        Ne.symm k5, Ne.symm k6, k9, k10]

/-- Witness of C14: with credentials and a user agent configured the request carries
both; with nothing configured it carries neither. -/
theorem factories_auth_headers_witness :
    (Fixture.authGet.Header.Values (str "Authorization")
        = [str "Basic bWFpbEBleGFtcGxlLmNvbTp0b2tlbg=="] ∧
      Fixture.authGet.Header.Values (str "User-Agent") = [str "curl/7.54.0"]) ∧
    (Fixture.plainGet.Header.Values (str "Authorization") = [] ∧
      Fixture.plainGet.Header.Values (str "User-Agent") = []) :=
  ⟨factories_auth_headers Fixture.authClient (some Context.Background) (str "GET")
      (str "rest/api/2/issue/1") [] none Fixture.authGet (Or.inl (by decide)),
    factories_auth_headers (Fixture.client 200 []) (some Context.Background) (str "GET")
      (str "rest/api/2/issue/1") [] none Fixture.plainGet (Or.inl (by decide))⟩

/-! ### The payload encoder -/

/-- Claim C15: a nil input makes `TransformStructToReader` fail with `ErrNilPayloadError`,
with no reader. -/
theorem TransformStructToReader_nil (c : ClientV2) :
    c.TransformStructToReader none = .error .ErrNilPayloadError := rfl

/-- Claim C16: every struct passed by value makes `TransformStructToReader` fail with
`ErrNonPayloadPointerError`, with no reader, and this sentinel is not the nil-payload
one. -/
theorem TransformStructToReader_struct_by_value (c : ClientV2)
    (fields : List (Bytes × Bool × reflect.Value)) :
    c.TransformStructToReader (some (.struct fields)) = .error .ErrNonPayloadPointerError ∧
      GoError.ErrNonPayloadPointerError ≠ GoError.ErrNilPayloadError := by
  refine ⟨rfl, ?_⟩
  intro h
  cases h

/-- What `TransformStructToReader` does with a non-nil payload that is not a struct: it
returns what `json.Marshal` gives, the bytes wrapped in a reader. -/
theorem TransformStructToReader_not_struct (c : ClientV2) (v : reflect.Value)
    (hk : v.Kind ≠ .Struct) :
    c.TransformStructToReader (some v) =
      (match json.Marshal v with
        | .error err => .error err
        | .ok data => .ok ⟨data, none⟩) := by
  unfold ClientV2.TransformStructToReader
  have h : (v.Kind == reflect.Kind.Struct) = false := by simpa using hk
  simp [h]

/-- On the values modelled, `json.Marshal` fails only with its own error. -/
theorem Marshal_error (v : reflect.Value) (e : GoError) (h : json.Marshal v = .error e) :
    e = .errorString "json: unsupported type" := by
  unfold json.Marshal at h
  split at h
  · cases h
  · cases h
    rfl

/-- Claim C17, as the code has it: a payload that is a struct passed by value is rejected
with `ErrNonPayloadPointerError`; a non-nil payload of any other kind, pointer or not (a
map, slice, string, number or boolean passed by value included), is handed to
`json.Marshal`, its bytes are returned in a reader, and the non-pointer error is never
the result. -/
theorem TransformStructToReader_by_kind (c : ClientV2) (v : reflect.Value) :
    (v.Kind = .Struct →
      c.TransformStructToReader (some v) = .error .ErrNonPayloadPointerError) ∧
    (v.Kind ≠ .Struct →
      (∀ data, json.Marshal v = .ok data →
        c.TransformStructToReader (some v) = .ok ⟨data, none⟩) ∧
      c.TransformStructToReader (some v) ≠ .error .ErrNonPayloadPointerError) := by
  refine ⟨fun hk => ?_, fun hk => ⟨fun data hm => ?_, ?_⟩⟩
  · unfold ClientV2.TransformStructToReader
    simp [hk]
  · rw [TransformStructToReader_not_struct c v hk, hm]
  · rw [TransformStructToReader_not_struct c v hk]
    cases hm : json.Marshal v with
    | error e =>
      rw [Marshal_error v e hm]
      intro h
      cases h
    | ok data =>
      intro h
      cases h

/-- Witness of C17 as amended: a struct by value is rejected, a map by value is
encoded. -/
theorem TransformStructToReader_by_kind_witness :
    (Fixture.client 200 []).TransformStructToReader
        (some (.struct [(str "id", false, .string (str "1"))]))
      = .error .ErrNonPayloadPointerError ∧
    (Fixture.client 200 []).TransformStructToReader
        (some (.map (some [(str "id", .string (str "1"))])))
      = .ok ⟨Fixture.idBody, none⟩ :=
  ⟨(TransformStructToReader_by_kind (Fixture.client 200 [])
      (.struct [(str "id", false, .string (str "1"))])).1 rfl,
    ((TransformStructToReader_by_kind (Fixture.client 200 [])
      (.map (some [(str "id", .string (str "1"))]))).2 (by decide)).1 Fixture.idBody
      (by decide)⟩

/-- Claim C17, refuted as stated: a string, a number, a boolean, a slice and a map passed
by value are not pointers, and `TransformStructToReader` returns a reader with their JSON
text and no error. -/
theorem TransformStructToReader_accepts_values :
    (Fixture.client 200 []).TransformStructToReader (some (.string (str "x")))
      = .ok ⟨str "\"x\"", none⟩ ∧
    (Fixture.client 200 []).TransformStructToReader (some (.int 7)) = .ok ⟨str "7", none⟩ ∧
    (Fixture.client 200 []).TransformStructToReader (some (.bool true))
      = .ok ⟨str "true", none⟩ ∧
    (Fixture.client 200 []).TransformStructToReader (some (.slice (some [.int 1, .int 2])))
      = .ok ⟨str "[1,2]", none⟩ ∧
    (Fixture.client 200 []).TransformStructToReader
        (some (.map (some [(str "id", .string (str "1"))])))
      = .ok ⟨Fixture.idBody, none⟩ := by
  refine ⟨by decide, by decide, by decide, by decide, by decide⟩

/-- Claim C18, refuted as stated: the strings made of the single bytes `0xff` and `0xfe`
are different values that `json.Marshal` accepts, and the readers returned for pointers to
them hold the same bytes (the replacement text between quotes), so no decoder, from those
bytes and a fresh value, gives back both; `json.Unmarshal` gives back the string U+FFFD.
Likewise a struct whose `omitempty` field holds an empty slice that is not nil is encoded
as the empty object and comes back with a nil slice, and a pointer to a nil slice is
encoded as `null` and comes back as a nil pointer. -/
theorem TransformStructToReader_round_trip_fails :
    (Fixture.client 200 []).TransformStructToReader (some (.ptr (some (.string [0xff]))))
      = .ok ⟨[34, 92, 117, 102, 102, 102, 100, 34], none⟩ ∧
    (Fixture.client 200 []).TransformStructToReader (some (.ptr (some (.string [0xfe]))))
      = .ok ⟨[34, 92, 117, 102, 102, 102, 100, 34], none⟩ ∧
    reflect.Value.ptr (some (.string [0xff])) ≠ reflect.Value.ptr (some (.string [0xfe])) ∧
    (∀ (unmarshal : Bytes → reflect.Value → reflect.Value × Option GoError)
      (fresh : reflect.Value),
      ¬((unmarshal [34, 92, 117, 102, 102, 102, 100, 34] fresh).1
            = .ptr (some (.string [0xff])) ∧
          (unmarshal [34, 92, 117, 102, 102, 102, 100, 34] fresh).1
            = .ptr (some (.string [0xfe])))) ∧
    json.Unmarshal .string [34, 92, 117, 102, 102, 102, 100, 34] reflect.GoType.string.zero
      = (.string [0xEF, 0xBF, 0xBD], none) ∧
    ((Fixture.client 200 []).TransformStructToReader
        (some (.ptr (some (.struct [(str "labels", true, .slice (some []))]))))
      = .ok ⟨str "\x7b\x7d", none⟩ ∧
      json.Unmarshal Fixture.labelsType (str "\x7b\x7d") Fixture.labelsType.zero
        = (.struct [(str "labels", true, .slice none)], none) ∧
      reflect.Value.struct [(str "labels", true, .slice none)]
        ≠ .struct [(str "labels", true, .slice (some []))]) ∧
    ((Fixture.client 200 []).TransformStructToReader
        (some (.ptr (some (.ptr (some (.slice none))))))
      = .ok ⟨str "null", none⟩ ∧
      json.Unmarshal (.ptr (.slice .string)) (str "null")
          (reflect.GoType.ptr (.slice .string)).zero
        = (.ptr none, none) ∧
      reflect.Value.ptr none ≠ .ptr (some (.slice none))) := by
  have hne : reflect.Value.ptr (some (.string [0xff])) ≠
      reflect.Value.ptr (some (.string [0xfe])) := by
    intro h
    injection h with h
    injection h with h
    injection h with h
    revert h
    decide
  refine ⟨by decide, by decide, hne, fun unmarshal fresh h => ?_, rfl,
    ⟨by decide, rfl, by simp⟩, ⟨by decide, rfl, by simp⟩⟩
  exact hne (h.1.symm.trans h.2)

/-! ### Validation and query strings of the services -/

/-- Two bytes are ordered one way or the other, or equal. -/
theorem byte_trichotomy (a b : UInt8) : a < b ∨ a = b ∨ b < a := by
  rcases Nat.lt_trichotomy a.toNat b.toNat with h | h | h
  · exact Or.inl h
  · exact Or.inr (Or.inl (UInt8.ext h))
  · exact Or.inr (Or.inr h)

/-- The order of `sort.Strings` is total. -/
theorem lessEq_total (a b : Bytes) : strings.lessEq a b = true ∨ strings.lessEq b a = true := by
  induction a generalizing b with
  | nil => exact Or.inl (by cases b <;> rfl)
  | cons x xs ih =>
    cases b with
    | nil => exact Or.inr rfl
    | cons y ys =>
      rcases byte_trichotomy x y with h | h | h
      · exact Or.inl (by simp [strings.lessEq, h])
      · subst h
        rcases ih ys with h2 | h2
        · exact Or.inl (by simp [strings.lessEq, h2])
        · exact Or.inr (by simp [strings.lessEq, h2])
      · exact Or.inr (by simp [strings.lessEq, h])

/-- The order of `sort.Strings` is transitive. -/
theorem lessEq_trans (a b c : Bytes) (h1 : strings.lessEq a b = true)
    (h2 : strings.lessEq b c = true) : strings.lessEq a c = true := by
  induction a generalizing b c with
  | nil => cases c <;> rfl
  | cons x xs ih =>
    cases b with
    | nil => simp [strings.lessEq] at h1
    | cons y ys =>
      cases c with
      | nil => simp [strings.lessEq] at h2
      | cons z zs =>
        simp only [strings.lessEq, Bool.or_eq_true, Bool.and_eq_true, decide_eq_true_eq,
          beq_iff_eq] at h1 h2 ⊢
        rcases h1 with h1 | ⟨h1, h1r⟩
        · rcases h2 with h2 | ⟨h2, _⟩
          · exact Or.inl (UInt8.lt_trans h1 h2)
          · exact Or.inl (h2 ▸ h1)
        · rcases h2 with h2 | ⟨h2, h2r⟩
          · exact Or.inl (h1 ▸ h2)
          · exact Or.inr ⟨h1.trans h2, ih ys zs h1r h2r⟩

/-- Inserting an entry by key keeps the entries, up to order. -/
theorem insertByKey_perm {β : Type} (kv : Bytes × β) (l : List (Bytes × β)) :
    (strings.insertByKey kv l).Perm (kv :: l) := by
  induction l with
  | nil => exact List.Perm.refl _
  | cons e rest ih =>
    unfold strings.insertByKey
    split
    · exact List.Perm.refl _
    · exact (List.Perm.cons e ih).trans (List.Perm.swap kv e rest)

/-- Sorting by key keeps the entries, up to order. -/
theorem sortByKey_perm {β : Type} (l : List (Bytes × β)) : (strings.sortByKey l).Perm l := by
  induction l with
  | nil => exact List.Perm.refl _
  | cons kv rest ih =>
    exact (insertByKey_perm kv (strings.sortByKey rest)).trans (List.Perm.cons kv ih)

/-- Inserting an entry by key into entries in ascending key order keeps them in
ascending key order. -/
theorem insertByKey_sorted {β : Type} (kv : Bytes × β) (l : List (Bytes × β))
    (h : l.Pairwise fun a b => strings.lessEq a.1 b.1 = true) :
    (strings.insertByKey kv l).Pairwise fun a b => strings.lessEq a.1 b.1 = true := by
  induction l with
  | nil => exact List.pairwise_singleton _ _
  | cons e rest ih =>
    obtain ⟨he, hrest⟩ := List.pairwise_cons.mp h
    unfold strings.insertByKey
    split
    · rename_i hle
      refine List.pairwise_cons.mpr ⟨fun x hx => ?_, h⟩
      rcases List.mem_cons.mp hx with rfl | hx
      · exact hle
      · exact lessEq_trans _ _ _ hle (he x hx)
    · rename_i hle
      have hge : strings.lessEq e.1 kv.1 = true := by
        rcases lessEq_total e.1 kv.1 with h1 | h1
        · exact h1
        · exact absurd h1 hle
      refine List.pairwise_cons.mpr ⟨fun x hx => ?_, ih hrest⟩
      rcases List.mem_cons.mp ((insertByKey_perm kv rest).subset hx) with rfl | hx
      · exact hge
      · exact he x hx

/-- Sorting by key gives the entries in ascending key order. -/
theorem sortByKey_sorted {β : Type} (l : List (Bytes × β)) :
    (strings.sortByKey l).Pairwise fun a b => strings.lessEq a.1 b.1 = true := by
  induction l with
  | nil => exact List.Pairwise.nil
  | cons kv rest ih => exact insertByKey_sorted kv _ ih

/-- The query of the supplied parameters holds one pair for each, in their order. -/
theorem buildQuery_eq (supplied : List (Bytes × service.Parameter)) :
    service.buildQuery supplied = supplied.map fun kp => (kp.1, kp.2.render) := by
  have gen : ∀ (l : List (Bytes × service.Parameter)) (acc : url.Values),
      l.foldl (fun query kp => url.Values.Add query kp.1 kp.2.render) acc =
        acc ++ l.map fun kp => (kp.1, kp.2.render) := by
    intro l
    induction l with
    | nil => intro acc; simp
    | cons kp rest ih =>
      intro acc
      simp only [List.foldl_cons, List.map_cons]
      rw [ih]
      simp [url.Values.Add]
  simpa [service.buildQuery] using gen supplied []

/-- A method of the object service called without workspace identifier ends at once. -/
theorem objectMethod_no_workspace (c : service.Connector) (ctx : Option Context)
    (method objectID endpoint : Bytes) (body : Option reflect.Value) (typed : Bool) :
    assets.objectMethod c ctx method [] objectID endpoint body typed =
      ⟨false, none, some .ErrNoWorkspaceID, []⟩ := rfl

/-- A method of the object service called with a workspace identifier and without
object identifier ends at once. -/
theorem objectMethod_no_object (c : service.Connector) (ctx : Option Context)
    (method workspaceID endpoint : Bytes) (body : Option reflect.Value) (typed : Bool)
    (hw : workspaceID ≠ []) :
    assets.objectMethod c ctx method workspaceID [] endpoint body typed =
      ⟨false, none, some .ErrNoObjectID, []⟩ := by
  unfold assets.objectMethod
  have h : (workspaceID == []) = false := by simpa using hw
  simp [h]

/-- Claim C19: each of `Get`, `Delete`, `Attributes`, `History`, `References`,
`Relation` and `Update` of the assets object service answers an empty workspace
identifier with `ErrNoWorkspaceID`, whatever the object identifier, and a non-empty
workspace identifier with an empty object identifier with `ErrNoObjectID`; in both cases
no result and no envelope come back and no call is made on the connector. -/
theorem object_service_validation_order (c : service.Connector) (ctx : Option Context)
    (workspaceID objectID : Bytes) (ascOrder : Bool) (payload : Option reflect.Value) :
    (workspaceID = [] →
      ∀ r ∈ [assets.internalObjectImpl.Get c ctx workspaceID objectID,
          assets.internalObjectImpl.Delete c ctx workspaceID objectID,
          assets.internalObjectImpl.Attributes c ctx workspaceID objectID,
          assets.internalObjectImpl.History c ctx workspaceID objectID ascOrder,
          assets.internalObjectImpl.References c ctx workspaceID objectID,
          assets.internalObjectImpl.Relation c ctx workspaceID objectID,
          assets.internalObjectImpl.Update c ctx workspaceID objectID payload],
        r = ⟨false, none, some .ErrNoWorkspaceID, []⟩) ∧
    (workspaceID ≠ [] → objectID = [] →
      ∀ r ∈ [assets.internalObjectImpl.Get c ctx workspaceID objectID,
          assets.internalObjectImpl.Delete c ctx workspaceID objectID,
          assets.internalObjectImpl.Attributes c ctx workspaceID objectID,
          assets.internalObjectImpl.History c ctx workspaceID objectID ascOrder,
          assets.internalObjectImpl.References c ctx workspaceID objectID,
          assets.internalObjectImpl.Relation c ctx workspaceID objectID,
          assets.internalObjectImpl.Update c ctx workspaceID objectID payload],
        r = ⟨false, none, some .ErrNoObjectID, []⟩) := by
  refine ⟨fun hw r hr => ?_, fun hw ho r hr => ?_⟩
  · subst hw
    simp only [List.mem_cons, List.mem_singleton, List.not_mem_nil, or_false] at hr
    rcases hr with h | h | h | h | h | h | h <;> subst h <;>
      exact objectMethod_no_workspace _ _ _ _ _ _ _
  · subst ho
    simp only [List.mem_cons, List.mem_singleton, List.not_mem_nil, or_false] at hr
    rcases hr with h | h | h | h | h | h | h <;> subst h <;>
      exact objectMethod_no_object _ _ _ _ _ _ _ hw

/-- Witness of C19: on a connector that would succeed, `Get` without identifiers reports
the missing workspace and `Update` with a workspace only reports the missing object,
both without a call on the connector. -/
theorem object_service_validation_order_witness :
    assets.internalObjectImpl.Get Fixture.connector (some Context.Background) [] []
        = ⟨false, none, some .ErrNoWorkspaceID, []⟩ ∧
    assets.internalObjectImpl.Update Fixture.connector (some Context.Background)
        (str "workspace-uuid-sample") [] none
        = ⟨false, none, some .ErrNoObjectID, []⟩ :=
  ⟨(object_service_validation_order Fixture.connector (some Context.Background) [] [] true
      none).1 rfl _ (List.mem_cons_self _ _),
    (object_service_validation_order Fixture.connector (some Context.Background)
      (str "workspace-uuid-sample") [] true none).2 (by decide) rfl _
      (by simp)⟩

/-- Claim C20: for every relative path and every non-empty combination of supplied
parameters, the endpoint handed to `NewRequest` is the path, `?`, and the supplied
parameters as `key=value` pairs joined by `&`, where the pairs are the supplied ones
rearranged into ascending key order and both sides are query-escaped; nothing is put in
front of the path, so the builder adds no scheme and no host. -/
theorem buildEndpoint_query (path : Bytes) (supplied : List (Bytes × service.Parameter))
    (hne : supplied.isEmpty = false) :
    ∃ pairs : List (Bytes × Bytes),
      pairs.Perm (supplied.map fun kp => (kp.1, kp.2.render)) ∧
      pairs.Pairwise (fun a b => strings.lessEq a.1 b.1 = true) ∧
      service.buildEndpoint path supplied =
        path ++ [ch '?'] ++
          strings.Join
            (pairs.map fun kv => url.QueryEscape kv.1 ++ [ch '='] ++ url.QueryEscape kv.2)
            [ch '&'] := by
  refine ⟨strings.sortByKey (supplied.map fun kp => (kp.1, kp.2.render)),
    sortByKey_perm _, sortByKey_sorted _, ?_⟩
  unfold service.buildEndpoint
  rw [hne, buildQuery_eq]
  rfl

set_option maxRecDepth 100000 in
/-- Witness of C20: the endpoints of the three service tests. -/
theorem buildEndpoint_query_witness :
    (∃ pairs : List (Bytes × Bytes),
      pairs.Perm (Fixture.searchContentParameters.map fun kp => (kp.1, kp.2.render)) ∧
      pairs.Pairwise (fun a b => strings.lessEq a.1 b.1 = true) ∧
      service.buildEndpoint (str "wiki/rest/api/search") Fixture.searchContentParameters =
        str "wiki/rest/api/search" ++ [ch '?'] ++
          strings.Join
            (pairs.map fun kv => url.QueryEscape kv.1 ++ [ch '='] ++ url.QueryEscape kv.2)
            [ch '&']) ∧
    service.buildEndpoint (str "wiki/rest/api/search") Fixture.searchContentParameters =
      str ("wiki/rest/api/search?cql=type%3Dpage&cqlcontext=spaceKey&cursor=raNDoMsTRiNg" ++
        "&excerpt=indexed&excludeCurrentSpaces=true&expand=space&includeArchivedSpaces=true" ++
        "&limit=20&next=true&prev=true&sitePermissionTypeFilter=externalCollaborator&start=10") ∧
    service.buildEndpoint (str "wiki/rest/api/content/100100101/child/blogpost")
        Fixture.childrenByTypeParameters =
      str ("wiki/rest/api/content/100100101/child/blogpost" ++
        "?expand=attachment%2Ccomments&limit=25&parentVersion=12&start=50") ∧
    service.buildEndpoint (str "2.0/workspaces/work-space-name-sample/permissions")
        Fixture.membersParameters =
      str "2.0/workspaces/work-space-name-sample/permissions?q=permission%3D%22owner%22" ∧
    Except.map (fun u => (u.Scheme, u.Host))
        (url.Parse
          (service.buildEndpoint (str "2.0/workspaces/work-space-name-sample/permissions")
            Fixture.membersParameters)) = .ok ([], []) :=
  ⟨buildEndpoint_query (str "wiki/rest/api/search") Fixture.searchContentParameters rfl,
    by decide, by decide, by decide, by decide⟩

/-! ### Multi-valued parameters and request failures in the services -/

/-- Escaping goes through concatenation. -/
theorem escape_append (a b : Bytes) (mode : url.encoding) :
    url.escape (a ++ b) mode = url.escape a mode ++ url.escape b mode := by
  simp [url.escape, List.flatMap_append]

/-- Query-escaping a comma-joined list gives the escaped elements joined by `%2C`. -/
theorem QueryEscape_Join_comma (values : List Bytes) :
    url.QueryEscape (strings.Join values [ch ',']) =
      strings.Join (values.map url.QueryEscape) (str "%2C") := by
  induction values with
  | nil => rfl
  | cons a rest ih =>
    cases rest with
    | nil => rfl
    | cons b r =>
      have hc : url.escape [ch ','] .encodeQueryComponent = str "%2C" := by decide
      simp only [strings.Join, List.map_cons, url.QueryEscape, escape_append, hc] at ih ⊢
      rw [ih]

/-- Entries whose keys all differ from `key` have none left after filtering for it. -/
theorem filter_key_none (key : Bytes) (l : List (Bytes × service.Parameter))
    (h : ∀ kp ∈ l, kp.1 ≠ key) :
    ((l.map fun kp => (kp.1, kp.2.render)).filter fun kv => kv.1 == key) = [] := by
  induction l with
  | nil => rfl
  | cons kp rest ih =>
    have h1 : (kp.1 == key) = false := by simpa using h kp (List.mem_cons_self _ _)
    simp only [List.map_cons, List.filter, h1]
    exact ih fun x hx => h x (List.mem_cons_of_mem _ hx)

/-- Claim C21: whatever other parameters are supplied, the pairs that the query encoder
writes hold exactly one pair with the key `expand`, and its value is the expand values
joined by `,` in the given order; query-escaped, this value is the escaped elements
joined by `%2C`; alone, the parameter gives the endpoint `path?expand=a%2Cb...`. -/
theorem expand_single_key (path : Bytes) (before after : List (Bytes × service.Parameter))
    (values : List Bytes)
    (hb : ∀ kp ∈ before, kp.1 ≠ str "expand") (ha : ∀ kp ∈ after, kp.1 ≠ str "expand") :
    ((strings.sortByKey
        (service.buildQuery (before ++ (str "expand", .set values) :: after))).filter
        fun kv => kv.1 == str "expand") = [(str "expand", strings.Join values [ch ','])] ∧
    url.QueryEscape (strings.Join values [ch ',']) =
      strings.Join (values.map url.QueryEscape) (str "%2C") ∧
    service.buildEndpoint path [(str "expand", .set values)] =
      path ++ str "?expand=" ++ strings.Join (values.map url.QueryEscape) (str "%2C") := by
  refine ⟨?_, QueryEscape_Join_comma values, ?_⟩
  · have hperm := (sortByKey_perm
      (service.buildQuery (before ++ (str "expand", .set values) :: after))).filter
      fun kv => kv.1 == str "expand"
    rw [buildQuery_eq] at hperm ⊢
    have hf : ((before ++ (str "expand", service.Parameter.set values) :: after).map
        fun kp => (kp.1, kp.2.render)).filter (fun kv => kv.1 == str "expand") =
        [(str "expand", strings.Join values [ch ','])] := by
      rw [List.map_append, List.filter_append, filter_key_none _ before hb]
      simp only [List.map_cons, List.nil_append]
      rw [List.filter_cons_of_pos (by simp), filter_key_none _ after ha]
      rfl
    rw [hf] at hperm
    exact List.perm_singleton.mp hperm
  · have h1 : service.buildEndpoint path [(str "expand", .set values)] =
        path ++ [ch '?'] ++
          (url.QueryEscape (str "expand") ++ [ch '='] ++
            url.QueryEscape (strings.Join values [ch ','])) := rfl
    have h2 : url.QueryEscape (str "expand") = str "expand" := by decide
    rw [h1, h2, QueryEscape_Join_comma]
    have h3 : str "?expand=" = [ch '?'] ++ str "expand" ++ [ch '='] := by decide
    rw [h3]
    simp [List.append_assoc]

set_option maxRecDepth 100000 in
/-- Witness of C21: the two expand lists of the service tests, alone and inside the
endpoints the tests expect. -/
theorem expand_single_key_witness :
    service.buildEndpoint (str "wiki/rest/api/content/100100101/child")
        [(str "expand", .set [str "attachment", str "comments"])]
      = str "wiki/rest/api/content/100100101/child" ++ str "?expand=" ++
          strings.Join ([str "attachment", str "comments"].map url.QueryEscape) (str "%2C") ∧
    service.buildEndpoint (str "wiki/rest/api/content/100100101/child")
        Fixture.childrenParameters
      = str "wiki/rest/api/content/100100101/child?expand=attachment%2Ccomments&parentVersion=12" ∧
    service.buildEndpoint (str "wiki/rest/api/search/user") Fixture.usersParameters
      = str ("wiki/rest/api/search/user" ++
          "?cql=type%3Dpage&expand=operations%2CpersonalSpace&limit=50&start=20") :=
  ⟨(expand_single_key (str "wiki/rest/api/content/100100101/child") [] []
      [str "attachment", str "comments"] (by simp) (by simp)).2.2,
    by decide, by decide⟩

/-- A failing `NewRequest` of the connector ends the shared flow before `Call`. -/
theorem dispatch_request_failure (c : service.Connector) (ctx : Option Context)
    (method endpoint : Bytes) (body : Option reflect.Value) (typed : Bool) (err : GoError)
    (h : (c.NewRequest ctx method endpoint [] body).2 = some err) :
    service.dispatch c ctx method endpoint body typed =
      ⟨false, none, some err, [.NewRequest method endpoint []]⟩ := by
  unfold service.dispatch
  cases hr : c.NewRequest ctx method endpoint [] body with
  | mk request e =>
    rw [hr] at h
    simp only at h
    subst h
    rfl

/-- With both identifiers present a method of the object service runs the shared flow. -/
theorem objectMethod_valid (c : service.Connector) (ctx : Option Context)
    (method workspaceID objectID endpoint : Bytes) (body : Option reflect.Value) (typed : Bool)
    (hw : workspaceID ≠ []) (ho : objectID ≠ []) :
    assets.objectMethod c ctx method workspaceID objectID endpoint body typed =
      service.dispatch c ctx method endpoint body typed := by
  unfold assets.objectMethod
  have h1 : (workspaceID == []) = false := by simpa using hw
  have h2 : (objectID == []) = false := by simpa using ho
  simp [h1, h2]

/-- Claim C22: when the identifiers pass validation and the connector's `NewRequest`
returns an error, each of the seven methods of the object service returns that error
with no result and no envelope, and the calls made on the connector are the one
`NewRequest`: `Call` is never invoked. -/
theorem request_failure_skips_Call (c : service.Connector) (ctx : Option Context)
    (workspaceID objectID : Bytes) (ascOrder : Bool) (payload : Option reflect.Value)
    (err : GoError) (hw : workspaceID ≠ []) (ho : objectID ≠ [])
    (hFail : ∀ ctx method urlStr type_ body,
      (c.NewRequest ctx method urlStr type_ body).2 = some err) :
    ∀ r ∈ [assets.internalObjectImpl.Get c ctx workspaceID objectID,
        assets.internalObjectImpl.Delete c ctx workspaceID objectID,
        assets.internalObjectImpl.Attributes c ctx workspaceID objectID,
        assets.internalObjectImpl.History c ctx workspaceID objectID ascOrder,
        assets.internalObjectImpl.References c ctx workspaceID objectID,
        assets.internalObjectImpl.Relation c ctx workspaceID objectID,
        assets.internalObjectImpl.Update c ctx workspaceID objectID payload],
      r.err = some err ∧ r.result = false ∧ r.response = none ∧
        r.trace.any service.ConnectorEvent.isCall = false ∧ r.trace.length = 1 := by
  intro r hr
  simp only [List.mem_cons, List.mem_singleton, List.not_mem_nil, or_false] at hr
  rcases hr with h | h | h | h | h | h | h <;> subst h <;>
    simp only [assets.internalObjectImpl.Get, assets.internalObjectImpl.Delete,
      assets.internalObjectImpl.Attributes, assets.internalObjectImpl.History,
      assets.internalObjectImpl.References, assets.internalObjectImpl.Relation,
      assets.internalObjectImpl.Update] <;>
    rw [objectMethod_valid _ _ _ _ _ _ _ _ hw ho,
      dispatch_request_failure _ _ _ _ _ _ err (hFail _ _ _ _ _)] <;>
    exact ⟨rfl, rfl, rfl, rfl, rfl⟩

/-- Witness of C22: on the connector whose `NewRequest` gives `ErrCreateHttpReq`, `Get`
with both identifiers returns that sentinel after the one `NewRequest`. -/
theorem request_failure_skips_Call_witness :
    (assets.internalObjectImpl.Get Fixture.brokenConnector (some Context.Background)
        (str "workspace-uuid-sample") (str "1")).err = some .ErrCreateHttpReq ∧
    (assets.internalObjectImpl.Get Fixture.brokenConnector (some Context.Background)
        (str "workspace-uuid-sample") (str "1")).trace
      = [.NewRequest (str "GET")
          (str "jsm/assets/workspace/workspace-uuid-sample/v1/object/1") []] :=
  ⟨(request_failure_skips_Call Fixture.brokenConnector (some Context.Background)
      (str "workspace-uuid-sample") (str "1") true none .ErrCreateHttpReq (by decide)
      (by decide) (fun _ _ _ _ _ => rfl) _ (List.mem_cons_self _ _)).1,
    by decide⟩

/-! ### `NewV2` -/

/-- A string to which a byte was appended ends in that byte. -/
theorem HasSuffix_append_byte (s : Bytes) (c : UInt8) : strings.HasSuffix (s ++ [c]) [c] = true := by
  unfold strings.HasSuffix
  rw [List.isSuffixOf_iff_suffix]
  exact List.suffix_append s [c]

/-- The site string that `NewV2` parses ends in `/`. -/
theorem siteWithSlash_HasSuffix (site : Bytes) :
    strings.HasSuffix (siteWithSlash site) [ch '/'] = true := by
  unfold siteWithSlash
  cases h : strings.HasSuffix site [ch '/']
  · simpa using HasSuffix_append_byte site (ch '/')
  · simpa using h

/-- Claim C23: `NewV2` parses the site itself when it ends in `/` and the site with one
`/` appended when it does not; the string parsed always ends in `/`, normalising it again
changes nothing, a parse error of it is the error of `NewV2`, and when `NewV2` succeeds
the base URL of the client is the parse of that string. -/
theorem NewV2_site_normalisation (w : Wiring) (httpClient : Option HttpClient) (site : Bytes) :
    (strings.HasSuffix site [ch '/'] = true → siteWithSlash site = site) ∧
    (strings.HasSuffix site [ch '/'] = false → siteWithSlash site = site ++ [ch '/']) ∧
    strings.HasSuffix (siteWithSlash site) [ch '/'] = true ∧
    siteWithSlash (siteWithSlash site) = siteWithSlash site ∧
    (∀ e, url.Parse (siteWithSlash site) = .error e → NewV2 w httpClient site = .error e) ∧
    (∀ client, NewV2 w httpClient site = .ok client →
      url.Parse (siteWithSlash site) = .ok client.Site) := by
  refine ⟨fun h => by simp [siteWithSlash, h], fun h => by simp [siteWithSlash, h],
    siteWithSlash_HasSuffix site, ?_, fun e h => ?_, fun client h => ?_⟩
  · have h := siteWithSlash_HasSuffix site
    generalize siteWithSlash site = s at h
    simp [siteWithSlash, h]
  · simp [NewV2, h]
  · unfold NewV2 at h
    simp only at h
    cases hp : url.Parse (siteWithSlash site) with
    | error e => simp [hp] at h
    | ok u =>
      rw [hp] at h
      simp only at h
      split at h
      · cases h
      · cases h
        rfl

/-- Witness of C23: the site `https://example.atlassian.net` gets its `/`, and the
client has the base URL `https://example.atlassian.net/`. -/
theorem NewV2_site_normalisation_witness :
    siteWithSlash (str "https://example.atlassian.net")
      = str "https://example.atlassian.net" ++ [ch '/'] ∧
    url.Parse (siteWithSlash (str "https://example.atlassian.net")) = .ok Fixture.site :=
  have h := NewV2_site_normalisation Fixture.wiring none (str "https://example.atlassian.net")
  ⟨h.2.1 (by decide),
    h.2.2.2.2.2 ⟨Fixture.failingTransport, Fixture.site, Fixture.noAuth⟩ rfl⟩

/-- Claim C24: a client that `NewV2` returns has the global default HTTP client as its
transport when the `httpClient` argument is nil, and the given transport when it is
not. -/
theorem NewV2_transport (w : Wiring) (site : Bytes) (client : ClientV2) :
    (NewV2 w none site = .ok client → client.HTTP = w.DefaultClient) ∧
    (∀ given, NewV2 w (some given) site = .ok client → client.HTTP = given) := by
  refine ⟨fun h => ?_, fun given h => ?_⟩
  · unfold NewV2 at h
    simp only at h
    split at h
    · cases h
    · split at h
      · cases h
      · cases h
        rfl
  · unfold NewV2 at h
    simp only at h
    split at h
    · cases h
    · split at h
      · cases h
      · cases h
        rfl

/-- Witness of C24: without transport the client of the fixture wiring runs on the
default client, with the stub transport it runs on the stub. -/
theorem NewV2_transport_witness :
    (NewV2 Fixture.wiring none (str "https://example.atlassian.net")
        = .ok ⟨Fixture.failingTransport, Fixture.site, Fixture.noAuth⟩ ∧
      (⟨Fixture.failingTransport, Fixture.site, Fixture.noAuth⟩ : ClientV2).HTTP
        = Fixture.wiring.DefaultClient) ∧
    (NewV2 Fixture.wiring (some (Fixture.stubTransport 200 []))
          (str "https://example.atlassian.net/")
        = .ok ⟨Fixture.stubTransport 200 [], Fixture.site, Fixture.noAuth⟩ ∧
      (⟨Fixture.stubTransport 200 [], Fixture.site, Fixture.noAuth⟩ : ClientV2).HTTP
        = Fixture.stubTransport 200 []) :=
  ⟨⟨rfl, (NewV2_transport Fixture.wiring (str "https://example.atlassian.net")
      ⟨Fixture.failingTransport, Fixture.site, Fixture.noAuth⟩).1 rfl⟩,
    ⟨rfl, (NewV2_transport Fixture.wiring (str "https://example.atlassian.net/")
      ⟨Fixture.stubTransport 200 [], Fixture.site, Fixture.noAuth⟩).2
      (Fixture.stubTransport 200 []) rfl⟩⟩

/-! ### Issue update operations and merges (`pkg/infra/models`) -/

/-- A non-empty string has a length that is not zero. -/
theorem length_beq_zero_of_ne (s : Bytes) (h : s ≠ []) : (s.length == 0) = false := by
  cases s with
  | nil => exact absurd rfl h
  | cons a rest => rfl

/-- Claim C25: `AddStringOperation` answers an empty field identifier with
`ErrNoFieldIDError` whatever the other arguments, otherwise an empty operation with
`ErrNoEditOperatorError`, otherwise an empty value with `ErrNoEditValueError`, and returns
no error when all three are non-empty; `AddArrayOperation` answers an empty field
identifier with `ErrNoFieldIDError` and returns no error otherwise. A failed check leaves
the operations as they were. This holds whatever node the operations append. -/
theorem update_operations_validation (u : models.UpdateOperations)
    (node : Bytes → List (Bytes × Bytes) → reflect.Value)
    (customFieldID operation value : Bytes) (mapping : List (Bytes × Bytes)) :
    (customFieldID = [] →
      u.AddStringOperation node customFieldID operation value
        = (u, some .ErrNoFieldIDError)) ∧
    (customFieldID ≠ [] → operation = [] →
      u.AddStringOperation node customFieldID operation value
        = (u, some .ErrNoEditOperatorError)) ∧
    (customFieldID ≠ [] → operation ≠ [] → value = [] →
      u.AddStringOperation node customFieldID operation value
        = (u, some .ErrNoEditValueError)) ∧
    (customFieldID ≠ [] → operation ≠ [] → value ≠ [] →
      (u.AddStringOperation node customFieldID operation value).2 = none) ∧
    (customFieldID = [] →
      u.AddArrayOperation node customFieldID mapping = (u, some .ErrNoFieldIDError)) ∧
    (customFieldID ≠ [] → (u.AddArrayOperation node customFieldID mapping).2 = none) := by
  refine ⟨fun h => ?_, fun h1 h2 => ?_, fun h1 h2 h3 => ?_, fun h1 h2 h3 => ?_, fun h => ?_,
    fun h => ?_⟩
  · subst h; rfl
  · subst h2
    simp [models.UpdateOperations.AddStringOperation, length_beq_zero_of_ne _ h1]
  · subst h3
    simp [models.UpdateOperations.AddStringOperation, length_beq_zero_of_ne _ h1,
      length_beq_zero_of_ne _ h2]
  · simp [models.UpdateOperations.AddStringOperation, length_beq_zero_of_ne _ h1,
      length_beq_zero_of_ne _ h2, length_beq_zero_of_ne _ h3]
  · subst h; rfl
  · simp [models.UpdateOperations.AddArrayOperation, length_beq_zero_of_ne _ h]

/-- Witness of C25: with every argument empty the field identifier is reported; with only
the field identifier given, the operation is reported. -/
theorem update_operations_validation_witness :
    (({} : models.UpdateOperations).AddStringOperation (fun _ _ => .map none) [] [] []).2
      = some .ErrNoFieldIDError ∧
    (({} : models.UpdateOperations).AddStringOperation (fun _ _ => .map none)
        (str "custom_field_id") [] []).2
      = some .ErrNoEditOperatorError :=
  ⟨congrArg Prod.snd
      ((update_operations_validation {} (fun _ _ => .map none) [] [] [] []).1 rfl),
    congrArg Prod.snd
      ((update_operations_validation {} (fun _ _ => .map none) (str "custom_field_id")
        [] [] []).2.1 (by decide) rfl)⟩

/-- Claim C26: `MergeOperations` returns a nil map with `ErrNoOperatorError` exactly when
the operations are nil or hold no node, and `MergeCustomFields` returns a nil map with
`ErrNoCustomFieldError` exactly when the custom fields are nil or hold no node. This
holds whatever map the merge gives. -/
theorem merge_validation (i : models.IssueSchemeV2)
    (merge : models.IssueSchemeV2 → List reflect.Value → reflect.Value)
    (operations : Option models.UpdateOperations) (fields : Option models.CustomFields) :
    (i.MergeOperations merge operations = (none, some .ErrNoOperatorError) ↔
      (operations = none ∨ ∃ u, operations = some u ∧ u.Fields = [])) ∧
    (i.MergeCustomFields merge fields = (none, some .ErrNoCustomFieldError) ↔
      (fields = none ∨ ∃ f, fields = some f ∧ f.Fields = [])) := by
  constructor
  · cases operations with
    | none => simp [models.IssueSchemeV2.MergeOperations]
    | some u =>
      cases hf : u.Fields with
      | nil => simp [models.IssueSchemeV2.MergeOperations, hf]
      | cons n rest => simp [models.IssueSchemeV2.MergeOperations, hf]
  · cases fields with
    | none => simp [models.IssueSchemeV2.MergeCustomFields]
    | some f =>
      cases hf : f.Fields with
      | nil => simp [models.IssueSchemeV2.MergeCustomFields, hf]
      | cons n rest => simp [models.IssueSchemeV2.MergeCustomFields, hf]

/-! ### Typed nil payloads and totality of `Call` -/

/-- Claim C29: a typed nil pointer is not treated as an absent payload:
`TransformStructToReader` returns neither `ErrNilPayloadError` nor
`ErrNonPayloadPointerError` for it, but a nil error and a reader over the JSON literal
`null`. -/
theorem TransformStructToReader_typed_nil_pointer (c : ClientV2) :
    c.TransformStructToReader (some (.ptr none)) = .ok ⟨str "null", none⟩ ∧
    c.TransformStructToReader (some (.ptr none)) ≠ .error .ErrNilPayloadError ∧
    c.TransformStructToReader (some (.ptr none)) ≠ .error .ErrNonPayloadPointerError ∧
    ReadAll ⟨str "null", none⟩ = (str "null", none) := by
  have h : c.TransformStructToReader (some (.ptr none)) = .ok ⟨str "null", none⟩ := rfl
  refine ⟨h, ?_, ?_, rfl⟩ <;> rw [h] <;> exact fun e => nomatch e

/-- Claim C30: `Call` is total when the transport, whenever it reports no error, returns a
response that carries a request with a non-nil URL and a non-nil body: the call returns a
pair of envelope and error (it does not end in a nil dereference), and the endpoint and
the method of a returned envelope are those of the request carried by the response. -/
theorem Call_total {τ : Type} (c : ClientV2) (rt : Runtime τ)
    (request : Option http.Request) (t : Target τ)
    (hPre : (c.HTTP.Do request).2 = none →
      ∃ response responseRequest responseURL body,
        (c.HTTP.Do request).1 = some response ∧ response.Request = some responseRequest ∧
        responseRequest.URL = some responseURL ∧ response.Body = some body) :
    ∃ envelope err, (c.Call rt request t).outcome = .returned envelope err ∧
      ∀ e, envelope = some e →
        ∃ response responseRequest responseURL,
          (c.HTTP.Do request).1 = some response ∧ response.Request = some responseRequest ∧
          responseRequest.URL = some responseURL ∧
          e.Endpoint = responseURL.String ∧ e.Method = responseRequest.Method := by
  rcases hDo : c.HTTP.Do request with ⟨resp, _ | err⟩
  · rw [hDo] at hPre
    obtain ⟨response, responseRequest, responseURL, body, h1, h2, h3, h4⟩ := hPre rfl
    simp only at h1
    subst h1
    by_cases hs : (decide (response.StatusCode ≥ 200) && decide (response.StatusCode < 300)) = true
    · rcases hr : ReadAll body with ⟨data, _ | rerr⟩
      · cases t with
        | nil =>
          rcases hw : rt.Write [] data with ⟨written, _ | werr⟩
          · refine ⟨some ⟨some response, response.StatusCode, responseURL.String,
              responseRequest.Method, written⟩, none, ?_, ?_⟩
            · simp [ClientV2.Call, hDo, h2, h3, h4, hs, hr, ClientV2.callWrite, hw]
            · intro e he
              cases he
              exact ⟨response, responseRequest, responseURL, rfl, h2, h3, rfl, rfl⟩
          · refine ⟨none, some werr, ?_, fun e he => nomatch he⟩
            simp [ClientV2.Call, hDo, h2, h3, h4, hs, hr, ClientV2.callWrite, hw]
        | ptr v =>
          rcases hu : rt.Unmarshal data v with ⟨v2, _ | uerr⟩
          · rcases hw : rt.Write [] data with ⟨written, _ | werr⟩
            · refine ⟨some ⟨some response, response.StatusCode, responseURL.String,
                responseRequest.Method, written⟩, none, ?_, ?_⟩
              · simp [ClientV2.Call, hDo, h2, h3, h4, hs, hr, hu, ClientV2.callWrite, hw]
              · intro e he
                cases he
                exact ⟨response, responseRequest, responseURL, rfl, h2, h3, rfl, rfl⟩
            · refine ⟨none, some werr, ?_, fun e he => nomatch he⟩
              simp [ClientV2.Call, hDo, h2, h3, h4, hs, hr, hu, ClientV2.callWrite, hw]
          · refine ⟨some ⟨some response, response.StatusCode, responseURL.String,
              responseRequest.Method, []⟩, some uerr, ?_, ?_⟩
            · simp [ClientV2.Call, hDo, h2, h3, h4, hs, hr, hu]
            · intro e he
              cases he
              exact ⟨response, responseRequest, responseURL, rfl, h2, h3, rfl, rfl⟩
      · refine ⟨some ⟨some response, response.StatusCode, responseURL.String,
          responseRequest.Method, []⟩, some rerr, ?_, ?_⟩
        · simp [ClientV2.Call, hDo, h2, h3, h4, hs, hr]
        · intro e he
          cases he
          exact ⟨response, responseRequest, responseURL, rfl, h2, h3, rfl, rfl⟩
    · refine ⟨some ⟨some response, response.StatusCode, responseURL.String,
        responseRequest.Method, []⟩, some .ErrInvalidStatusCodeError, ?_, ?_⟩
      · simp only [Bool.not_eq_true] at hs
        simp [ClientV2.Call, hDo, h2, h3, hs]
      · intro e he
        cases he
        exact ⟨response, responseRequest, responseURL, rfl, h2, h3, rfl, rfl⟩
  · refine ⟨none, some err, ?_, fun e he => nomatch he⟩
    simp [ClientV2.Call, hDo]

/-! ### `TransformTheHTTPResponse` against `Call` -/

set_option maxRecDepth 100000 in
/-- Witness of C30: the stub transport answers a `POST` of `rest/api/2/issue` with a
response that carries the request `GET https://example.atlassian.net/rest/api/2/issue/1`;
the call returns, and the envelope shows the `GET` request of the response. -/
theorem Call_total_witness :
    Fixture.jsonPost.Method = str "POST" ∧
    ((Fixture.client 200 Fixture.idBody).Call Fixture.runtime (some Fixture.jsonPost)
        (Target.nil : Target Fixture.IDScheme)).outcome
      = .returned (some
          { Response := some { StatusCode := 200, Request := some Fixture.request,
                               Body := some ⟨Fixture.idBody, none⟩ },
            Code := 200,
            Endpoint := str "https://example.atlassian.net/rest/api/2/issue/1",
            Method := str "GET",
            Bytes := Fixture.idBody }) none ∧
    ∃ envelope err,
      ((Fixture.client 200 Fixture.idBody).Call Fixture.runtime (some Fixture.jsonPost)
          (Target.nil : Target Fixture.IDScheme)).outcome = .returned envelope err ∧
      ∀ e, envelope = some e →
        ∃ response responseRequest responseURL,
          ((Fixture.client 200 Fixture.idBody).HTTP.Do (some Fixture.jsonPost)).1
            = some response ∧
          response.Request = some responseRequest ∧
          responseRequest.URL = some responseURL ∧
          e.Endpoint = responseURL.String ∧ e.Method = responseRequest.Method :=
  ⟨by decide, by decide,
    Call_total (Fixture.client 200 Fixture.idBody) Fixture.runtime (some Fixture.jsonPost)
      .nil (fun _ => ⟨_, _, _, _, rfl, rfl, rfl, rfl⟩)⟩

/-- Claim C28: `TransformTheHTTPResponse` agrees with `Call` on the handling of the
response. When the transport answers the request with the response `r` and no error, and
the write into the envelope buffer reports no error (as the one of `bytes.Buffer` does),
then for every target: both leave the same value in the target; `Call` makes the same
calls after its `Do`; both return an envelope, with equal code, endpoint, method and raw
bytes, where the one of `Call` holds `r` as the response handle and the other holds none;
one returns an error exactly when the other does; on a status in `[200, 300)` the errors
are equal, on another status `Call` returns `ErrInvalidStatusCodeError` and
`TransformTheHTTPResponse` the error with the text `TODO`; where one ends in a nil
dereference, so does the other. For a nil response `TransformTheHTTPResponse` returns no
envelope and a validation error. -/
theorem TransformTheHTTPResponse_agrees_with_Call {τ : Type} (c : ClientV2) (rt : Runtime τ)
    (request : Option http.Request) (r : http.Response) (t : Target τ)
    (hDo : c.HTTP.Do request = (some r, none))
    (hWrite : ∀ buf p, (rt.Write buf p).2 = none) :
    (c.TransformTheHTTPResponse rt (some r) t).target = (c.Call rt request t).target ∧
    (c.Call rt request t).trace = .Do request :: (c.TransformTheHTTPResponse rt (some r) t).trace ∧
    (match (c.Call rt request t).outcome, (c.TransformTheHTTPResponse rt (some r) t).outcome with
      | .panicked, .panicked => True
      | .returned (some e1) err1, .returned (some e2) err2 =>
        e1.Response = some r ∧ e2.Response = none ∧
        e2.Code = e1.Code ∧ e2.Endpoint = e1.Endpoint ∧ e2.Method = e1.Method ∧
        e2.Bytes = e1.Bytes ∧
        (err2 = none ↔ err1 = none) ∧
        (if decide (r.StatusCode ≥ 200) && decide (r.StatusCode < 300) then err2 = err1
         else err1 = some .ErrInvalidStatusCodeError ∧ err2 = some (.errorString "TODO"))
      | _, _ => False) ∧
    (c.TransformTheHTTPResponse rt none t).outcome =
      .returned none
        (some (.errorString "validation failed, please provide a http.Response pointer")) := by
  refine ⟨?_, ?_, ?_, rfl⟩
  all_goals
    rcases hq : r.Request with _ | responseRequest
    · simp [ClientV2.Call, ClientV2.TransformTheHTTPResponse, hDo, hq]
    rcases hu : responseRequest.URL with _ | responseURL
    · simp [ClientV2.Call, ClientV2.TransformTheHTTPResponse, hDo, hq, hu]
    by_cases hs : (decide (r.StatusCode ≥ 200) && decide (r.StatusCode < 300)) = true
    swap
    · simp only [Bool.not_eq_true] at hs
      simp [ClientV2.Call, ClientV2.TransformTheHTTPResponse, hDo, hq, hu, hs]
    rcases hb : r.Body with _ | body
    · simp [ClientV2.Call, ClientV2.TransformTheHTTPResponse, hDo, hq, hu, hs, hb]
    rcases hr : ReadAll body with ⟨data, _ | rerr⟩
    swap
    · simp [ClientV2.Call, ClientV2.TransformTheHTTPResponse, hDo, hq, hu, hs, hb, hr]
    have hw : rt.Write [] data = ((rt.Write [] data).1, none) :=
      Prod.ext rfl (hWrite [] data)
    cases t with
    | nil =>
      simp only [ClientV2.Call, ClientV2.TransformTheHTTPResponse, hDo, hq, hu, hs, hb, hr,
        ClientV2.callWrite]
      rw [hw]
      simp
    | ptr v =>
      rcases hm : rt.Unmarshal data v with ⟨v2, _ | uerr⟩
      · simp only [ClientV2.Call, ClientV2.TransformTheHTTPResponse, hDo, hq, hu, hs, hb, hr,
          hm, ClientV2.callWrite]
        rw [hw]
        simp
      · simp [ClientV2.Call, ClientV2.TransformTheHTTPResponse, hDo, hq, hu, hs, hb, hr, hm]


set_option maxRecDepth 100000 in
/-- Witness of C28: on the response `201` with the body `{"id":"1"}` both return the
envelope with code 201, the endpoint, the method and the body bytes and no error, `Call`
with the response handle; on the response `404` both return the envelope with code 404,
`Call` with `ErrInvalidStatusCodeError` and `TransformTheHTTPResponse` with `TODO`. -/
theorem TransformTheHTTPResponse_agrees_with_Call_witness :
    ((Fixture.client 201 Fixture.idBody).Call Fixture.runtime (some Fixture.request)
        (.ptr (⟨[]⟩ : Fixture.IDScheme))).outcome
      = .returned (some
          { Response := some { StatusCode := 201, Request := some Fixture.request,
                               Body := some ⟨Fixture.idBody, none⟩ },
            Code := 201,
            Endpoint := str "https://example.atlassian.net/rest/api/2/issue/1",
            Method := str "GET",
            Bytes := Fixture.idBody }) none ∧
    ((Fixture.client 201 Fixture.idBody).TransformTheHTTPResponse Fixture.runtime
        (some { StatusCode := 201, Request := some Fixture.request,
                Body := some ⟨Fixture.idBody, none⟩ })
        (.ptr (⟨[]⟩ : Fixture.IDScheme))).outcome
      = .returned (some
          { Response := none,
            Code := 201,
            Endpoint := str "https://example.atlassian.net/rest/api/2/issue/1",
            Method := str "GET",
            Bytes := Fixture.idBody }) none ∧
    ((Fixture.client 404 []).Call Fixture.runtime (some Fixture.request)
        (.ptr (⟨[]⟩ : Fixture.IDScheme))).outcome
      = .returned (some
          { Response := some { StatusCode := 404, Request := some Fixture.request,
                               Body := some ⟨[], none⟩ },
            Code := 404,
            Endpoint := str "https://example.atlassian.net/rest/api/2/issue/1",
            Method := str "GET" }) (some .ErrInvalidStatusCodeError) ∧
    ((Fixture.client 404 []).TransformTheHTTPResponse Fixture.runtime
        (some { StatusCode := 404, Request := some Fixture.request,
                Body := some ⟨[], none⟩ })
        (.ptr (⟨[]⟩ : Fixture.IDScheme))).outcome
      = .returned (some
          { Code := 404,
            Endpoint := str "https://example.atlassian.net/rest/api/2/issue/1",
            Method := str "GET" }) (some (.errorString "TODO")) ∧
    ((Fixture.client 201 Fixture.idBody).TransformTheHTTPResponse Fixture.runtime
        (some { StatusCode := 201, Request := some Fixture.request,
                Body := some ⟨Fixture.idBody, none⟩ })
        (.ptr (⟨[]⟩ : Fixture.IDScheme))).target
      = ((Fixture.client 201 Fixture.idBody).Call Fixture.runtime (some Fixture.request)
          (.ptr (⟨[]⟩ : Fixture.IDScheme))).target ∧
    ((Fixture.client 404 []).TransformTheHTTPResponse Fixture.runtime
        (some { StatusCode := 404, Request := some Fixture.request,
                Body := some ⟨[], none⟩ })
        (.ptr (⟨[]⟩ : Fixture.IDScheme))).target
      = ((Fixture.client 404 []).Call Fixture.runtime (some Fixture.request)
          (.ptr (⟨[]⟩ : Fixture.IDScheme))).target :=
  ⟨by decide, by decide, by decide, by decide,
    (TransformTheHTTPResponse_agrees_with_Call (Fixture.client 201 Fixture.idBody)
      Fixture.runtime (some Fixture.request)
      { StatusCode := 201, Request := some Fixture.request,
        Body := some ⟨Fixture.idBody, none⟩ }
      (.ptr ⟨[]⟩) rfl (fun _ _ => rfl)).1,
    (TransformTheHTTPResponse_agrees_with_Call (Fixture.client 404 [])
      Fixture.runtime (some Fixture.request)
      { StatusCode := 404, Request := some Fixture.request, Body := some ⟨[], none⟩ }
      (.ptr ⟨[]⟩) rfl (fun _ _ => rfl)).1⟩

/-! ### Decoding what the encoder writes -/

/-- A property of bytes that holds of each of the 256 values holds of every byte. -/
theorem forall_byte (P : UInt8 → Bool) (h : ∀ n : Fin 256, P ⟨⟨n⟩⟩ = true) (b : UInt8) :
    P b = true := by
  cases b with
  | mk val =>
    cases val with
    | ofFin n => exact h n

set_option maxRecDepth 100000 in
/-- A byte outside ASCII is neither a quote nor a backslash nor a control character. -/
theorem byte_high (b : UInt8) (h : ¬ b < 0x80) : b ≠ ch '"' ∧ b ≠ 92 ∧ ¬ b < 0x20 := by
  have := forall_byte (fun b => decide (¬ b < 0x80 → b ≠ ch '"' ∧ b ≠ 92 ∧ ¬ b < 0x20)) (by decide) b
  exact of_decide_eq_true this h

/-- At the start of a sequence the encoder's loop does not consult the copy flag. -/
theorem escapeLoop_zero (copy : Bool) (s : Bytes) :
    json.escapeLoop 0 copy s = json.escapeLoop 0 true s := by
  cases s <;> rfl

/-- At the start of a sequence the decoder's loop does not consult the copy flag. -/
theorem unquoteLoop_zero (copy : Bool) (s : Bytes) :
    json.unquoteLoop 0 copy s = json.unquoteLoop 0 true s := by
  cases s <;> rfl

set_option maxRecDepth 100000 in
/-- A byte that the encoder copies is none of the bytes the decoder treats specially. -/
theorem htmlSafe_plain (b : UInt8) (h : json.htmlSafe b = true) :
    (b == ch '"') = false ∧ (b == 92) = false ∧ ¬ b < 0x20 ∧ b < 0x80 := by
  have := forall_byte (fun b => decide (json.htmlSafe b = true →
    (b == ch '"') = false ∧ (b == 92) = false ∧ ¬ b < 0x20 ∧ b < 0x80)) (by decide) b
  exact of_decide_eq_true this h

set_option maxRecDepth 100000 in
/-- The escape of an ASCII byte that is not copied, read back: either a one-letter escape
that stands for the byte, or the escape with four hexadecimal digits of its value. -/
theorem escapeASCII_cases (b : UInt8) (h1 : b < 0x80) (h2 : json.htmlSafe b = false) :
    (∃ e, json.escapeASCII b = [92, e] ∧ (e == ch 'u') = false ∧
      json.simpleEscape e = some b) ∨
    (∃ x y, json.escapeASCII b = [92, ch 'u', ch '0', ch '0', x, y] ∧
      json.hexValue (ch '0') = some 0 ∧
      json.hexValue x = some (b.toNat / 16) ∧ json.hexValue y = some (b.toNat % 16) ∧
      utf8.EncodeRune b.toNat = [b]) := by
  have := forall_byte (fun b => decide (b < 0x80 → json.htmlSafe b = false →
    ((json.escapeASCII b).length = 2 ∧ (json.escapeASCII b).head? = some 92 ∧
      (((json.escapeASCII b).getD 1 0) == ch 'u') = false ∧
      json.simpleEscape ((json.escapeASCII b).getD 1 0) = some b) ∨
    ((json.escapeASCII b).take 4 = [92, ch 'u', ch '0', ch '0'] ∧
      (json.escapeASCII b).length = 6 ∧
      json.hexValue (ch '0') = some 0 ∧
      json.hexValue ((json.escapeASCII b).getD 4 0) = some (b.toNat / 16) ∧
      json.hexValue ((json.escapeASCII b).getD 5 0) = some (b.toNat % 16) ∧
      utf8.EncodeRune b.toNat = [b]))) (by decide) b
  rcases of_decide_eq_true this h1 h2 with ⟨hl, hh, hu, hs⟩ | ⟨ht, hl, h0, hx, hy, he⟩
  · left
    match hm : json.escapeASCII b, hl, hh with
    | [a, e], _, hh =>
      simp only [List.head?_cons, Option.some.injEq] at hh
      subst hh
      rw [hm] at hu hs
      exact ⟨e, rfl, hu, hs⟩
  · right
    match hm : json.escapeASCII b, hl, ht with
    | [a1, a2, a3, a4, x, y], _, ht =>
      simp only [List.take, List.cons.injEq, and_true] at ht
      obtain ⟨r1, r2, r3, r4⟩ := ht
      subst r1 r2 r3 r4
      rw [hm] at hx hy
      exact ⟨x, y, rfl, h0, hx, hy, he⟩

/-- The input starts with a line separator exactly when its first three bytes are those
of U+2028 or U+2029. -/
theorem isLineSeparator_cases (s : Bytes) (h : json.isLineSeparator s = true) :
    ∃ c2 rest, s = 0xE2 :: 0x80 :: c2 :: rest ∧ (c2 = 0xA8 ∨ c2 = 0xA9) := by
  match s, h with
  | b :: c1 :: c2 :: rest, h =>
    simp only [json.isLineSeparator, Bool.and_eq_true, beq_iff_eq, Bool.or_eq_true] at h
    obtain ⟨⟨hb, hc1⟩, hc2⟩ := h
    subst hb hc1
    exact ⟨c2, rest, rfl, hc2⟩

/-- In copy mode the encoder's loop writes the pending bytes as they are. -/
theorem escapeLoop_copy (k : Nat) : ∀ (s : Bytes), k ≤ s.length →
    json.escapeLoop k true s = s.take k ++ json.escapeLoop 0 true (s.drop k) := by
  induction k with
  | zero => intro s _; rfl
  | succ k ih =>
    intro s h
    cases s with
    | nil => simp at h
    | cons b s =>
      simp only [List.length_cons, Nat.add_le_add_iff_right] at h
      simp [json.escapeLoop, ih s h]

/-- A string that is valid after `k` pending bytes has these bytes. -/
theorem validLoop_length (k : Nat) : ∀ (s : Bytes), utf8.validLoop k s = true → k ≤ s.length := by
  induction k with
  | zero => intro s _; exact Nat.zero_le _
  | succ k ih =>
    intro s h
    cases s with
    | nil => simp [utf8.validLoop] at h
    | cons b s =>
      simp only [utf8.validLoop] at h
      simp only [List.length_cons, Nat.add_le_add_iff_right]
      exact ih s h

/-- The length of the sequence at the head of the input depends only on the bytes of the
sequence. -/
theorem sequenceLength_of_head (b : UInt8) (s tail : Bytes)
    (hn : json.sequenceLength (b :: s) ≠ 0) :
    json.sequenceLength (b :: (s.take (json.sequenceLength (b :: s) - 1) ++ tail))
      = json.sequenceLength (b :: s) := by
  match s with
  | [] => simp [json.sequenceLength] at hn
  | [c1] =>
    simp only [json.sequenceLength] at hn
    split_ifs at hn <;>
      first
      | exact absurd rfl hn
      | (simp only [json.sequenceLength, *, if_true, if_false, Bool.false_eq_true,
          Nat.add_one_sub_one, List.take, List.cons_append, List.nil_append])
  | [c1, c2] =>
    simp only [json.sequenceLength] at hn
    split_ifs at hn <;>
      first
      | exact absurd rfl hn
      | (simp only [json.sequenceLength, *, if_true, if_false, Bool.false_eq_true,
          Nat.add_one_sub_one, List.take, List.cons_append, List.nil_append])
  | c1 :: c2 :: c3 :: rest =>
    simp only [json.sequenceLength] at hn
    split_ifs at hn <;>
      first
      | exact absurd rfl hn
      | (simp only [json.sequenceLength, *, if_true, if_false, Bool.false_eq_true,
          Nat.add_one_sub_one, List.take, List.cons_append, List.nil_append])

/-- The backslash is not the quote. -/
theorem byte_92_ne_quote : ((92 : UInt8) == ch '"') = false := by decide

/-- The backslash is the backslash. -/
theorem byte_92_eq : ((92 : UInt8) == 92) = true := by decide

/-- The letter `u` is the letter `u`. -/
theorem byte_u_eq : (ch 'u' == ch 'u') = true := by decide

/-- Decoding the string that the encoder writes for the rest of a valid UTF-8 string
gives that rest back, from every state of the two loops. -/
theorem unquoteLoop_escapeLoop (s : Bytes) :
    ∀ (pending : Nat) (rest : Bytes), utf8.validLoop pending s = true →
      json.unquoteLoop pending true (json.escapeLoop pending true s ++ ch '"' :: rest)
        = some (s, rest) := by
  induction s with
  | nil =>
    intro pending rest h
    cases pending with
    | zero => rfl
    | succ p => simp [utf8.validLoop] at h
  | cons b s ih =>
    intro pending rest h
    cases pending with
    | succ p =>
      simp only [utf8.validLoop] at h
      simp [json.escapeLoop, json.unquoteLoop, ih p rest h]
    | zero =>
      by_cases hb : b < 0x80
      · simp only [utf8.validLoop, hb, if_true] at h
        simp only [json.escapeLoop, hb, if_true]
        by_cases hs : json.htmlSafe b = true
        · obtain ⟨h1, h2, h3, h4⟩ := htmlSafe_plain b hs
          simp [hs, json.unquoteLoop, h1, h2, h3, h4, ih 0 rest h]
        · have hs2 : json.htmlSafe b = false := by simpa using hs
          rcases escapeASCII_cases b hb hs2 with ⟨e, he, hu, hse⟩ | ⟨x, y, he, h0, hx, hy, hr⟩
          · simp [hs2, he, json.unquoteLoop, hu, hse, unquoteLoop_zero false, ih 0 rest h,
              byte_92_ne_quote]
          · have hval : b.toNat / 16 * 16 + b.toNat % 16 = b.toNat := by
              omega
            have hlt : b.toNat < 256 := b.toNat_lt
            have hesc : ∀ input, json.escapedRune b.toNat input = ([b], 5) := by
              intro input
              have h1 : (decide (0xD800 ≤ b.toNat) && decide (b.toNat < 0xE000)) = false := by
                simp; omega
              simp only [json.escapedRune, h1, hr]
              simp
            simp [hs2, he, json.unquoteLoop, json.getu4, h0, hx, hy, hval, hesc,
              unquoteLoop_zero false, ih 0 rest h, byte_92_ne_quote, byte_u_eq]
      · obtain ⟨n1, n2, n3⟩ := byte_high b hb
        simp only [utf8.validLoop, hb, if_false] at h
        by_cases hz : (json.sequenceLength (b :: s) == 0) = true
        · simp [hz] at h
        · simp only [hz, if_false, Bool.false_eq_true] at h
          have hz2 : json.sequenceLength (b :: s) ≠ 0 := by simpa using hz
          by_cases hl : json.isLineSeparator (b :: s) = true
          · obtain ⟨c2, s2, hs, hc⟩ := isLineSeparator_cases _ hl
            simp only [List.cons.injEq] at hs
            obtain ⟨hb2, hs⟩ := hs
            subst hb2 hs
            have hn : json.sequenceLength (0xE2 :: 0x80 :: c2 :: s2) = 3 := by
              rcases hc with hc | hc <;> subst hc <;> rfl
            rw [hn] at h
            have hv := ih 2 rest h
            simp [json.escapeLoop, json.unquoteLoop] at hv
            have hesc : json.escapeLoop 0 true (0xE2 :: 0x80 :: c2 :: s2) =
                [92, ch 'u', ch '2', ch '0', ch '2', json.hex (c2 &&& 15)] ++
                  json.escapeLoop 0 true s2 := by
              rcases hc with hc | hc <;> subst hc <;>
                simp [json.escapeLoop, hn, json.isLineSeparator, escapeLoop_zero false]
            rw [hesc]
            have hg8 : ∀ input, json.getu4
                (92 :: ch 'u' :: ch '2' :: ch '0' :: ch '2' :: json.hex (0xA8 &&& 15) :: input)
                  = some 0x2028 := fun _ => rfl
            have hg9 : ∀ input, json.getu4
                (92 :: ch 'u' :: ch '2' :: ch '0' :: ch '2' :: json.hex (0xA9 &&& 15) :: input)
                  = some 0x2029 := fun _ => rfl
            have he8 : ∀ input, json.escapedRune 0x2028 input = ([0xE2, 0x80, 0xA8], 5) :=
              fun _ => rfl
            have he9 : ∀ input, json.escapedRune 0x2029 input = ([0xE2, 0x80, 0xA9], 5) :=
              fun _ => rfl
            rcases hc with hc | hc <;> subst hc <;>
              simp [json.unquoteLoop, hv, hg8, hg9, he8, he9, byte_92_ne_quote, byte_u_eq,
                unquoteLoop_zero false]
          · have hl2 : json.isLineSeparator (b :: s) = false := by simpa using hl
            have hne1 : (b == ch '"') = false := by simpa using n1
            have hne2 : (b == 92) = false := by simpa using n2
            have hseq : json.sequenceLength
                (b :: (json.escapeLoop (json.sequenceLength (b :: s) - 1) true s ++ ch '"' :: rest))
                  = json.sequenceLength (b :: s) := by
              rw [escapeLoop_copy _ s (validLoop_length _ s h), List.append_assoc]
              exact sequenceLength_of_head b s _ hz2
            simp only [json.escapeLoop, hb, if_false, hz, hl2, Bool.false_eq_true]
            simp [json.unquoteLoop, hne1, hne2, n3, hb, hz2, hseq, ih _ rest h]

/-! ### Decimal integers -/

/-- The digits that `Nat.toDigitsCore` writes come before the digits it is given. -/
theorem toDigitsCore_append (fuel : Nat) : ∀ (n : Nat) (ds : List Char),
    Nat.toDigitsCore 10 fuel n ds = Nat.toDigitsCore 10 fuel n [] ++ ds := by
  induction fuel with
  | zero => intro n ds; rfl
  | succ f ih =>
    intro n ds
    simp only [Nat.toDigitsCore]
    by_cases h0 : n / 10 = 0
    · simp [h0]
    · simp only [h0, if_false]
      rw [ih (n / 10) (Nat.digitChar (n % 10) :: ds), ih (n / 10) [Nat.digitChar (n % 10)]]
      simp

/-- The digits that `Nat.toDigitsCore` writes do not depend on the fuel, once it
suffices. -/
theorem toDigitsCore_fuel (fuel1 : Nat) : ∀ (fuel2 n : Nat), n < fuel1 → n < fuel2 →
    Nat.toDigitsCore 10 fuel1 n [] = Nat.toDigitsCore 10 fuel2 n [] := by
  induction fuel1 with
  | zero => intro fuel2 n h; omega
  | succ f1 ih =>
    intro fuel2 n h1 h2
    cases fuel2 with
    | zero => omega
    | succ f2 =>
      simp only [Nat.toDigitsCore]
      by_cases h0 : n / 10 = 0
      · simp [h0]
      · simp only [h0, if_false]
        rw [toDigitsCore_append f1, toDigitsCore_append f2,
          ih f2 (n / 10) (by omega) (by omega)]

/-- The decimal digits of a number: those of its tenth, then its last digit. -/
theorem toDigits_step (n : Nat) :
    Nat.toDigits 10 n =
      if n < 10 then [Nat.digitChar n]
      else Nat.toDigits 10 (n / 10) ++ [Nat.digitChar (n % 10)] := by
  by_cases h : n < 10
  · have h0 : n / 10 = 0 := by omega
    have h1 : n % 10 = n := by omega
    simp [h, Nat.toDigits, Nat.toDigitsCore, h0, h1]
  · have h0 : ¬ n / 10 = 0 := by omega
    have e : Nat.toDigits 10 n =
        Nat.toDigitsCore 10 n (n / 10) [Nat.digitChar (n % 10)] := by
      simp [Nat.toDigits, Nat.toDigitsCore, h0]
    simp only [h, if_false]
    rw [e, toDigitsCore_append n, toDigitsCore_fuel n (n / 10 + 1) (n / 10) (by omega) (by omega)]
    rfl

/-- The byte of a decimal digit. -/
theorem digit_byte (d : Nat) (h : d < 10) :
    json.isDigit (ch (Nat.digitChar d)) = true ∧
    (ch '0' ≤ ch (Nat.digitChar d) && ch (Nat.digitChar d) ≤ ch '9') = true ∧
    (ch (Nat.digitChar d) - ch '0').toNat = d ∧
    (ch (Nat.digitChar d) == ch '-') = false ∧
    ((ch (Nat.digitChar d) == ch '0') = true ↔ d = 0) := by
  interval_cases d <;> decide

/-- The bytes of the decimal digits of a number. -/
theorem digits_cases (n : Nat) :
    (n = 0 ∧ (Nat.toDigits 10 n).map ch = [ch '0']) ∨
    (0 < n ∧ ∃ c cs, (Nat.toDigits 10 n).map ch = c :: cs ∧ json.isDigit c = true ∧
      (c == ch '0') = false ∧ (c == ch '-') = false) := by
  induction n using Nat.strong_induction_on with
  | _ n ih =>
    by_cases h0 : n = 0
    · left
      subst h0
      exact ⟨rfl, rfl⟩
    · right
      refine ⟨by omega, ?_⟩
      rw [toDigits_step]
      by_cases h : n < 10
      · obtain ⟨h1, _, _, h4, h5⟩ := digit_byte n h
        refine ⟨ch (Nat.digitChar n), [], by simp [h], h1, ?_, h4⟩
        cases hc : ch (Nat.digitChar n) == ch '0' with
        | false => rfl
        | true => exact absurd (h5.1 hc) h0
      · rcases ih (n / 10) (by omega) with ⟨hz, _⟩ | ⟨_, c, cs, hcs, h1, h2, h3⟩
        · omega
        · refine ⟨c, cs ++ [ch (Nat.digitChar (n % 10))], ?_, h1, h2, h3⟩
          simp [h, hcs]

/-- Every byte of the decimal digits of a number is a digit. -/
theorem digits_all (n : Nat) : ∀ c ∈ (Nat.toDigits 10 n).map ch, json.isDigit c = true := by
  induction n using Nat.strong_induction_on with
  | _ n ih =>
    rw [toDigits_step]
    by_cases h : n < 10
    · intro c hc
      simp only [h, if_true, List.map_cons, List.map_nil, List.mem_singleton] at hc
      subst hc
      exact (digit_byte n h).1
    · intro c hc
      simp only [h, if_false, List.map_append, List.map_cons, List.map_nil, List.mem_append,
        List.mem_singleton] at hc
      rcases hc with hc | hc
      · exact ih (n / 10) (by omega) c hc
      · subst hc
        exact (digit_byte (n % 10) (by omega)).1

/-- Reading decimal digits: after the digits of `n`, the value read so far is shifted
by their number and `n` is added. -/
theorem parseDigits_digits (n : Nat) : ∀ (acc : Nat) (tail : Bytes),
    strconv.parseDigits acc ((Nat.toDigits 10 n).map ch ++ tail) =
      strconv.parseDigits (acc * 10 ^ (Nat.toDigits 10 n).length + n) tail := by
  induction n using Nat.strong_induction_on with
  | _ n ih =>
    intro acc tail
    rw [toDigits_step]
    by_cases h : n < 10
    · obtain ⟨_, h2, h3, _, _⟩ := digit_byte n h
      simp [h, strconv.parseDigits, h2, h3]
    · obtain ⟨_, h2, h3, _, _⟩ := digit_byte (n % 10) (by omega)
      simp only [h, if_false, List.map_append, List.map_cons, List.map_nil, List.append_assoc,
        List.singleton_append, List.length_append, List.length_singleton]
      rw [ih (n / 10) (by omega)]
      simp only [strconv.parseDigits, h2, if_true, h3]
      congr 1
      rw [Nat.pow_succ]
      have := Nat.div_add_mod n 10
      nlinarith [this]

/-- Reading the decimal digits of a number gives the number. -/
theorem parseDigits_toDigits (n : Nat) :
    strconv.parseDigits 0 ((Nat.toDigits 10 n).map ch) = some n := by
  have h := parseDigits_digits n 0 []
  simp only [List.append_nil, Nat.zero_mul, Nat.zero_add] at h
  rw [h]
  rfl

/-- The first byte after a value is no part of a number. -/
theorem delimited_head (c : UInt8) (rest : Bytes) (h : json.delimited (c :: rest) = true) :
    json.isDigit c = false ∧ (c == ch '.') = false ∧ (c == ch 'e') = false ∧
      (c == ch 'E') = false ∧ json.isSpace c = false := by
  simp only [json.delimited, Bool.or_eq_true, beq_iff_eq] at h
  rcases h with (h | h) | h <;> subst h <;> decide

/-- The digits at the head of the digits of a number followed by the end of a value. -/
theorem takeWhile_digits (ds rest : Bytes) (hd : ∀ c ∈ ds, json.isDigit c = true)
    (hr : json.delimited rest = true) :
    (ds ++ rest).takeWhile json.isDigit = ds ∧ (ds ++ rest).dropWhile json.isDigit = rest := by
  induction ds with
  | nil =>
    cases rest with
    | nil => exact ⟨rfl, rfl⟩
    | cons c rest =>
      have h := (delimited_head c rest hr).1
      simp [List.takeWhile, List.dropWhile, h]
  | cons d ds ih =>
    have h1 := hd d (List.mem_cons_self _ _)
    have h2 := ih fun c hc => hd c (List.mem_cons_of_mem _ hc)
    simp [List.takeWhile, List.dropWhile, h1, h2.1, h2.2]

/-- The scanner reads the decimal digits of a number, followed by the end of a value, as
one number literal. -/
theorem scanNumber_digits (c : UInt8) (cs rest sign : Bytes)
    (hsign : sign = [] ∨ sign = [ch '-'])
    (hc : json.isDigit c = true) (hm : (c == ch '-') = false)
    (hz : (c == ch '0') = true → cs = [])
    (hd : ∀ d ∈ cs, json.isDigit d = true) (hr : json.delimited rest = true) :
    json.scanNumber (sign ++ c :: cs ++ rest) = some (sign ++ c :: cs, rest) := by
  have hs : (match sign ++ c :: cs ++ rest with
      | b :: tail => if b == ch '-' then ([b], tail) else ([], sign ++ c :: cs ++ rest)
      | [] => (([], []) : Bytes × Bytes)) = (sign, c :: (cs ++ rest)) := by
    rcases hsign with h | h <;> subst h <;> simp [hm]
  have ht := takeWhile_digits cs rest hd hr
  unfold json.scanNumber
  simp only [hs, hc, Bool.not_true, Bool.false_eq_true, if_false]
  by_cases h0 : (c == ch '0') = true
  · have hcs := hz h0
    subst hcs
    cases rest with
    | nil => simp [h0]
    | cons r rest =>
      obtain ⟨_, q1, q2, q3, _⟩ := delimited_head r rest hr
      simp [h0, q1, q2, q3]
  · have h0f : (c == ch '0') = false := by simpa using h0
    cases rest with
    | nil =>
      simp only [List.append_nil] at ht
      simp [h0f, ht.1, ht.2]
    | cons r rest =>
      obtain ⟨_, q1, q2, q3, _⟩ := delimited_head r rest hr
      simp [h0f, ht.1, ht.2, q1, q2, q3]

/-- The scanner reads what `strconv.Itoa` writes, followed by the end of a value, as one
number literal. -/
theorem scanNumber_Itoa (n : Int) (rest : Bytes) (hr : json.delimited rest = true) :
    json.scanNumber (strconv.Itoa n ++ rest) = some (strconv.Itoa n, rest) := by
  cases n with
  | ofNat m =>
    simp only [strconv.Itoa]
    rcases digits_cases m with ⟨hm, hds⟩ | ⟨_, c, cs, hds, h1, h2, h3⟩
    · rw [hds]
      exact scanNumber_digits (ch '0') [] rest [] (Or.inl rfl) (by decide) (by decide)
        (fun _ => rfl) (fun _ h => nomatch h) hr
    · have hall := digits_all m
      rw [hds] at hall ⊢
      have := scanNumber_digits c cs rest [] (Or.inl rfl) h1 h3 (by simp [h2])
        (fun d hd => hall d (List.mem_cons_of_mem _ hd)) hr
      simpa using this
  | negSucc m =>
    simp only [strconv.Itoa]
    rcases digits_cases (m + 1) with ⟨hm, _⟩ | ⟨_, c, cs, hds, h1, h2, h3⟩
    · omega
    · have hall := digits_all (m + 1)
      rw [hds] at hall ⊢
      have := scanNumber_digits c cs rest [ch '-'] (Or.inr rfl) h1 h3 (by simp [h2])
        (fun d hd => hall d (List.mem_cons_of_mem _ hd)) hr
      simpa using this

/-- Go `strconv.ParseInt` reads back what `strconv.Itoa` writes for a value of
`int64`. -/
theorem ParseInt_Itoa (n : Int) (h1 : -9223372036854775808 ≤ n) (h2 : n < 9223372036854775808) :
    strconv.ParseInt (strconv.Itoa n) = some n := by
  cases n with
  | ofNat m =>
    simp only [strconv.Itoa]
    have hp := parseDigits_toDigits m
    have hm : m < 9223372036854775808 := by
      have : ((m : Nat) : Int) < 9223372036854775808 := h2
      omega
    rcases digits_cases m with ⟨_, hds⟩ | ⟨_, c, cs, hds, _, _, h3⟩
    · rw [hds] at hp ⊢
      simp only [strconv.ParseInt]
      rw [if_neg (by decide), hp]
      simp [hm]
    · rw [hds] at hp ⊢
      simp only [strconv.ParseInt, h3, Bool.false_eq_true, if_false]
      rw [hp]
      simp [hm]
  | negSucc m =>
    simp only [strconv.Itoa]
    have hp := parseDigits_toDigits (m + 1)
    have hm : m + 1 ≤ 9223372036854775808 := by
      have h3 : -9223372036854775808 ≤ Int.negSucc m := h1
      rw [Int.negSucc_eq] at h3
      omega
    rcases digits_cases (m + 1) with ⟨h0, _⟩ | ⟨_, c, cs, hds, _, _, _⟩
    · omega
    · rw [hds] at hp ⊢
      simp only [strconv.ParseInt]
      rw [if_pos (by decide)]
      simp only [hp, hm, if_true]
      rfl

/-! ### Reading back what the encoder writes -/

set_option maxRecDepth 100000 in
/-- A byte that starts a value is no white space and closes or separates nothing. -/
theorem valueStart_plain (c : UInt8) (h : json.valueStart c = true) :
    json.isSpace c = false ∧ (c == 93) = false ∧ (c == 125) = false ∧
      (c == ch ',') = false := by
  have := forall_byte (fun c => decide (json.valueStart c = true →
    json.isSpace c = false ∧ (c == 93) = false ∧ (c == 125) = false ∧
      (c == ch ',') = false)) (by decide) c
  exact of_decide_eq_true this h

/-- White space is skipped up to a byte that is none. -/
theorem skipSpace_cons (c : UInt8) (rest : Bytes) (h : json.isSpace c = false) :
    json.skipSpace (c :: rest) = c :: rest := by
  simp [json.skipSpace, List.dropWhile, h]

/-- A comma ends a value. -/
theorem delimited_comma (rest : Bytes) : json.delimited (ch ',' :: rest) = true := rfl

/-- A closing bracket ends a value. -/
theorem delimited_bracket (rest : Bytes) : json.delimited (93 :: rest) = true := rfl

/-- A closing brace ends a value. -/
theorem delimited_brace (rest : Bytes) : json.delimited (125 :: rest) = true := rfl

/-- The closing bracket is not the comma. -/
theorem byte_93_ne_comma : ((93 : UInt8) == ch ',') = false := by decide

/-- The closing brace is not the comma. -/
theorem byte_125_ne_comma : ((125 : UInt8) == ch ',') = false := by decide

/-- The comma is the comma. -/
theorem byte_comma_eq : (ch ',' == ch ',') = true := by decide

/-- The parser reads the elements that the encoder writes between brackets. -/
theorem parseElems_join (parts : List Bytes) : ∀ (trees : List json.Tree),
    List.Forall₂ json.ParsesTo parts trees → parts ≠ [] →
      json.sizeElems trees ≤ 2 * (strings.Join parts [ch ',']).length + 2 ∧
      ∀ fuel rest, json.sizeElems trees ≤ fuel →
        json.parseElems fuel (strings.Join parts [ch ','] ++ 93 :: rest) = some (trees, rest) := by
  induction parts with
  | nil => intro trees _ h; exact absurd rfl h
  | cons p ps ih =>
    intro trees h _
    cases h with
    | cons hp hps =>
      rename_i tree ts
      obtain ⟨_, hsize, hparse⟩ := hp
      cases ps with
      | nil =>
        cases hps
        refine ⟨by simp only [json.sizeElems, strings.Join]; omega, fun fuel rest hf => ?_⟩
        cases fuel with
        | zero => simp [json.sizeElems] at hf
        | succ fuel =>
          simp only [json.sizeElems] at hf
          have h1 := hparse fuel (93 :: rest) (by omega) (delimited_bracket rest)
          simp only [strings.Join, json.parseElems, h1]
          rw [skipSpace_cons 93 rest (by decide)]
          simp [byte_93_ne_comma]
      | cons q qs =>
        obtain ⟨hb, hpr⟩ := ih ts hps (by simp)
        refine ⟨?_, fun fuel rest hf => ?_⟩
        · simp only [json.sizeElems, strings.Join, List.length_append, List.length_cons,
            List.length_nil] at hb ⊢
          omega
        · cases fuel with
          | zero => simp [json.sizeElems] at hf
          | succ fuel =>
            simp only [json.sizeElems] at hf
            have h1 := hparse fuel (ch ',' :: (strings.Join (q :: qs) [ch ','] ++ 93 :: rest))
              (by omega) (delimited_comma _)
            have h2 := hpr fuel rest (by omega)
            simp only [strings.Join, json.parseElems, List.append_assoc, List.singleton_append,
              List.cons_append, List.nil_append, h1]
            rw [skipSpace_cons (ch ',') _ (by decide)]
            simp [h2, byte_comma_eq]

/-- The parser reads one member that the encoder writes, up to what follows it. -/
theorem parseMembers_head (key enc tail : Bytes) (tree : json.Tree) (fuel : Nat)
    (hk : utf8.ValidString key = true) (hp : json.ParsesTo enc tree)
    (hf : tree.size ≤ fuel) (hd : json.delimited tail = true) :
    json.parseMembers (fuel + 1) (json.quote key ++ [ch ':'] ++ enc ++ tail) =
      match json.skipSpace tail with
      | [] => none
      | c :: r2 =>
        if c == ch ',' then
          (json.parseMembers fuel r2).map fun m => ((key, tree) :: m.1, m.2)
        else if c == 125 then some ([(key, tree)], r2)
        else none := by
  have hs : json.quote key ++ [ch ':'] ++ enc ++ tail =
      ch '"' :: (json.escapeLoop 0 true key ++ ch '"' :: ch ':' :: (enc ++ tail)) := by
    simp [json.quote, json.escapeString]
  have hu := unquoteLoop_escapeLoop key 0 (ch ':' :: (enc ++ tail)) hk
  have hv := hp.2.2 fuel tail hf hd
  rw [hs]
  simp only [json.parseMembers]
  rw [skipSpace_cons (ch '"') _ (by decide)]
  simp only [hu]
  rw [skipSpace_cons (ch ':') _ (by decide)]
  simp only [hv]
  simp

/-- The parser reads the members that the encoder writes between braces. -/
theorem parseMembers_join (parts : List Bytes) : ∀ (members : List (Bytes × json.Tree)),
    List.Forall₂ json.MemberParsesTo parts members → parts ≠ [] →
      json.sizeMembers members ≤ 2 * (strings.Join parts [ch ',']).length + 2 ∧
      ∀ fuel rest, json.sizeMembers members ≤ fuel →
        json.parseMembers fuel (strings.Join parts [ch ','] ++ 125 :: rest)
          = some (members, rest) := by
  induction parts with
  | nil => intro members _ h; exact absurd rfl h
  | cons p ps ih =>
    intro members h _
    cases h with
    | cons hp hps =>
      rename_i member ms
      obtain ⟨key, tree⟩ := member
      obtain ⟨hk, enc, hpe, hpt⟩ := hp
      simp only at hk hpe hpt
      subst hpe
      have hsize := hpt.2.1
      cases ps with
      | nil =>
        cases hps
        refine ⟨?_, fun fuel rest hf => ?_⟩
        · simp only [json.sizeMembers, strings.Join, List.length_append]
          omega
        · cases fuel with
          | zero => simp [json.sizeMembers] at hf
          | succ fuel =>
            simp only [json.sizeMembers] at hf
            simp only [strings.Join]
            rw [parseMembers_head key enc (125 :: rest) tree fuel hk hpt (by omega)
              (delimited_brace rest), skipSpace_cons 125 rest (by decide)]
            simp [byte_125_ne_comma]
      | cons q qs =>
        obtain ⟨hb, hpr⟩ := ih ms hps (by simp)
        refine ⟨?_, fun fuel rest hf => ?_⟩
        · simp only [json.sizeMembers, strings.Join, List.length_append, List.length_cons,
            List.length_nil] at hb ⊢
          omega
        · cases fuel with
          | zero => simp [json.sizeMembers] at hf
          | succ fuel =>
            simp only [json.sizeMembers] at hf
            have h2 := hpr fuel rest (by omega)
            have hj : strings.Join ((json.quote key ++ [ch ':'] ++ enc) :: q :: qs) [ch ','] ++
                125 :: rest = json.quote key ++ [ch ':'] ++ enc ++
                  (ch ',' :: (strings.Join (q :: qs) [ch ','] ++ 125 :: rest)) := by
              simp [strings.Join]
            rw [hj, parseMembers_head key enc _ tree fuel hk hpt (by omega) (delimited_comma _),
              skipSpace_cons (ch ',') _ (by decide)]
            simp [h2, byte_comma_eq]

/-! ### Storing a tree into a fresh value -/

/-- Behind the pointers of a zero value is the zero value of the base type. -/
theorem indirect_zero (t : reflect.GoType) : t.indirect t.zero = t.base.zero := by
  cases t <;> simp [reflect.GoType.indirect, reflect.GoType.zero, reflect.GoType.base]

/-- A JSON value other than `null` is stored into a nil pointer by allocating the pointer
and storing into what it points to. -/
theorem store_ptr (elem : reflect.GoType) (tree : json.Tree) (hn : tree ≠ .null) :
    json.store (.ptr elem) (.ptr none) tree =
      (.ptr (some (json.store elem elem.zero tree).1), (json.store elem elem.zero tree).2) := by
  cases tree with
  | null => exact absurd rfl hn
  | bool b =>
    simp only [json.store, reflect.GoType.base, reflect.GoType.wrap, reflect.GoType.indirect,
      indirect_zero]
    split <;> rfl
  | number literal =>
    simp only [json.store, reflect.GoType.base, reflect.GoType.wrap, reflect.GoType.indirect,
      indirect_zero]
    split
    · split <;> rfl
    · rfl
  | string s =>
    simp only [json.store, reflect.GoType.base, reflect.GoType.wrap, reflect.GoType.indirect,
      indirect_zero]
    split <;> rfl
  | array elems =>
    simp only [json.store, reflect.GoType.base, reflect.GoType.wrap, reflect.GoType.indirect,
      indirect_zero]
    split <;> rfl
  | object members =>
    simp only [json.store, reflect.GoType.base, reflect.GoType.wrap, reflect.GoType.indirect,
      indirect_zero]
    split <;> rfl

/-- The elements of an array are stored into a nil slice one by one. -/
theorem storeElems_nil (elem : reflect.GoType) (elems : List reflect.Value)
    (trees : List json.Tree)
    (h : List.Forall₂ (fun v tree => json.store elem elem.zero tree = (v, none)) elems trees) :
    json.storeElems elem [] trees = (elems, none) := by
  induction h with
  | nil => rfl
  | cons hv _ ih =>
    simp only [json.storeElems, List.head?_nil, Option.getD_none, List.tail_nil, hv, ih]
    rfl

/-- No name occurs twice exactly when the list has no duplicates. -/
theorem distinctNames_iff (names : List Bytes) : json.distinctNames names = true ↔ names.Nodup := by
  induction names with
  | nil => simp [json.distinctNames]
  | cons a rest ih => simp [json.distinctNames, ih]

/-- Storing under a key that the entries do not have adds an entry at the end. -/
theorem setEntry_new (entries : List (Bytes × reflect.Value)) (key : Bytes) (w : reflect.Value)
    (h : key ∉ entries.map fun e => e.1) : json.setEntry entries key w = entries ++ [(key, w)] := by
  induction entries with
  | nil => rfl
  | cons e rest ih =>
    obtain ⟨k, v⟩ := e
    simp only [List.map_cons, List.mem_cons, not_or] at h
    have hk : (k == key) = false := by
      simpa using fun hkk => h.1 hkk.symm
    simp [json.setEntry, hk, ih h.2]

/-- The members of an object with distinct names are stored into a map one after the
other. -/
theorem storeEntries_append (elem : reflect.GoType) (entries : List (Bytes × reflect.Value)) :
    ∀ (trees : List (Bytes × json.Tree)),
      List.Forall₂ (fun (kv : Bytes × reflect.Value) (kt : Bytes × json.Tree) =>
        kv.1 = kt.1 ∧ json.store elem elem.zero kt.2 = (kv.2, none)) entries trees →
      ∀ (acc : List (Bytes × reflect.Value)),
        ((acc.map fun e => e.1) ++ (entries.map fun e => e.1)).Nodup →
        json.storeEntries elem acc trees = (acc ++ entries, none) := by
  induction entries with
  | nil =>
    intro trees h acc _
    cases h
    simp [json.storeEntries]
  | cons kv entries ih =>
    intro trees h acc hnd
    cases h with
    | cons hv hrest =>
      rename_i kt ts
      obtain ⟨k, v⟩ := kv
      obtain ⟨k2, tree⟩ := kt
      obtain ⟨hk, hs⟩ := hv
      simp only at hk hs
      subst hk
      have hnew : k ∉ acc.map fun e => e.1 := by
        intro hmem
        exact (List.nodup_append.1 hnd).2.2 hmem (by simp)
      have hnd2 : (((acc ++ [(k, v)]).map fun e => e.1) ++ (entries.map fun e => e.1)).Nodup := by
        simpa using hnd
      simp only [json.storeEntries, hs, setEntry_new acc k v hnew, ih ts hrest (acc ++ [(k, v)]) hnd2]
      simp [json.firstError]

/-- Lookups and updates of the field of a name that no earlier field has. -/
theorem field_lookup (name : Bytes) (o : Bool) (t : reflect.GoType) (v w : reflect.Value)
    (ftsPre ftsSuf : List (Bytes × Bool × reflect.GoType))
    (pre suf : List (Bytes × Bool × reflect.Value))
    (hn : (ftsPre.map fun f => f.1) = pre.map fun f => f.1)
    (hnew : name ∉ pre.map fun f => f.1) :
    json.selectField ((ftsPre ++ (name, o, t) :: ftsSuf).map fun f => f.1) name = some name ∧
    json.fieldType (ftsPre ++ (name, o, t) :: ftsSuf) name = some t ∧
    json.fieldValue (pre ++ (name, o, v) :: suf) name = some v ∧
    json.setField (pre ++ (name, o, v) :: suf) name w = pre ++ (name, o, w) :: suf := by
  refine ⟨by simp [json.selectField], ?_, ?_, ?_⟩
  · rw [← hn] at hnew
    clear hn
    induction ftsPre with
    | nil => simp [json.fieldType]
    | cons f rest ih =>
      obtain ⟨n, o2, t2⟩ := f
      simp only [List.map_cons, List.mem_cons, not_or] at hnew
      have hk : (n == name) = false := by simpa using fun hkk => hnew.1 hkk.symm
      simp [json.fieldType, hk, ih hnew.2]
  · clear hn
    induction pre with
    | nil => simp [json.fieldValue]
    | cons f rest ih =>
      obtain ⟨n, o2, t2⟩ := f
      simp only [List.map_cons, List.mem_cons, not_or] at hnew
      have hk : (n == name) = false := by simpa using fun hkk => hnew.1 hkk.symm
      simp [json.fieldValue, hk, ih hnew.2]
  · clear hn
    induction pre with
    | nil => simp [json.setField]
    | cons f rest ih =>
      obtain ⟨n, o2, t2⟩ := f
      simp only [List.map_cons, List.mem_cons, not_or] at hnew
      have hk : (n == name) = false := by simpa using fun hkk => hnew.1 hkk.symm
      simp [json.setField, hk, ih hnew.2]

/-- The members that the encoder writes for the fields of a struct are stored into the
zero struct field by field, and give the struct back. -/
theorem storeMembers_fields (ftsSuf : List (Bytes × Bool × reflect.GoType))
    (suf : List (Bytes × Bool × reflect.Value)) (members : List (Bytes × json.Tree))
    (h : json.FieldsRestored ftsSuf suf members) :
    ∀ (ftsPre : List (Bytes × Bool × reflect.GoType)) (pre : List (Bytes × Bool × reflect.Value)),
      ((ftsPre.map fun f => f.1) = pre.map fun f => f.1) →
      ((pre.map fun f => f.1) ++ (suf.map fun f => f.1)).Nodup →
      json.storeMembers (ftsPre ++ ftsSuf) (pre ++ reflect.GoType.zeroFields ftsSuf) members
        = (pre ++ suf, none) := by
  induction h with
  | nil => intro ftsPre pre _ _; simp [json.storeMembers, reflect.GoType.zeroFields]
  | omitted name o t fts fields members _ ih =>
    intro ftsPre pre hn hnd
    have := ih (ftsPre ++ [(name, o, t)]) (pre ++ [(name, o, t.zero)]) (by simp [hn])
      (by simpa using hnd)
    simpa [reflect.GoType.zeroFields] using this
  | kept name o t v tree fts fields members hs _ ih =>
    intro ftsPre pre hn hnd
    have hnew : name ∉ pre.map fun f => f.1 := by
      intro hmem
      exact (List.nodup_append.1 hnd).2.2 hmem (by simp)
    obtain ⟨h1, h2, h3, h4⟩ := field_lookup name o t t.zero v ftsPre fts pre
      (reflect.GoType.zeroFields fts) hn hnew
    have := ih (ftsPre ++ [(name, o, t)]) (pre ++ [(name, o, v)]) (by simp [hn])
      (by simpa using hnd)
    simp only [List.append_assoc, List.singleton_append] at this
    simp only [json.storeMembers, reflect.GoType.zeroFields, h1, h2, h3, Option.getD_some, hs,
      h4, this]
    simp [json.firstError]

/-! ### The encodings of the values, read back -/

theorem ch_quote : ch '"' = 34 := rfl

/-- The byte of the minus sign. -/
theorem ch_minus : ch '-' = 45 := rfl

/-- The byte of the digit zero. -/
theorem ch_zero : ch '0' = 48 := rfl

/-- The byte of the digit nine. -/
theorem ch_nine : ch '9' = 57 := rfl

/-- The bytes of `true`. -/
theorem str_true : str "true" = [116, 114, 117, 101] := by decide

/-- The bytes of `false`. -/
theorem str_false : str "false" = [102, 97, 108, 115, 101] := by decide

/-- The bytes of `null`. -/
theorem str_null : str "null" = [110, 117, 108, 108] := by decide

/-- The parser reads `true` and `false`. -/
theorem parsesTo_bool (b : Bool) :
    json.ParsesTo (if b then str "true" else str "false") (.bool b) := by
  refine ⟨?_, ?_, fun fuel rest hf _ => ?_⟩
  · cases b
    · exact ⟨102, [97, 108, 115, 101], by simp [str_false], by decide⟩
    · exact ⟨116, [114, 117, 101], by simp [str_true], by decide⟩
  · cases b <;> simp [json.Tree.size, str_true, str_false]
  · cases fuel with
    | zero => simp [json.Tree.size] at hf
    | succ fuel =>
      cases b
      · simp only [Bool.false_eq_true, if_false, str_false, List.cons_append, List.nil_append,
          json.parseValue]
        rw [skipSpace_cons 102 _ (by decide)]
        simp [str_true, str_false, str_null, json.isDigit, ch_quote, ch_minus, ch_zero, ch_nine]
      · simp only [if_true, str_true, List.cons_append, List.nil_append, json.parseValue]
        rw [skipSpace_cons 116 _ (by decide)]
        simp [str_true, str_false, str_null, json.isDigit, ch_quote, ch_minus, ch_zero, ch_nine]

/-- The parser reads `null`. -/
theorem parsesTo_null : json.ParsesTo (str "null") .null := by
  refine ⟨⟨110, [117, 108, 108], by simp [str_null], by decide⟩,
    by simp [json.Tree.size, str_null], fun fuel rest hf _ => ?_⟩
  cases fuel with
  | zero => simp [json.Tree.size] at hf
  | succ fuel =>
    simp only [str_null, List.cons_append, List.nil_append, json.parseValue]
    rw [skipSpace_cons 110 _ (by decide)]
    simp [str_true, str_false, str_null, json.isDigit, ch_quote, ch_minus, ch_zero, ch_nine]

set_option maxRecDepth 100000 in
/-- A minus sign or a digit starts a value and none of the other kinds of value. -/
theorem numberStart_plain (c : UInt8) (h : (c == ch '-' || json.isDigit c) = true) :
    json.valueStart c = true ∧ json.isSpace c = false ∧ (c == 123) = false ∧
      (c == 91) = false ∧ (c == ch '"') = false := by
  have := forall_byte (fun c => decide ((c == ch '-' || json.isDigit c) = true →
    json.valueStart c = true ∧ json.isSpace c = false ∧ (c == 123) = false ∧
      (c == 91) = false ∧ (c == ch '"') = false)) (by decide) c
  exact of_decide_eq_true this h

/-- What `strconv.Itoa` writes starts with a minus sign or a digit. -/
theorem Itoa_head (n : Int) :
    ∃ c cs, strconv.Itoa n = c :: cs ∧ (c == ch '-' || json.isDigit c) = true := by
  cases n with
  | ofNat m =>
    simp only [strconv.Itoa]
    rcases digits_cases m with ⟨_, hds⟩ | ⟨_, c, cs, hds, h1, _, _⟩
    · exact ⟨ch '0', [], hds, by decide⟩
    · exact ⟨c, cs, hds, by simp [h1]⟩
  | negSucc m => exact ⟨ch '-', _, rfl, by decide⟩

/-- The parser reads a decimal integer as the number with that literal. -/
theorem parsesTo_number (n : Int) :
    json.ParsesTo (strconv.Itoa n) (.number (strconv.Itoa n)) := by
  obtain ⟨c, cs, hn, hc⟩ := Itoa_head n
  obtain ⟨h1, h2, h3, h4, h5⟩ := numberStart_plain c hc
  refine ⟨⟨c, cs, hn, h1⟩, ?_, fun fuel rest hf hd => ?_⟩
  · simp only [json.Tree.size, hn, List.length_cons]
    omega
  · cases fuel with
    | zero => simp [json.Tree.size] at hf
    | succ fuel =>
      have hs := scanNumber_Itoa n rest hd
      rw [hn] at hs ⊢
      simp only [List.cons_append] at hs ⊢
      simp only [json.parseValue]
      rw [skipSpace_cons c _ h2]
      simp only [h3, h4, h5, hc, Bool.false_eq_true, if_false, if_true, hs, Option.map_some']

/-- The parser reads a quoted string that is valid UTF-8 as that string. -/
theorem parsesTo_string (s : Bytes) (h : utf8.ValidString s = true) :
    json.ParsesTo (json.quote s) (.string s) := by
  refine ⟨⟨ch '"', json.escapeString s ++ [ch '"'], rfl, by decide⟩, ?_,
    fun fuel rest hf _ => ?_⟩
  · simp only [json.Tree.size, json.quote, List.length_cons, List.length_append]
    omega
  · cases fuel with
    | zero => simp [json.Tree.size] at hf
    | succ fuel =>
      have hu := unquoteLoop_escapeLoop s 0 rest h
      simp only [json.quote, json.escapeString, List.cons_append, List.append_assoc,
        List.singleton_append, json.parseValue]
      rw [skipSpace_cons (ch '"') _ (by decide)]
      simp only [ch_quote] at hu ⊢
      simp [hu]

/-- The first byte of the parts joined is the first byte of the first part. -/
theorem Join_head (c : UInt8) (cs : Bytes) (ps : List Bytes) (sep : Bytes) :
    ∃ tail, strings.Join ((c :: cs) :: ps) sep = c :: tail := by
  cases ps with
  | nil => exact ⟨cs, rfl⟩
  | cons q qs => exact ⟨_, rfl⟩

/-- The parser reads the elements between brackets as an array. -/
theorem parsesTo_array (parts : List Bytes) (trees : List json.Tree)
    (h : List.Forall₂ json.ParsesTo parts trees) :
    json.ParsesTo ([91] ++ strings.Join parts [ch ','] ++ [93]) (.array trees) := by
  refine ⟨⟨91, _, rfl, by decide⟩, ?_, fun fuel rest hf _ => ?_⟩
  · cases h with
    | nil => simp [json.Tree.size, json.sizeElems, strings.Join]
    | cons hp hps =>
      have := (parseElems_join _ _ (List.Forall₂.cons hp hps) (by simp)).1
      simp only [json.Tree.size, List.length_append, List.length_cons, List.length_nil]
      omega
  · cases fuel with
    | zero => simp [json.Tree.size] at hf
    | succ fuel =>
      cases h with
      | nil =>
        simp only [strings.Join, List.append_nil, List.singleton_append, List.cons_append,
          List.nil_append, json.parseValue]
        simp [fun r => skipSpace_cons 91 r (by decide), fun r => skipSpace_cons 93 r (by decide)]
      | cons hp hps =>
        rename_i p tree ps ts
        obtain ⟨c, cs, hc, hv⟩ := hp.1
        obtain ⟨v1, v2, _, _⟩ := valueStart_plain c hv
        have hj := (parseElems_join _ _ (List.Forall₂.cons hp hps) (by simp)).2 fuel rest
          (by simp only [json.Tree.size] at hf; omega)
        subst hc
        obtain ⟨tail, ht⟩ := Join_head c cs ps [ch ',']
        rw [ht] at hj ⊢
        simp only [List.singleton_append, List.cons_append, List.append_assoc, json.parseValue]
          at hj ⊢
        simp [fun r => skipSpace_cons 91 r (by decide), fun r => skipSpace_cons c r v1, v2, hj]

/-- The parser reads the members between braces as an object. -/
theorem parsesTo_object (parts : List Bytes) (members : List (Bytes × json.Tree))
    (h : List.Forall₂ json.MemberParsesTo parts members) :
    json.ParsesTo ([123] ++ strings.Join parts [ch ','] ++ [125]) (.object members) := by
  refine ⟨⟨123, _, rfl, by decide⟩, ?_, fun fuel rest hf _ => ?_⟩
  · cases h with
    | nil => simp [json.Tree.size, json.sizeMembers, strings.Join]
    | cons hp hps =>
      have := (parseMembers_join _ _ (List.Forall₂.cons hp hps) (by simp)).1
      simp only [json.Tree.size, List.length_append, List.length_cons, List.length_nil]
      omega
  · cases fuel with
    | zero => simp [json.Tree.size] at hf
    | succ fuel =>
      cases h with
      | nil =>
        simp only [strings.Join, List.append_nil, List.singleton_append, List.cons_append,
          List.nil_append, json.parseValue]
        simp [fun r => skipSpace_cons 123 r (by decide), fun r => skipSpace_cons 125 r (by decide)]
      | cons hp hps =>
        rename_i p member ps ms
        have hj := (parseMembers_join _ _ (List.Forall₂.cons hp hps) (by simp)).2 fuel rest
          (by simp only [json.Tree.size] at hf; omega)
        obtain ⟨_, enc, hpe, _⟩ := hp
        subst hpe
        obtain ⟨tail, ht⟩ := Join_head (ch '"')
          (json.escapeString member.1 ++ [ch '"'] ++ [ch ':'] ++ enc) ps [ch ',']
        have hq : json.quote member.1 ++ [ch ':'] ++ enc =
            ch '"' :: (json.escapeString member.1 ++ [ch '"'] ++ [ch ':'] ++ enc) := by
          simp [json.quote]
        rw [hq, ht] at hj ⊢
        simp only [List.singleton_append, List.cons_append, List.append_assoc, json.parseValue]
          at hj ⊢
        simp only [ch_quote] at hj ⊢
        simp [fun r => skipSpace_cons 123 r (by decide), fun r => skipSpace_cons 34 r (by decide), hj]

/-! ### The round trip -/

/-- Only a value that is encoded as `null` has the tree `null`. -/
theorem toTree_null : ∀ (v : reflect.Value), json.toTree v = some .null →
    json.encodesNull v = true
  | .bool _, h => by simp [json.toTree] at h
  | .int _, h => by simp [json.toTree] at h
  | .string _, h => by simp [json.toTree] at h
  | .slice none, _ => rfl
  | .slice (some elems), h => by simp [json.toTree] at h
  | .map none, _ => rfl
  | .map (some entries), h => by simp [json.toTree] at h
  | .struct fields, h => by simp [json.toTree] at h
  | .ptr none, _ => rfl
  | .ptr (some v), h => by
    simp only [json.toTree] at h
    simpa [json.encodesNull] using toTree_null v h
  | .chan, h => by simp [json.toTree] at h

/-- A stable value that `omitempty` leaves out is the zero value of its type. -/
theorem empty_is_zero (t : reflect.GoType) (v : reflect.Value) (hs : json.stable t v = true)
    (he : json.isEmptyValue v = true) (hn : json.nonNilEmpty v = false) : v = t.zero := by
  cases v with
  | bool b => cases t <;> simp_all [json.stable, json.isEmptyValue, reflect.GoType.zero]
  | int n => cases t <;> simp_all [json.stable, json.isEmptyValue, reflect.GoType.zero]
  | string s =>
    cases t <;> simp_all [json.stable, json.isEmptyValue, reflect.GoType.zero]
  | slice elems =>
    cases elems with
    | none => cases t <;> simp_all [json.stable, reflect.GoType.zero]
    | some l =>
      cases l with
      | nil => simp [json.nonNilEmpty] at hn
      | cons a rest => simp [json.isEmptyValue] at he
  | map entries =>
    cases entries with
    | none => cases t <;> simp_all [json.stable, reflect.GoType.zero]
    | some l =>
      cases l with
      | nil => simp [json.nonNilEmpty] at hn
      | cons a rest => simp [json.isEmptyValue] at he
  | struct fields => simp [json.isEmptyValue] at he
  | ptr elem =>
    cases elem with
    | none => cases t <;> simp_all [json.stable, reflect.GoType.zero]
    | some w => simp [json.isEmptyValue] at he
  | chan => simp [json.isEmptyValue] at he

/-- Sorting entries whose keys are in order changes nothing. -/
theorem sortByKey_sorted_id {β : Type} (l : List (Bytes × β))
    (h : json.sortedNames (l.map fun e => e.1) = true) : strings.sortByKey l = l := by
  induction l with
  | nil => rfl
  | cons kv rest ih =>
    cases rest with
    | nil => rfl
    | cons e r =>
      simp only [List.map_cons, json.sortedNames, Bool.and_eq_true] at h
      have := ih (by simpa [json.sortedNames] using h.2)
      simp [strings.sortByKey, strings.insertByKey, h.1] at this ⊢
      rw [this]
      simp [strings.insertByKey, h.1]

/-- Lists related entry by entry with equal keys have the same keys. -/
theorem keys_eq_of_forall₂ {α β : Type} (R : Bytes × α → Bytes × β → Prop)
    (hR : ∀ a b, R a b → a.1 = b.1) (l1 : List (Bytes × α)) (l2 : List (Bytes × β))
    (h : List.Forall₂ R l1 l2) : (l1.map fun e => e.1) = l2.map fun e => e.1 := by
  induction h with
  | nil => rfl
  | cons hab _ ih => simp [hR _ _ hab, ih]

mutual

/-- Every stable value is restored by decoding its encoding. -/
theorem restores_value : ∀ (v : reflect.Value) (t : reflect.GoType),
    json.stable t v = true → json.Restores t v
  | .bool b, t, h => by
    cases t <;> simp [json.stable] at h
    exact ⟨_, .bool b, rfl, rfl, parsesTo_bool b, rfl⟩
  | .int n, t, h => by
    cases t <;> simp [json.stable] at h
    exact ⟨_, .number (strconv.Itoa n), rfl, rfl, parsesTo_number n, by
      simp [json.store, reflect.GoType.base, reflect.GoType.wrap, ParseInt_Itoa n h.1 h.2]⟩
  | .string s, t, h => by
    cases t <;> simp [json.stable] at h
    exact ⟨_, .string s, rfl, rfl, parsesTo_string s h, rfl⟩
  | .slice none, t, h => by
    cases t <;> simp [json.stable] at h
    exact ⟨_, .null, rfl, rfl, parsesTo_null, rfl⟩
  | .slice (some elems), t, h => by
    cases t <;> simp [json.stable] at h
    rename_i elem
    obtain ⟨parts, trees, he, ht, hp, hs⟩ := restores_elems elems elem h
    refine ⟨_, .array trees, by simp [json.encode, he], by simp [json.toTree, ht],
      parsesTo_array parts trees hp, ?_⟩
    simp [json.store, reflect.GoType.base, reflect.GoType.wrap, reflect.GoType.indirect,
      reflect.GoType.zero, json.sliceElems, storeElems_nil elem elems trees hs]
  | .map none, t, h => by
    cases t <;> simp [json.stable] at h
    exact ⟨_, .null, rfl, rfl, parsesTo_null, rfl⟩
  | .map (some entries), t, h => by
    cases t <;> simp [json.stable] at h
    rename_i elem
    obtain ⟨⟨hst, hsorted⟩, hdistinct⟩ := h
    obtain ⟨parts, trees, he, ht, hp, hs⟩ := restores_entries entries elem hst
    have hk1 := keys_eq_of_forall₂ _ (fun _ _ hab => hab.1) _ _ hp
    have hk2 := keys_eq_of_forall₂ _ (fun _ _ hab => hab.1) _ _ hs
    have hsp : strings.sortByKey parts = parts :=
      sortByKey_sorted_id parts (by rw [hk1, ← hk2]; exact hsorted)
    have hstr : strings.sortByKey trees = trees :=
      sortByKey_sorted_id trees (by rw [← hk2]; exact hsorted)
    have hmem : List.Forall₂ json.MemberParsesTo
        (parts.map fun kv => json.quote kv.1 ++ [ch ':'] ++ kv.2) trees := by
      rw [List.forall₂_map_left_iff]
      refine hp.imp fun p tr hrel => ?_
      obtain ⟨h1, h2, h3⟩ := hrel
      exact ⟨h2, p.2, by rw [h1], h3⟩
    refine ⟨_, .object trees, by simp [json.encode, he, hsp], by simp [json.toTree, ht, hstr],
      parsesTo_object _ trees hmem, ?_⟩
    have hnd : ((([] : List (Bytes × reflect.Value)).map fun e => e.1) ++
        (entries.map fun e => e.1)).Nodup := by
      simpa using (distinctNames_iff _).1 hdistinct
    simp [json.store, reflect.GoType.base, reflect.GoType.wrap, reflect.GoType.indirect,
      reflect.GoType.zero, json.mapEntries, storeEntries_append elem entries trees hs [] hnd]
  | .struct fields, t, h => by
    cases t <;> simp [json.stable] at h
    rename_i fts
    obtain ⟨hst, hdistinct⟩ := h
    obtain ⟨parts, members, he, ht, hp, hr⟩ := restores_fields fields fts hst
    refine ⟨_, .object members, by simp [json.encode, he], by simp [json.toTree, ht],
      parsesTo_object parts members hp, ?_⟩
    have hnd : ((([] : List (Bytes × Bool × reflect.Value)).map fun f => f.1) ++
        (fields.map fun f => f.1)).Nodup := by
      simpa using (distinctNames_iff _).1 hdistinct
    have := storeMembers_fields fts fields members hr [] [] rfl hnd
    simp only [List.nil_append] at this
    simp [json.store, reflect.GoType.base, reflect.GoType.wrap, reflect.GoType.indirect,
      reflect.GoType.zero, json.structFields, this]
  | .ptr none, t, h => by
    cases t <;> simp [json.stable] at h
    exact ⟨_, .null, rfl, rfl, parsesTo_null, rfl⟩
  | .ptr (some v), t, h => by
    cases t <;> simp [json.stable] at h
    rename_i elem
    obtain ⟨enc, tree, he, ht, hp, hs⟩ := restores_value v elem h.1
    have hne : tree ≠ .null := by
      intro hnull
      subst hnull
      have := toTree_null v ht
      simp [h.2] at this
    refine ⟨enc, tree, by simp [json.encode, he], by simp [json.toTree, ht], hp, ?_⟩
    have hz : (reflect.GoType.ptr elem).zero = .ptr none := rfl
    rw [hz, store_ptr elem tree hne, hs]
  | .chan, t, h => by
    cases t <;> simp [json.stable] at h

/-- The elements of a stable slice are restored one by one. -/
theorem restores_elems : ∀ (elems : List reflect.Value) (elem : reflect.GoType),
    json.stableElems elem elems = true →
      ∃ parts trees, json.encodeElems elems = some parts ∧ json.toTrees elems = some trees ∧
        List.Forall₂ json.ParsesTo parts trees ∧
        List.Forall₂ (fun v tree => json.store elem elem.zero tree = (v, none)) elems trees
  | [], _, _ => ⟨[], [], rfl, rfl, .nil, .nil⟩
  | v :: rest, elem, h => by
    simp only [json.stableElems, Bool.and_eq_true] at h
    obtain ⟨enc, tree, he, ht, hp, hs⟩ := restores_value v elem h.1
    obtain ⟨parts, trees, hes, hts, hps, hss⟩ := restores_elems rest elem h.2
    exact ⟨enc :: parts, tree :: trees, by simp [json.encodeElems, he, hes],
      by simp [json.toTrees, ht, hts], .cons hp hps, .cons hs hss⟩

/-- The entries of a stable map are restored one by one. -/
theorem restores_entries : ∀ (entries : List (Bytes × reflect.Value)) (elem : reflect.GoType),
    json.stableEntries elem entries = true →
      ∃ (parts : List (Bytes × Bytes)) (trees : List (Bytes × json.Tree)),
        json.encodeEntries entries = some parts ∧ json.toEntries entries = some trees ∧
        List.Forall₂ (fun (p : Bytes × Bytes) (tr : Bytes × json.Tree) =>
          p.1 = tr.1 ∧ utf8.ValidString tr.1 = true ∧ json.ParsesTo p.2 tr.2) parts trees ∧
        List.Forall₂ (fun (kv : Bytes × reflect.Value) (kt : Bytes × json.Tree) =>
          kv.1 = kt.1 ∧ json.store elem elem.zero kt.2 = (kv.2, none)) entries trees
  | [], _, _ => ⟨[], [], rfl, rfl, .nil, .nil⟩
  | (k, v) :: rest, elem, h => by
    simp only [json.stableEntries, Bool.and_eq_true] at h
    obtain ⟨enc, tree, he, ht, hp, hs⟩ := restores_value v elem h.1.2
    obtain ⟨parts, trees, hes, hts, hps, hss⟩ := restores_entries rest elem h.2
    exact ⟨(k, enc) :: parts, (k, tree) :: trees, by simp [json.encodeEntries, he, hes],
      by simp [json.toEntries, ht, hts], .cons ⟨rfl, h.1.1, hp⟩ hps, .cons ⟨rfl, hs⟩ hss⟩

/-- The fields of a stable struct are restored one by one. -/
theorem restores_fields : ∀ (fields : List (Bytes × Bool × reflect.Value))
    (fts : List (Bytes × Bool × reflect.GoType)),
    json.stableFields fts fields = true →
      ∃ parts members, json.encodeFields fields = some parts ∧
        json.toMembers fields = some members ∧
        List.Forall₂ json.MemberParsesTo parts members ∧
        json.FieldsRestored fts fields members
  | [], fts, h => by
    cases fts with
    | nil => exact ⟨[], [], rfl, rfl, .nil, .nil⟩
    | cons f rest => simp [json.stableFields] at h
  | (name, omitEmpty, v) :: rest, fts, h => by
    cases fts with
    | nil => simp [json.stableFields] at h
    | cons f fts =>
      obtain ⟨n, o, t⟩ := f
      simp only [json.stableFields, Bool.and_eq_true, beq_iff_eq, Bool.not_eq_true',
        Bool.and_eq_false_iff] at h
      obtain ⟨⟨⟨⟨⟨hn, ho⟩, hvalid⟩, hst⟩, hempty⟩, hrest⟩ := h
      subst hn ho
      obtain ⟨parts, members, hes, hts, hps, hrs⟩ := restores_fields rest fts hrest
      by_cases hom : (o && json.isEmptyValue v) = true
      · simp only [Bool.and_eq_true] at hom
        have hne : json.nonNilEmpty v = false := by
          rcases hempty with h1 | h1
          · simp [hom.1] at h1
          · exact h1
        have hz := empty_is_zero t v hst hom.2 hne
        subst hz
        exact ⟨parts, members, by simp [json.encodeFields, hom.1, hom.2, hes],
          by simp [json.toMembers, hom.1, hom.2, hts], hps, .omitted _ _ _ _ _ _ hrs⟩
      · obtain ⟨enc, tree, he, ht, hp, hs⟩ := restores_value v t hst
        have hom2 : (o && json.isEmptyValue v) = false := by simpa using hom
        exact ⟨(json.quote n ++ [ch ':'] ++ enc) :: parts, (n, tree) :: members,
          by simp [json.encodeFields, hom2, he, hes], by simp [json.toMembers, hom2, ht, hts],
          .cons ⟨hvalid, enc, rfl, hp⟩ hps, .kept _ _ _ _ _ _ _ _ hs hrs⟩

end

/-- Go `json.Unmarshal` into a fresh variable restores every stable value from the bytes
that `json.Marshal` gives for it. -/
theorem Unmarshal_Marshal (t : reflect.GoType) (v : reflect.Value) (data : Bytes)
    (hs : json.stable t v = true) (hM : json.Marshal v = .ok data) :
    json.Unmarshal t data t.zero = (v, none) := by
  obtain ⟨enc, tree, he, _, hp, hst⟩ := restores_value v t hs
  have hd : data = enc := by
    simp only [json.Marshal, he, Except.ok.injEq] at hM
    exact hM.symm
  subst hd
  have hparse := hp.2.2 (2 * data.length + 2) [] (by have := hp.2.1; omega) rfl
  simp only [List.append_nil] at hparse
  simp [json.Unmarshal, json.parse, hparse, json.skipSpace, hst]

set_option maxRecDepth 100000 in
/-- Claim C18, as the code has it: for a non-nil pointer to a value whose encoding
`json.Marshal` gives as `data`, `TransformStructToReader` returns a nil error and the
reader whose complete bytes are `data`. For a stable value of type `t` (every string,
map key and field name is valid UTF-8, no pointer points to a nil pointer, slice or map,
no `omitempty` field holds a slice or map that is empty but not nil; integers are in the
range of `int64`, field names are distinct and map entries are listed in the order of
their keys) `json.Marshal` gives an encoding, and `json.Unmarshal` of the bytes of the
reader into a fresh variable of type `t` gives the value back, without error. -/
theorem TransformStructToReader_pointer (c : ClientV2) (t : reflect.GoType)
    (v : reflect.Value) :
    (∀ data, json.Marshal v = .ok data →
      c.TransformStructToReader (some (.ptr (some v))) = .ok ⟨data, none⟩ ∧
      ReadAll ⟨data, none⟩ = (data, none)) ∧
    (json.stable t v = true →
      ∃ data, json.Marshal v = .ok data ∧
        c.TransformStructToReader (some (.ptr (some v))) = .ok ⟨data, none⟩ ∧
        json.Unmarshal t (ReadAll ⟨data, none⟩).1 t.zero = (v, none)) := by
  have hreader : ∀ data, json.Marshal v = .ok data →
      c.TransformStructToReader (some (.ptr (some v))) = .ok ⟨data, none⟩ := by
    intro data hM
    have hp : json.Marshal (.ptr (some v)) = .ok data := by
      unfold json.Marshal at hM ⊢
      simpa [json.encode] using hM
    rw [TransformStructToReader_not_struct c _ (by simp [reflect.Value.Kind]), hp]
  refine ⟨fun data hM => ⟨hreader data hM, rfl⟩, fun hs => ?_⟩
  obtain ⟨enc, _, he, _, _, _⟩ := restores_value v t hs
  have hM : json.Marshal v = .ok enc := by simp [json.Marshal, he]
  exact ⟨enc, hM, hreader enc hM, Unmarshal_Marshal t v enc hs hM⟩

set_option maxRecDepth 100000 in
/-- Witness of C18 as amended: the pointer to the issue payload gives a reader over its
JSON text, with the summary escaped and the zero `votes` left out, and decoding that text
into a fresh issue gives the payload back. -/
theorem TransformStructToReader_pointer_witness :
    json.stable Fixture.issueType Fixture.issue = true ∧
    (Fixture.client 200 []).TransformStructToReader (some (.ptr (some Fixture.issue)))
      = .ok ⟨Fixture.issueBody, none⟩ ∧
    json.Unmarshal Fixture.issueType Fixture.issueBody Fixture.issueType.zero
      = (Fixture.issue, none) :=
  by
  have hM : json.Marshal Fixture.issue = .ok Fixture.issueBody := by decide
  have h := TransformStructToReader_pointer (Fixture.client 200 []) Fixture.issueType
    Fixture.issue
  obtain ⟨data, hd, _, hu⟩ := h.2 (by decide)
  rw [hM] at hd
  cases hd
  exact ⟨by decide, (h.1 _ hM).1, hu⟩

end GoAtlassian
